import Mathlib

/-!
Verification development for the nionswift document model
(`nion/swift/model/DocumentModel.py` and `nion/swift/model/Symbolic.py`).

The development shallowly embeds the parts of the code that the checked
properties are about:

* the startup record loading and schema-migration pipeline
  (`PersistentDataItemContext.read_data_items`, `__migrate_to_latest`,
  `FilePersistentStorageSystem.find_data_items`);
* the document model state machine: membership of data items, the
  dependency maps, the transaction / live reference counters, and the
  asynchronous computation queue (`remove_data_item`,
  `begin/end_data_item_transaction`, `begin/end_data_item_live`,
  `__add_dependency`, `__remove_dependency`, `computation_changed`,
  `__recompute`);
* the symbolic expression trees of `Symbolic.py` with their
  `reconstruct` rendering and the operator fragment of the textual
  expression grammar used by `parse_expression`.

Python dicts keyed by uuid / object identity are modelled as functions
from `Nat` (item ids); Python's unbounded integers as `Int`; exceptions
as `Except Unit`; exception-conditions of code that is abstracted (the
bodies of the migration transforms, evaluation of a computation) as
boolean flags / universally quantified parameters.
-/

namespace NionSwift

/-! ## Record loading and the migration pipeline

`PersistentDataItemContext.read_data_items` reads raw property dicts from
the storage handlers, migrates them to the current writer version and
constructs data items from the records whose version equals the writer
version.  The migration bodies transform nested dicts; those bodies are
abstracted as functions `body : P → P` over an abstract payload type `P`
(the contents of the properties dict other than `"version"`), and every
relevant theorem is universally quantified over them.  What is embedded
faithfully is the control flow: the per-step version guards, the
`changed_ref` rewrite flag, the per-record exception isolation, and the
construction condition `version == writer_version`. -/

/-- One record in `read_data_items`' pipeline: the `ReaderInfo` named
tuple `(properties, changed_ref, persistent_storage_handler)`.
`version` is `properties.get("version", 0)` and `payload` the rest of the
properties dict (abstract).  The `*_ok` fields model whether the
corresponding piece of Python code raises an exception when run on this
record: `handler_ok` for constructing the storage handler in
`find_data_items`, `read_ok` for `read_properties()`, `migrate_ok v` for
the body of the migration step whose output version is `v`, and
`construct_ok` for constructing the data item and reading it from the
dict. -/
structure ReaderInfo (P : Type) where
  version : Int
  payload : P
  changed : Bool
  handler_ok : Bool
  read_ok : Bool
  migrate_ok : Int → Bool
  construct_ok : Bool

/-- Current writer version (`DataItem.DataItem.writer_version`). -/
def writer_version : Int := 10

/-- One guarded migration step applied to one record.  Mirrors the shape
shared by `__migrate_to_v3` … `__migrate_to_v10`: if the record's version
satisfies the guard, set `changed_ref[0] = True` (when `setChanged`,
which holds for v3..v10 but not for `__migrate_to_v2`), then run the body
inside `try:`; the body ends by setting `properties["version"]` to the
output version, so when the body raises the version is left unchanged and
the exception is caught and logged. -/
def migrate_step_body {P : Type} (outVer : Int) (body : P → P) (r1 : ReaderInfo P) :
    ReaderInfo P :=
  if r1.migrate_ok outVer then
    { r1 with payload := body r1.payload, version := outVer }
  else r1

/-- One guarded migration step applied to one record: if the record's
version satisfies the guard, set `changed_ref[0] = True` (when
`setChanged`) and run the body via `migrate_step_body`. -/
def migrate_step {P : Type} (guard : Int → Bool) (outVer : Int) (setChanged : Bool)
    (body : P → P) (r : ReaderInfo P) : ReaderInfo P :=
  if guard r.version then
    migrate_step_body outVer body (if setChanged then { r with changed := true } else r)
  else r

/-- `__migrate_to_v2` applied to one record: guard `version <= 1`, does
not set `changed_ref`. -/
def migrate_to_v2_record {P : Type} (body : P → P) : ReaderInfo P → ReaderInfo P :=
  migrate_step (fun v => v ≤ 1) 2 false body

/-- `__migrate_to_v3` applied to one record: guard `version == 2`. -/
def migrate_to_v3_record {P : Type} (body : P → P) : ReaderInfo P → ReaderInfo P :=
  migrate_step (fun v => v = 2) 3 true body

/-- `__migrate_to_v4` applied to one record: guard `version == 3`. -/
def migrate_to_v4_record {P : Type} (body : P → P) : ReaderInfo P → ReaderInfo P :=
  migrate_step (fun v => v = 3) 4 true body

/-- `__migrate_to_v5` applied to one record: guard `version == 4`. -/
def migrate_to_v5_record {P : Type} (body : P → P) : ReaderInfo P → ReaderInfo P :=
  migrate_step (fun v => v = 4) 5 true body

/-- `__migrate_to_v6` applied to one record: guard `version == 5`. -/
def migrate_to_v6_record {P : Type} (body : P → P) : ReaderInfo P → ReaderInfo P :=
  migrate_step (fun v => v = 5) 6 true body

/-- `__migrate_to_v7` applied to one record: guard `version == 6`. -/
def migrate_to_v7_record {P : Type} (body : P → P) : ReaderInfo P → ReaderInfo P :=
  migrate_step (fun v => v = 6) 7 true body

/-- `__migrate_to_v8` applied to one record: guard `version == 7`. -/
def migrate_to_v8_record {P : Type} (body : P → P) : ReaderInfo P → ReaderInfo P :=
  migrate_step (fun v => v = 7) 8 true body

/-- `__migrate_to_v9` applied to one record: guard `version == 8`.  (Its
preliminary pass over all records only reads properties to build the
`data_source_uuid` → `data_item_uuid` map feeding the body, and traps its
own exceptions per record; it is folded into the abstract body.) -/
def migrate_to_v9_record {P : Type} (body : P → P) : ReaderInfo P → ReaderInfo P :=
  migrate_step (fun v => v = 8) 9 true body

/-- `__migrate_to_v10` applied to one record: guard `version == 9`. -/
def migrate_to_v10_record {P : Type} (body : P → P) : ReaderInfo P → ReaderInfo P :=
  migrate_step (fun v => v = 9) 10 true body

/-- The abstract bodies of the nine migration transforms, indexed by
output version. -/
def MigBodies (P : Type) := Int → P → P

/-- `__migrate_to_latest` restricted to one record: the nine migration
steps applied in source order (v2 first, v10 last).  Each
`__migrate_to_vN` iterates over the whole record list, so the list-level
pipeline is the pointwise map of this composition. -/
def migrate_record {P : Type} (bodies : MigBodies P) (r : ReaderInfo P) : ReaderInfo P :=
  migrate_to_v10_record (bodies 10) <|
  migrate_to_v9_record (bodies 9) <|
  migrate_to_v8_record (bodies 8) <|
  migrate_to_v7_record (bodies 7) <|
  migrate_to_v6_record (bodies 6) <|
  migrate_to_v5_record (bodies 5) <|
  migrate_to_v4_record (bodies 4) <|
  migrate_to_v3_record (bodies 3) <|
  migrate_to_v2_record (bodies 2) r

/-- `__migrate_to_latest` on a record list. -/
def migrate_to_latest {P : Type} (bodies : MigBodies P) (l : List (ReaderInfo P)) :
    List (ReaderInfo P) :=
  l.map (migrate_record bodies)

/-- `FilePersistentStorageSystem.find_data_items`: builds the list of
storage handlers; an exception while constructing a handler (or its
`is_valid` assertion) is logged with `logging.error` and then *re-raised*,
aborting the enumeration. -/
def find_data_items {P : Type} : List (ReaderInfo P) → Except Unit (List (ReaderInfo P))
  | [] => Except.ok []
  | r :: rest =>
    if r.handler_ok then
      match find_data_items rest with
      | Except.ok hs => Except.ok (r :: hs)
      | Except.error e => Except.error e
    else Except.error ()

/-- The construction phase of `read_data_items` (the default
`target_document is None` path), after the handlers have been enumerated:
records whose `read_properties()` raises are skipped (caught and logged),
the rest are migrated; a migrated record is constructed into a data item
only when its version equals the writer version, and within that branch
it is first rewritten to storage when its `changed_ref` flag is set
(`write_properties`), then constructed — a construction exception is
caught per record.  Returns (loaded data items, records rewritten to
storage).  (Deduplication of loaded items by uuid and the final sort by
creation date are not modelled: uuids and dates are part of the abstract
payload.) -/
def read_records {P : Type} (bodies : MigBodies P) (hs : List (ReaderInfo P)) :
    List (ReaderInfo P) × List (ReaderInfo P) :=
  let reader_info_list := hs.filter (fun r => r.read_ok)
  let migrated := migrate_to_latest bodies reader_info_list
  (migrated.filter (fun r => r.version = writer_version ∧ r.construct_ok),
   migrated.filter (fun r => r.version = writer_version ∧ r.changed))

/-- `PersistentDataItemContext.read_data_items`: enumerate handlers from
the storage systems (`find_data_items` — whose exceptions propagate),
then read, migrate and construct per record. -/
def read_data_items {P : Type} (bodies : MigBodies P) (files : List (ReaderInfo P)) :
    Except Unit (List (ReaderInfo P) × List (ReaderInfo P)) :=
  match find_data_items files with
  | Except.ok hs => Except.ok (read_records bodies hs)
  | Except.error e => Except.error e

theorem migrate_step_eq_of_guard_false {P : Type} (guard : Int → Bool) (outVer : Int)
    (sc : Bool) (body : P → P) (r : ReaderInfo P) (h : guard r.version = false) :
    migrate_step guard outVer sc body r = r := by
  simp [migrate_step, h]

theorem migrate_record_version_gt {P : Type} (bodies : MigBodies P) (r : ReaderInfo P)
    (h : writer_version < r.version) : migrate_record bodies r = r := by
  have h10 : (10 : Int) < r.version := h
  unfold migrate_record
  rw [migrate_to_v2_record, migrate_step_eq_of_guard_false _ _ _ _ r (by simp; omega)]
  rw [migrate_to_v3_record, migrate_step_eq_of_guard_false _ _ _ _ r (by simp; omega)]
  rw [migrate_to_v4_record, migrate_step_eq_of_guard_false _ _ _ _ r (by simp; omega)]
  rw [migrate_to_v5_record, migrate_step_eq_of_guard_false _ _ _ _ r (by simp; omega)]
  rw [migrate_to_v6_record, migrate_step_eq_of_guard_false _ _ _ _ r (by simp; omega)]
  rw [migrate_to_v7_record, migrate_step_eq_of_guard_false _ _ _ _ r (by simp; omega)]
  rw [migrate_to_v8_record, migrate_step_eq_of_guard_false _ _ _ _ r (by simp; omega)]
  rw [migrate_to_v9_record, migrate_step_eq_of_guard_false _ _ _ _ r (by simp; omega)]
  rw [migrate_to_v10_record, migrate_step_eq_of_guard_false _ _ _ _ r (by simp; omega)]

theorem migrate_step_body_flags {P : Type} (outVer : Int) (body : P → P)
    (r : ReaderInfo P) :
    (migrate_step_body outVer body r).handler_ok = r.handler_ok ∧
    (migrate_step_body outVer body r).read_ok = r.read_ok ∧
    (migrate_step_body outVer body r).migrate_ok = r.migrate_ok ∧
    (migrate_step_body outVer body r).construct_ok = r.construct_ok ∧
    (migrate_step_body outVer body r).changed = r.changed := by
  unfold migrate_step_body
  split <;> simp

/-- The migration steps carry the exception-behaviour flags of a record
through unchanged (they only touch `payload`, `version` and `changed`). -/
def FlagsEq {P : Type} (a b : ReaderInfo P) : Prop :=
  a.handler_ok = b.handler_ok ∧ a.read_ok = b.read_ok ∧
  a.migrate_ok = b.migrate_ok ∧ a.construct_ok = b.construct_ok

theorem flagsEq_trans {P : Type} {a b c : ReaderInfo P}
    (h1 : FlagsEq a b) (h2 : FlagsEq b c) : FlagsEq a c := by
  obtain ⟨x1, x2, x3, x4⟩ := h1
  obtain ⟨y1, y2, y3, y4⟩ := h2
  exact ⟨x1.trans y1, x2.trans y2, x3.trans y3, x4.trans y4⟩

theorem migrate_step_flags {P : Type} (guard : Int → Bool) (outVer : Int) (sc : Bool)
    (body : P → P) (r : ReaderInfo P) :
    FlagsEq (migrate_step guard outVer sc body r) r := by
  unfold migrate_step
  split
  · obtain ⟨h1, h2, h3, h4, _⟩ :=
      migrate_step_body_flags outVer body (if sc then { r with changed := true } else r)
    refine ⟨h1.trans ?_, h2.trans ?_, h3.trans ?_, h4.trans ?_⟩ <;> split <;> rfl
  · exact ⟨rfl, rfl, rfl, rfl⟩

theorem migrate_record_flags {P : Type} (bodies : MigBodies P) (r : ReaderInfo P) :
    FlagsEq (migrate_record bodies r) r := by
  unfold migrate_record migrate_to_v2_record migrate_to_v3_record migrate_to_v4_record
    migrate_to_v5_record migrate_to_v6_record migrate_to_v7_record migrate_to_v8_record
    migrate_to_v9_record migrate_to_v10_record
  iterate 8 refine flagsEq_trans (migrate_step_flags _ _ _ _ _) ?_
  exact migrate_step_flags _ _ _ _ _

theorem migrate_step_version_fires {P : Type} (guard : Int → Bool) (outVer : Int)
    (sc : Bool) (body : P → P) (x : ReaderInfo P) (hg : guard x.version = true)
    (hok : x.migrate_ok outVer = true) :
    (migrate_step guard outVer sc body x).version = outVer := by
  unfold migrate_step migrate_step_body
  rw [hg]
  cases sc <;> simp [hok]

/-- Progress of one `version == k` guarded step: a record at version `k`
moves to version `k+1`, a record strictly between `k` and `10` is left
alone. -/
theorem migrate_step_progress {P : Type} (k next : Int) (sc : Bool) (body : P → P)
    (x : ReaderInfo P) (hok : ∀ v, x.migrate_ok v = true)
    (hnext : next = k + 1)
    (h : x.version = k ∨ (k < x.version ∧ x.version ≤ 10)) :
    ((migrate_step (fun v => v = k) next sc body x).version = next ∨
      (next < (migrate_step (fun v => v = k) next sc body x).version ∧
       (migrate_step (fun v => v = k) next sc body x).version ≤ 10)) ∧
    (∀ v, (migrate_step (fun v => v = k) next sc body x).migrate_ok v = true) := by
  have hflags := (migrate_step_flags (fun v => v = k) next sc body x).2.2.1
  constructor
  · rcases h with h | h
    · left
      exact migrate_step_version_fires _ _ _ _ _ (by simp [h]) (hok next)
    · rw [migrate_step_eq_of_guard_false _ _ _ _ x (by simp; omega)]
      omega
  · intro v
    rw [hflags]
    exact hok v

/-- Any record at version `≤ 10` whose migration bodies all succeed is
carried to exactly the writer version by the full pipeline. -/
theorem migrate_record_version_le {P : Type} (bodies : MigBodies P) (r : ReaderInfo P)
    (hv : r.version ≤ writer_version) (hok : ∀ v, r.migrate_ok v = true) :
    (migrate_record bodies r).version = writer_version := by
  unfold migrate_record
  have hv10 : r.version ≤ (10 : Int) := hv
  have h2 : ((migrate_to_v2_record (bodies 2) r).version = 2 ∨
      (2 < (migrate_to_v2_record (bodies 2) r).version ∧
        (migrate_to_v2_record (bodies 2) r).version ≤ 10)) ∧
      (∀ v, (migrate_to_v2_record (bodies 2) r).migrate_ok v = true) := by
    unfold migrate_to_v2_record
    constructor
    · by_cases h1 : r.version ≤ 1
      · left
        exact migrate_step_version_fires _ _ _ _ _ (by simp [h1]) (hok 2)
      · rw [migrate_step_eq_of_guard_false _ _ _ _ r (by simp; omega)]
        omega
    · intro v
      rw [(migrate_step_flags _ _ _ _ r).2.2.1]
      exact hok v
  rw [migrate_to_v3_record, migrate_to_v4_record, migrate_to_v5_record,
    migrate_to_v6_record, migrate_to_v7_record, migrate_to_v8_record,
    migrate_to_v9_record, migrate_to_v10_record]
  have h3 := migrate_step_progress 2 3 true (bodies 3) _ h2.2 (by norm_num) h2.1
  have h4 := migrate_step_progress 3 4 true (bodies 4) _ h3.2 (by norm_num) h3.1
  have h5 := migrate_step_progress 4 5 true (bodies 5) _ h4.2 (by norm_num) h4.1
  have h6 := migrate_step_progress 5 6 true (bodies 6) _ h5.2 (by norm_num) h5.1
  have h7 := migrate_step_progress 6 7 true (bodies 7) _ h6.2 (by norm_num) h6.1
  have h8 := migrate_step_progress 7 8 true (bodies 8) _ h7.2 (by norm_num) h7.1
  have h9 := migrate_step_progress 8 9 true (bodies 9) _ h8.2 (by norm_num) h8.1
  have h10 := migrate_step_progress 9 10 true (bodies 10) _ h9.2 (by norm_num) h9.1
  have : writer_version = (10 : Int) := rfl
  rw [this]
  omega

/-- Every record loaded ends at the writer version with its read and
construct stages succeeding. -/
theorem mem_loaded {P : Type} (bodies : MigBodies P) (hs : List (ReaderInfo P))
    (m : ReaderInfo P) (hm : m ∈ (read_records bodies hs).1) :
    m.version = writer_version ∧ m.construct_ok = true ∧ m.read_ok = true := by
  unfold read_records at hm
  simp only [List.mem_filter] at hm
  obtain ⟨hmem, hcond⟩ := hm
  simp only [decide_eq_true_eq] at hcond
  refine ⟨hcond.1, hcond.2, ?_⟩
  unfold migrate_to_latest at hmem
  simp only [List.mem_map, List.mem_filter] at hmem
  obtain ⟨pre, ⟨_, hpre⟩, hmig⟩ := hmem
  rw [← hmig, (migrate_record_flags bodies pre).2.1]
  exact hpre

/-- Every record rewritten to storage during loading had reached the
writer version and carried the `changed_ref` flag. -/
theorem mem_written {P : Type} (bodies : MigBodies P) (hs : List (ReaderInfo P))
    (m : ReaderInfo P) (hm : m ∈ (read_records bodies hs).2) :
    m.version = writer_version ∧ m.changed = true := by
  unfold read_records at hm
  simp only [List.mem_filter, decide_eq_true_eq] at hm
  exact hm.2

/-- A record whose read, migration and construction stages all succeed
and whose version is at most the writer version is loaded. -/
theorem loaded_of_good {P : Type} (bodies : MigBodies P) (hs : List (ReaderInfo P))
    (r : ReaderInfo P) (hmem : r ∈ hs) (hread : r.read_ok = true)
    (hmig : ∀ v, r.migrate_ok v = true) (hcon : r.construct_ok = true)
    (hv : r.version ≤ writer_version) :
    migrate_record bodies r ∈ (read_records bodies hs).1 ∧
    (migrate_record bodies r).version = writer_version := by
  have hver := migrate_record_version_le bodies r hv hmig
  have hflags := migrate_record_flags bodies r
  refine ⟨?_, hver⟩
  unfold read_records migrate_to_latest
  simp only [List.mem_filter, List.mem_map, decide_eq_true_eq]
  refine ⟨⟨r, ?_, rfl⟩, hver, ?_⟩
  · exact ⟨hmem, hread⟩
  · rw [hflags.2.2.2]
    exact hcon

/-- C6.  A stored record whose version exceeds the writer version 10 is
skipped entirely during loading: no migration step touches it, it is
never constructed into a data item and never rewritten; while a record at
version 10 or below (whose read/migration/construction code does not
raise) is migrated to exactly version 10 and loaded. -/
theorem read_data_items_version_gate {P : Type} (bodies : MigBodies P)
    (hs : List (ReaderInfo P)) (r : ReaderInfo P) :
    (writer_version < r.version →
      migrate_record bodies r = r ∧
      r ∉ (read_records bodies hs).1 ∧
      r ∉ (read_records bodies hs).2) ∧
    (r.version ≤ writer_version → r ∈ hs → r.read_ok = true →
      (∀ v, r.migrate_ok v = true) → r.construct_ok = true →
      migrate_record bodies r ∈ (read_records bodies hs).1 ∧
      (migrate_record bodies r).version = writer_version) := by
  constructor
  · intro hgt
    refine ⟨migrate_record_version_gt bodies r hgt, ?_, ?_⟩
    · intro hmem
      have := (mem_loaded bodies hs r hmem).1
      omega
    · intro hmem
      have := (mem_written bodies hs r hmem).1
      omega
  · intro hv hmem hread hmig hcon
    exact loaded_of_good bodies hs r hmem hread hmig hcon hv

/-- Concrete record fixtures used by the witnesses and the
counterexample. -/
def wRecLow : ReaderInfo Unit :=
  { version := 3, payload := (), changed := false, handler_ok := true,
    read_ok := true, migrate_ok := fun _ => true, construct_ok := true }

def wRecHigh : ReaderInfo Unit :=
  { version := 11, payload := (), changed := false, handler_ok := true,
    read_ok := true, migrate_ok := fun _ => true, construct_ok := true }

def wRecCurrent : ReaderInfo Unit :=
  { version := 10, payload := (), changed := false, handler_ok := true,
    read_ok := true, migrate_ok := fun _ => true, construct_ok := true }

def wRecBadHandler : ReaderInfo Unit :=
  { version := 10, payload := (), changed := false, handler_ok := false,
    read_ok := true, migrate_ok := fun _ => true, construct_ok := true }

def wBodies : MigBodies Unit := fun _ p => p

theorem read_data_items_version_gate_witness :
    (writer_version < wRecHigh.version ∧
      migrate_record wBodies wRecHigh = wRecHigh ∧
      wRecHigh ∉ (read_records wBodies [wRecHigh, wRecLow]).1 ∧
      wRecHigh ∉ (read_records wBodies [wRecHigh, wRecLow]).2) ∧
    (wRecLow.version ≤ writer_version ∧ wRecLow ∈ [wRecHigh, wRecLow] ∧
      wRecLow.read_ok = true ∧ wRecLow.construct_ok = true ∧
      migrate_record wBodies wRecLow ∈ (read_records wBodies [wRecHigh, wRecLow]).1 ∧
      (migrate_record wBodies wRecLow).version = writer_version) := by
  have h1 := (read_data_items_version_gate wBodies [wRecHigh, wRecLow] wRecHigh).1
    (by norm_num [wRecHigh, writer_version])
  have h2 := (read_data_items_version_gate wBodies [wRecHigh, wRecLow] wRecLow).2
    (by norm_num [wRecLow, writer_version])
    (List.mem_cons_of_mem _ (List.mem_singleton.mpr rfl)) rfl (fun _ => rfl) rfl
  exact ⟨⟨by norm_num [wRecHigh, writer_version], h1.1, h1.2.1, h1.2.2⟩,
    ⟨by norm_num [wRecLow, writer_version],
      List.mem_cons_of_mem _ (List.mem_singleton.mpr rfl), rfl, rfl, h2.1, h2.2⟩⟩

/-- C7.  Applying the full migration pipeline to a record already at the
writer version is a no-op: the record (payload, version and `changed_ref`
rewrite flag included) is returned unchanged, whatever the migration
bodies are. -/
theorem migrate_record_noop_at_writer_version {P : Type} (bodies : MigBodies P)
    (r : ReaderInfo P) (h : r.version = writer_version) :
    migrate_record bodies r = r := by
  have h10 : r.version = (10 : Int) := h
  unfold migrate_record
  rw [migrate_to_v2_record, migrate_step_eq_of_guard_false _ _ _ _ r (by simp; omega)]
  rw [migrate_to_v3_record, migrate_step_eq_of_guard_false _ _ _ _ r (by simp; omega)]
  rw [migrate_to_v4_record, migrate_step_eq_of_guard_false _ _ _ _ r (by simp; omega)]
  rw [migrate_to_v5_record, migrate_step_eq_of_guard_false _ _ _ _ r (by simp; omega)]
  rw [migrate_to_v6_record, migrate_step_eq_of_guard_false _ _ _ _ r (by simp; omega)]
  rw [migrate_to_v7_record, migrate_step_eq_of_guard_false _ _ _ _ r (by simp; omega)]
  rw [migrate_to_v8_record, migrate_step_eq_of_guard_false _ _ _ _ r (by simp; omega)]
  rw [migrate_to_v9_record, migrate_step_eq_of_guard_false _ _ _ _ r (by simp; omega)]
  rw [migrate_to_v10_record, migrate_step_eq_of_guard_false _ _ _ _ r (by simp; omega)]

theorem migrate_record_noop_at_writer_version_witness :
    wRecCurrent.version = writer_version ∧
    migrate_record wBodies wRecCurrent = wRecCurrent := by
  exact ⟨rfl, migrate_record_noop_at_writer_version wBodies wRecCurrent rfl⟩

/-- If every handler constructs without raising, `find_data_items`
returns them all. -/
theorem find_data_items_ok {P : Type} (files : List (ReaderInfo P))
    (h : ∀ f ∈ files, f.handler_ok = true) : find_data_items files = Except.ok files := by
  induction files with
  | nil => rfl
  | cons f rest ih =>
    unfold find_data_items
    rw [h f (List.mem_cons_self f rest), ih (fun g hg => h g (List.mem_cons_of_mem f hg))]
    simp

/-- C8 (counterexample to the claim as stated).  An exception while
reading one record during handler enumeration
(`FilePersistentStorageSystem.find_data_items`) is *re-raised* after
being logged, so the whole load aborts: with one unreadable record and
one good record nothing is loaded, while the good record alone loads
fine. -/
theorem read_data_items_aborts_on_handler_error :
    read_data_items wBodies [wRecBadHandler, wRecCurrent] = Except.error () ∧
    read_data_items wBodies [wRecCurrent] =
      Except.ok ([wRecCurrent], []) := by
  constructor
  · rfl
  · rfl

/-- C8 (amended).  Provided every record's storage handler constructs
without raising in `find_data_items`, failures of the per-record stages
are isolated: the load returns normally, every loaded record passed its
read and construction stages at version 10, and every record whose own
stages succeed at version ≤ 10 is loaded regardless of how other records
fail.  (A handler-enumeration failure instead propagates and aborts the
whole load, as the counterexample shows.) -/
theorem read_data_items_isolates_record_failures {P : Type} (bodies : MigBodies P)
    (files : List (ReaderInfo P)) (r : ReaderInfo P)
    (hall : ∀ f ∈ files, f.handler_ok = true) :
    read_data_items bodies files = Except.ok (read_records bodies files) ∧
    (∀ m ∈ (read_records bodies files).1,
      m.read_ok = true ∧ m.construct_ok = true ∧ m.version = writer_version) ∧
    (r ∈ files → r.read_ok = true → (∀ v, r.migrate_ok v = true) →
      r.construct_ok = true → r.version ≤ writer_version →
      migrate_record bodies r ∈ (read_records bodies files).1) := by
  refine ⟨?_, ?_, ?_⟩
  · unfold read_data_items
    rw [find_data_items_ok files hall]
  · intro m hm
    obtain ⟨h1, h2, h3⟩ := mem_loaded bodies files m hm
    exact ⟨h3, h2, h1⟩
  · intro hmem hread hmig hcon hv
    exact (loaded_of_good bodies files r hmem hread hmig hcon hv).1

theorem read_data_items_isolates_record_failures_witness :
    (∀ f ∈ [wRecLow, wRecCurrent], f.handler_ok = true) ∧
    read_data_items wBodies [wRecLow, wRecCurrent] =
      Except.ok (read_records wBodies [wRecLow, wRecCurrent]) ∧
    migrate_record wBodies wRecLow ∈ (read_records wBodies [wRecLow, wRecCurrent]).1 := by
  have hall : ∀ f ∈ [wRecLow, wRecCurrent], f.handler_ok = true := by
    intro f hf
    rcases List.mem_cons.mp hf with h | h
    · rw [h]; rfl
    · rw [List.mem_singleton.mp h]; rfl
  have h := read_data_items_isolates_record_failures wBodies [wRecLow, wRecCurrent]
    wRecLow hall
  exact ⟨hall, h.1, h.2.2 (List.mem_cons_self _ _) rfl (fun _ => rfl) rfl
    (by norm_num [wRecLow, writer_version])⟩

/-! ## The document model state machine

`DocumentModel` keeps: the ordered list of member data items
(`__data_items`), the two inverse dependency maps
(`__dependent_data_items` / `__source_data_items`), the per-item
transaction and live reference counters (`__transactions` /
`__live_data_items`, dicts defaulting to `0`), and the computation queue
(`__computation_pending_queue` / `__computation_active_items`).  Data
items are identified by `Nat` ids (standing for the Python objects /
their uuids); the dicts become total functions defaulting to `0` / `[]`.
The recursive cascades (`begin/end_data_item_transaction`,
`begin/end_data_item_live`, `remove_data_item`) take a fuel parameter:
Python recursion depth is unbounded, so every theorem either takes the
fuel as given or assumes the call returned normally. -/

/-- Pointwise update of a `Nat`-keyed map. -/
def fupd {α : Type} (f : Nat → α) (i : Nat) (v : α) : Nat → α :=
  fun j => if j = i then v else f j

theorem fupd_same {α : Type} (f : Nat → α) (i : Nat) (v : α) : fupd f i v i = v := by
  simp [fupd]

theorem fupd_other {α : Type} (f : Nat → α) (i j : Nat) (v : α) (h : j ≠ i) :
    fupd f i v j = f j := by
  simp [fupd, h]

/-- `ComputationQueueItem`: one pending/active recompute request. -/
structure ComputationQueueItem where
  data_item : Nat
  buffered_data_source : Nat
  computation : Option Nat
  valid : Bool
deriving DecidableEq

/-- Trace of the `_enter/_exit_transaction_state` and
`_enter/_exit_live_state` side effects on data items, used to state in
which order and on which count transitions they fire. -/
inductive StateEvent where
  | enterTransaction (i : Nat)
  | exitTransaction (i : Nat)
  | enterLive (i : Nat)
  | exitLive (i : Nat)
deriving DecidableEq

/-- The state of one `DocumentModel` together with the per-data-item
state the model manipulates. -/
structure DocState where
  /-- `__data_items`: the ordered member list. -/
  data_items : List Nat
  /-- `__dependent_data_items`: source item → list of dependent items. -/
  dependent_data_items : Nat → List Nat
  /-- `__source_data_items`: dependent item → list of source items. -/
  source_data_items : Nat → List Nat
  /-- Modelled from the spec: `DataItem.data_sources`, the buffered data
  sources owned by a data item (zero or one in well-formed documents). -/
  data_sources : Nat → List Nat
  /-- `__transactions`: per-uuid transaction counts (dict, default 0). -/
  transactions : Nat → Int
  /-- `__live_data_items`: per-uuid live counts (dict, default 0). -/
  live_data_items : Nat → Int
  /-- Modelled from the spec: `DataItem.in_transaction_state`, the
  write-delay flag toggled by `_enter/_exit_transaction_state`. -/
  in_transaction_state : Nat → Bool
  /-- Modelled from the spec: `DataItem.is_live`, toggled by
  `_enter/_exit_live_state`. -/
  is_live : Nat → Bool
  /-- `__computation_pending_queue`. -/
  pending_queue : List ComputationQueueItem
  /-- `__computation_active_items`. -/
  active_items : List ComputationQueueItem
  /-- Modelled from the spec: the array content currently stored in each
  buffered data source (`set_data_and_metadata` writes it). -/
  bds_data : Nat → Int
  /-- Instrumentation: trace of `_enter/_exit_*_state` side effects. -/
  events : List StateEvent
  /-- Instrumentation: number of `dispatch_task2(self.__recompute)`
  calls (recompute tasks scheduled on the computation thread pool). -/
  dispatch_count : Nat

/-- Modelled from the spec: `DataItem._enter_transaction_state` (enters
the write-delay state).  Records the trace event and sets the flag. -/
def enter_transaction_state (s : DocState) (i : Nat) : DocState :=
  { s with in_transaction_state := fupd s.in_transaction_state i true,
           events := s.events ++ [StateEvent.enterTransaction i] }

/-- Modelled from the spec: `DataItem._exit_transaction_state`. -/
def exit_transaction_state (s : DocState) (i : Nat) : DocState :=
  { s with in_transaction_state := fupd s.in_transaction_state i false,
           events := s.events ++ [StateEvent.exitTransaction i] }

/-- Modelled from the spec: `DataItem._enter_live_state`. -/
def enter_live_state (s : DocState) (i : Nat) : DocState :=
  { s with is_live := fupd s.is_live i true,
           events := s.events ++ [StateEvent.enterLive i] }

/-- Modelled from the spec: `DataItem._exit_live_state`. -/
def exit_live_state (s : DocState) (i : Nat) : DocState :=
  { s with is_live := fupd s.is_live i false,
           events := s.events ++ [StateEvent.exitLive i] }

/-- `DocumentModel.begin_data_item_transaction`: increment the count
under the lock; on a 0→1 transition enter the item's transaction state
and recursively begin a transaction on every current dependent. -/
def begin_data_item_transaction : Nat → DocState → Nat → DocState
  | 0, s, _ => s
  | fuel + 1, s, i =>
    if s.transactions i = 0 then
      (s.dependent_data_items i).foldl
        (fun acc d => begin_data_item_transaction fuel acc d)
        (enter_transaction_state
          { s with transactions := fupd s.transactions i (s.transactions i + 1) } i)
    else { s with transactions := fupd s.transactions i (s.transactions i + 1) }

/-- `DocumentModel.end_data_item_transaction`: decrement the count under
the lock, asserting it does not drop below zero (the assertion error is
the `Except.error` case and leaves the dict unwritten); on a 1→0
transition first end the transaction of every current dependent, then
exit the item's own transaction state. -/
def end_data_item_transaction : Nat → DocState → Nat → Except Unit DocState
  | 0, _, _ => Except.error ()
  | fuel + 1, s, i =>
    if s.transactions i - 1 < 0 then Except.error ()
    else if s.transactions i - 1 = 0 then
      match (s.dependent_data_items i).foldlM
          (fun acc d => end_data_item_transaction fuel acc d)
          { s with transactions := fupd s.transactions i (s.transactions i - 1) } with
      | Except.ok s2 => Except.ok (exit_transaction_state s2 i)
      | Except.error e => Except.error e
    else Except.ok { s with transactions := fupd s.transactions i (s.transactions i - 1) }

/-- `DocumentModel.begin_data_item_live`: same counting/cascade shape as
the transaction state, on the live counters. -/
def begin_data_item_live : Nat → DocState → Nat → DocState
  | 0, s, _ => s
  | fuel + 1, s, i =>
    if s.live_data_items i = 0 then
      (s.dependent_data_items i).foldl
        (fun acc d => begin_data_item_live fuel acc d)
        (enter_live_state
          { s with live_data_items := fupd s.live_data_items i (s.live_data_items i + 1) } i)
    else { s with live_data_items := fupd s.live_data_items i (s.live_data_items i + 1) }

/-- `DocumentModel.end_data_item_live`: decrement with the same
assertion; on a 1→0 transition exit the item's own live state first and
then end the live state of the dependents (note: the opposite order from
`end_data_item_transaction`). -/
def end_data_item_live : Nat → DocState → Nat → Except Unit DocState
  | 0, _, _ => Except.error ()
  | fuel + 1, s, i =>
    if s.live_data_items i - 1 < 0 then Except.error ()
    else if s.live_data_items i - 1 = 0 then
      (s.dependent_data_items i).foldlM
        (fun acc d => end_data_item_live fuel acc d)
        (exit_live_state
          { s with live_data_items := fupd s.live_data_items i (s.live_data_items i - 1) } i)
    else Except.ok { s with live_data_items := fupd s.live_data_items i (s.live_data_items i - 1) }

/-- `DocumentModel.__add_dependency`: append the edge to both inverse
maps under the lock, then propagate the source's current transaction and
live states to the target. -/
def add_dependency_edges (s : DocState) (source_data_item target_data_item : Nat) :
    DocState :=
  { s with
    dependent_data_items := fupd s.dependent_data_items source_data_item
      (s.dependent_data_items source_data_item ++ [target_data_item]),
    source_data_items := fupd s.source_data_items target_data_item
      (s.source_data_items target_data_item ++ [source_data_item]) }

/-- The transaction-propagation stage of `__add_dependency`. -/
def add_dependency_tx (fuel : Nat) (s : DocState)
    (source_data_item target_data_item : Nat) : DocState :=
  if s.in_transaction_state source_data_item then
    begin_data_item_transaction fuel s target_data_item else s

/-- The live-propagation stage of `__add_dependency`. -/
def add_dependency_live (fuel : Nat) (s : DocState)
    (source_data_item target_data_item : Nat) : DocState :=
  if s.is_live source_data_item then
    begin_data_item_live fuel s target_data_item else s

def add_dependency (fuel : Nat) (s : DocState) (source_data_item target_data_item : Nat) :
    DocState :=
  add_dependency_live fuel
    (add_dependency_tx fuel (add_dependency_edges s source_data_item target_data_item)
      source_data_item target_data_item)
    source_data_item target_data_item

/-- Remove the first occurrence of `x` in `l`; Python's `list.remove`
raises `ValueError` when `x` is absent. -/
def list_remove (l : List Nat) (x : Nat) : Except Unit (List Nat) :=
  if x ∈ l then Except.ok (l.erase x) else Except.error ()

/-- `DocumentModel.__remove_dependency`: remove the edge from both
inverse maps under the lock, then end the target's transaction / live
state if the source is currently in it. -/
def remove_dependency_tx (fuel : Nat) (s : DocState)
    (source_data_item target_data_item : Nat) : Except Unit DocState :=
  if s.in_transaction_state source_data_item then
    end_data_item_transaction fuel s target_data_item else Except.ok s

def remove_dependency_live (fuel : Nat) (s : DocState)
    (source_data_item target_data_item : Nat) : Except Unit DocState :=
  if s.is_live source_data_item then
    end_data_item_live fuel s target_data_item else Except.ok s

def remove_dependency (fuel : Nat) (s : DocState)
    (source_data_item target_data_item : Nat) : Except Unit DocState :=
  match list_remove (s.dependent_data_items source_data_item) target_data_item,
        list_remove (s.source_data_items target_data_item) source_data_item with
  | Except.ok deps, Except.ok srcs =>
    match remove_dependency_tx fuel
        { s with
          dependent_data_items := fupd s.dependent_data_items source_data_item deps,
          source_data_items := fupd s.source_data_items target_data_item srcs }
        source_data_item target_data_item with
    | Except.ok s2 => remove_dependency_live fuel s2 source_data_item target_data_item
    | Except.error e => Except.error e
  | _, _ => Except.error ()

/-- `DocumentModel.get_source_data_items` (a copy of the list under the
lock). -/
def get_source_data_items (s : DocState) (data_item : Nat) : List Nat :=
  s.source_data_items data_item

/-- `DocumentModel.get_dependent_data_items`. -/
def get_dependent_data_items (s : DocState) (data_item : Nat) : List Nat :=
  s.dependent_data_items data_item

/-- The inner `computation_needs_update` closure of
`DocumentModel.computation_changed`: under the queue lock, if a pending
entry for this buffered data source exists, update its computation
pointer in place and return; otherwise append a fresh entry and (outside
the lock) dispatch a recompute task. -/
def set_computation_first : List ComputationQueueItem → Nat → Option Nat →
    List ComputationQueueItem
  | [], _, _ => []
  | q :: rest, bds, comp =>
    if q.buffered_data_source = bds then { q with computation := comp } :: rest
    else q :: set_computation_first rest bds comp

def computation_needs_update (s : DocState) (data_item buffered_data_source : Nat)
    (computation : Nat) : DocState :=
  if s.pending_queue.any (fun q => q.buffered_data_source = buffered_data_source) then
    { s with pending_queue :=
        set_computation_first s.pending_queue buffered_data_source (some computation) }
  else
    { s with
      pending_queue := s.pending_queue ++
        [{ data_item := data_item, buffered_data_source := buffered_data_source,
           computation := some computation, valid := true }],
      dispatch_count := s.dispatch_count + 1 }

/-- Mark the first pending-or-active entry for this buffered data source
invalid (the `computation is None` branch of `computation_changed`: the
entry is invalidated in place instead of being removed from the list an
in-progress recompute may be iterating). -/
def invalidate_first : List ComputationQueueItem → Nat → List ComputationQueueItem
  | [], _ => []
  | q :: rest, bds =>
    if q.buffered_data_source = bds then { q with valid := false } :: rest
    else q :: invalidate_first rest bds

/-- `DocumentModel.computation_changed` (the listener bookkeeping on
`needs_update_event` is not part of the queue state; firing the listener
is modelled by calling `computation_needs_update` again). -/
def computation_changed (s : DocState) (data_item buffered_data_source : Nat)
    (computation : Option Nat) : DocState :=
  match computation with
  | some c => computation_needs_update s data_item buffered_data_source c
  | none =>
    if (s.pending_queue ++ s.active_items).any
        (fun q => q.buffered_data_source = buffered_data_source) then
      if s.pending_queue.any (fun q => q.buffered_data_source = buffered_data_source) then
        { s with pending_queue := invalidate_first s.pending_queue buffered_data_source }
      else
        { s with active_items := invalidate_first s.active_items buffered_data_source }
    else s

/-- `DocumentModel.__recompute`: pop the head of the pending queue and
move it to the active set; evaluate the computation against a clone of
the data item (evaluation never touches live state, so it is abstracted
by the parameter `eval`; `clone_newer` abstracts the
`data_modified` timestamp comparison deciding whether the clone carries
new data); only when the entry is still marked valid is the result
merged into the live buffered data source; finally remove the entry from
the active set.  Any evaluation exception is caught (it skips the merge
and records error text, which changes nothing modelled here). -/
def recompute_merge (eval : ComputationQueueItem → Int) (clone_newer : Bool)
    (q : ComputationQueueItem) (s1 : DocState) : DocState :=
  match q.computation with
  | some _ =>
    if q.valid ∧ clone_newer then
      { s1 with bds_data := fupd s1.bds_data q.buffered_data_source (eval q) }
    else s1
  | none => s1

def recompute_finish (q : ComputationQueueItem) (s2 : DocState) : DocState :=
  { s2 with active_items := s2.active_items.erase q }

def recompute (eval : ComputationQueueItem → Int) (clone_newer : Bool)
    (s : DocState) : DocState :=
  match s.pending_queue with
  | [] => s
  | q :: rest =>
    recompute_finish q
      (recompute_merge eval clone_newer q
        { s with pending_queue := rest, active_items := s.active_items ++ [q] })

/-- `DocumentModel.remove_data_item`: (a) mark every queued/active
computation entry whose buffered data source belongs to this item
invalid; (b)(c) notify listeners and detach from groups (no queue/count
effect, not modelled); (d) recursively remove every other data item
whose source list is exactly `[data_item]`; (e) assert membership and
delete from the member list (listener/storage teardown and
`data_item.close()` happen outside the embedded state). -/
def invalidate_for (ds : List Nat) (q : ComputationQueueItem) : ComputationQueueItem :=
  if q.buffered_data_source ∈ ds then { q with valid := false } else q

/-- Step (a) of `remove_data_item`: mark every pending/active entry
whose buffered data source belongs to the removed item invalid. -/
def remove_invalidate (s : DocState) (data_item : Nat) : DocState :=
  { s with
    pending_queue := s.pending_queue.map (invalidate_for (s.data_sources data_item)),
    active_items := s.active_items.map (invalidate_for (s.data_sources data_item)) }

def remove_data_item : Nat → DocState → Nat → Except Unit DocState
  | 0, _, _ => Except.error ()
  | fuel + 1, s, data_item =>
    match (get_dependent_data_items (remove_invalidate s data_item) data_item).foldlM
        (fun acc other_data_item =>
          if get_source_data_items acc other_data_item = [data_item] then
            remove_data_item fuel acc other_data_item
          else Except.ok acc) (remove_invalidate s data_item) with
    | Except.ok s2 =>
      if data_item ∈ s2.data_items then
        Except.ok { s2 with data_items := s2.data_items.erase data_item }
      else Except.error ()
    | Except.error e => Except.error e

theorem foldl_rel {σ α : Type} (R : σ → σ → Prop) (f : σ → α → σ)
    (hrefl : ∀ s, R s s) (htrans : ∀ {a b c}, R a b → R b c → R a c)
    (hstep : ∀ s a, R s (f s a)) : ∀ (l : List α) (s : σ), R s (l.foldl f s) := by
  intro l
  induction l with
  | nil => intro s; exact hrefl s
  | cons a t ih => intro s; exact htrans (hstep s a) (ih (f s a))

theorem foldlM_rel {σ α : Type} (R : σ → σ → Prop) (f : σ → α → Except Unit σ)
    (hrefl : ∀ s, R s s) (htrans : ∀ {a b c}, R a b → R b c → R a c)
    (hstep : ∀ s a s', f s a = Except.ok s' → R s s') :
    ∀ (l : List α) (s s' : σ), l.foldlM f s = Except.ok s' → R s s' := by
  intro l
  induction l with
  | nil =>
    intro s s' h
    simp only [List.foldlM_nil] at h
    cases h
    exact hrefl s
  | cons a t ih =>
    intro s s' h
    rw [List.foldlM_cons] at h
    cases hfa : f s a with
    | ok s1 =>
      rw [hfa] at h
      exact htrans (hstep s a s1 hfa) (ih s1 s' h)
    | error e =>
      rw [hfa] at h
      cases h

/-- Fields untouched by the transaction-state operations. -/
def TxOnly (s t : DocState) : Prop :=
  t.data_items = s.data_items ∧
  t.dependent_data_items = s.dependent_data_items ∧
  t.source_data_items = s.source_data_items ∧
  t.data_sources = s.data_sources ∧
  t.live_data_items = s.live_data_items ∧
  t.is_live = s.is_live ∧
  t.pending_queue = s.pending_queue ∧
  t.active_items = s.active_items ∧
  t.bds_data = s.bds_data ∧
  t.dispatch_count = s.dispatch_count

theorem txOnly_refl (s : DocState) : TxOnly s s :=
  ⟨rfl, rfl, rfl, rfl, rfl, rfl, rfl, rfl, rfl, rfl⟩

theorem txOnly_trans {a b c : DocState} (h1 : TxOnly a b) (h2 : TxOnly b c) :
    TxOnly a c := by
  obtain ⟨x1, x2, x3, x4, x5, x6, x7, x8, x9, x10⟩ := h1
  obtain ⟨y1, y2, y3, y4, y5, y6, y7, y8, y9, y10⟩ := h2
  exact ⟨y1.trans x1, y2.trans x2, y3.trans x3, y4.trans x4, y5.trans x5,
    y6.trans x6, y7.trans x7, y8.trans x8, y9.trans x9, y10.trans x10⟩

theorem begin_transaction_txOnly :
    ∀ (fuel : Nat) (s : DocState) (i : Nat),
      TxOnly s (begin_data_item_transaction fuel s i) := by
  intro fuel
  induction fuel with
  | zero => intro s i; exact txOnly_refl s
  | succ n ih =>
    intro s i
    rw [begin_data_item_transaction]
    split
    · have h1 : TxOnly s (enter_transaction_state
        { s with transactions := fupd s.transactions i (s.transactions i + 1) } i) :=
        ⟨rfl, rfl, rfl, rfl, rfl, rfl, rfl, rfl, rfl, rfl⟩
      exact txOnly_trans h1
        (foldl_rel TxOnly _ txOnly_refl txOnly_trans (fun s' a => ih s' a) _ _)
    · exact ⟨rfl, rfl, rfl, rfl, rfl, rfl, rfl, rfl, rfl, rfl⟩

theorem end_transaction_txOnly :
    ∀ (fuel : Nat) (s : DocState) (i : Nat) (s' : DocState),
      end_data_item_transaction fuel s i = Except.ok s' → TxOnly s s' := by
  intro fuel
  induction fuel with
  | zero => intro s i s' h; cases h
  | succ n ih =>
    intro s i s' h
    rw [end_data_item_transaction] at h
    split at h
    · cases h
    · split at h
      · split at h
        · rename_i s2 hfold
          cases h
          have h1 : TxOnly s
              { s with transactions := fupd s.transactions i (s.transactions i - 1) } :=
            ⟨rfl, rfl, rfl, rfl, rfl, rfl, rfl, rfl, rfl, rfl⟩
          have h2 := foldlM_rel TxOnly _ txOnly_refl txOnly_trans
            (fun a b c hc => ih a b c hc) _ _ _ hfold
          have h3 : TxOnly s2 (exit_transaction_state s2 i) :=
            ⟨rfl, rfl, rfl, rfl, rfl, rfl, rfl, rfl, rfl, rfl⟩
          exact txOnly_trans h1 (txOnly_trans h2 h3)
        · cases h
      · cases h
        exact ⟨rfl, rfl, rfl, rfl, rfl, rfl, rfl, rfl, rfl, rfl⟩

/-- Fields untouched by the live-state operations. -/
def LiveOnly (s t : DocState) : Prop :=
  t.data_items = s.data_items ∧
  t.dependent_data_items = s.dependent_data_items ∧
  t.source_data_items = s.source_data_items ∧
  t.data_sources = s.data_sources ∧
  t.transactions = s.transactions ∧
  t.in_transaction_state = s.in_transaction_state ∧
  t.pending_queue = s.pending_queue ∧
  t.active_items = s.active_items ∧
  t.bds_data = s.bds_data ∧
  t.dispatch_count = s.dispatch_count

theorem liveOnly_refl (s : DocState) : LiveOnly s s :=
  ⟨rfl, rfl, rfl, rfl, rfl, rfl, rfl, rfl, rfl, rfl⟩

theorem liveOnly_trans {a b c : DocState} (h1 : LiveOnly a b) (h2 : LiveOnly b c) :
    LiveOnly a c := by
  obtain ⟨x1, x2, x3, x4, x5, x6, x7, x8, x9, x10⟩ := h1
  obtain ⟨y1, y2, y3, y4, y5, y6, y7, y8, y9, y10⟩ := h2
  exact ⟨y1.trans x1, y2.trans x2, y3.trans x3, y4.trans x4, y5.trans x5,
    y6.trans x6, y7.trans x7, y8.trans x8, y9.trans x9, y10.trans x10⟩

theorem begin_live_liveOnly :
    ∀ (fuel : Nat) (s : DocState) (i : Nat),
      LiveOnly s (begin_data_item_live fuel s i) := by
  intro fuel
  induction fuel with
  | zero => intro s i; exact liveOnly_refl s
  | succ n ih =>
    intro s i
    rw [begin_data_item_live]
    split
    · have h1 : LiveOnly s (enter_live_state
        { s with live_data_items := fupd s.live_data_items i (s.live_data_items i + 1) } i) :=
        ⟨rfl, rfl, rfl, rfl, rfl, rfl, rfl, rfl, rfl, rfl⟩
      exact liveOnly_trans h1
        (foldl_rel LiveOnly _ liveOnly_refl liveOnly_trans (fun s' a => ih s' a) _ _)
    · exact ⟨rfl, rfl, rfl, rfl, rfl, rfl, rfl, rfl, rfl, rfl⟩

theorem end_live_liveOnly :
    ∀ (fuel : Nat) (s : DocState) (i : Nat) (s' : DocState),
      end_data_item_live fuel s i = Except.ok s' → LiveOnly s s' := by
  intro fuel
  induction fuel with
  | zero => intro s i s' h; cases h
  | succ n ih =>
    intro s i s' h
    rw [end_data_item_live] at h
    split at h
    · cases h
    · split at h
      · have h1 : LiveOnly s (exit_live_state
            { s with live_data_items := fupd s.live_data_items i (s.live_data_items i - 1) }
            i) :=
          ⟨rfl, rfl, rfl, rfl, rfl, rfl, rfl, rfl, rfl, rfl⟩
        exact liveOnly_trans h1
          (foldlM_rel LiveOnly _ liveOnly_refl liveOnly_trans
            (fun a b c hc => ih a b c hc) _ _ _ h)
      · cases h
        exact ⟨rfl, rfl, rfl, rfl, rfl, rfl, rfl, rfl, rfl, rfl⟩

/-- Begin-transaction only raises counters and only sets transaction
flags (never clears them). -/
def TxMono (a b : DocState) : Prop :=
  (∀ j, a.transactions j ≤ b.transactions j) ∧
  (∀ j, a.in_transaction_state j = true → b.in_transaction_state j = true)

theorem txMono_refl (s : DocState) : TxMono s s := ⟨fun _ => le_refl _, fun _ h => h⟩

theorem txMono_trans {a b c : DocState} (h1 : TxMono a b) (h2 : TxMono b c) :
    TxMono a c :=
  ⟨fun j => le_trans (h1.1 j) (h2.1 j), fun j hj => h2.2 j (h1.2 j hj)⟩

theorem begin_transaction_mono :
    ∀ (fuel : Nat) (s : DocState) (i : Nat),
      TxMono s (begin_data_item_transaction fuel s i) := by
  intro fuel
  induction fuel with
  | zero => intro s i; exact txMono_refl s
  | succ n ih =>
    intro s i
    rw [begin_data_item_transaction]
    split
    · refine txMono_trans ?_
        (foldl_rel TxMono _ txMono_refl txMono_trans (fun s0 a => ih s0 a) _ _)
      constructor
      · intro j
        simp only [enter_transaction_state]
        by_cases hk : j = i
        · subst hk; simp [fupd]
        · simp [fupd, hk]
      · intro j hj
        simp only [enter_transaction_state]
        by_cases hk : j = i
        · subst hk; simp [fupd]
        · simp [fupd, hk]; exact hj
    · constructor
      · intro j
        by_cases hk : j = i
        · subst hk; simp [fupd]
        · simp [fupd, hk]
      · intro j hj
        exact hj

theorem begin_transaction_target (fuel : Nat) (s : DocState) (i : Nat) :
    s.transactions i + 1 ≤ (begin_data_item_transaction (fuel + 1) s i).transactions i ∧
    (s.transactions i = 0 →
      (begin_data_item_transaction (fuel + 1) s i).in_transaction_state i = true) := by
  rw [begin_data_item_transaction]
  split
  · have hmono := foldl_rel TxMono _ txMono_refl txMono_trans
      (fun s0 a => begin_transaction_mono fuel s0 a) (s.dependent_data_items i)
      (enter_transaction_state
        { s with transactions := fupd s.transactions i (s.transactions i + 1) } i)
    constructor
    · have h1 := hmono.1 i
      have h2 : (enter_transaction_state
          { s with transactions := fupd s.transactions i (s.transactions i + 1) }
          i).transactions i = s.transactions i + 1 := by
        simp [enter_transaction_state, fupd]
      rw [h2] at h1
      exact h1
    · intro _
      apply hmono.2 i
      simp [enter_transaction_state, fupd]
  · rename_i h0
    constructor
    · simp [fupd]
    · intro h; exact absurd h h0

/-- On a begin with a positive current count nothing but the counter
changes (state entered only on the 0→1 transition). -/
theorem begin_transaction_no_enter (fuel : Nat) (s : DocState) (i : Nat)
    (h : s.transactions i ≠ 0) :
    begin_data_item_transaction (fuel + 1) s i =
      { s with transactions := fupd s.transactions i (s.transactions i + 1) } := by
  rw [begin_data_item_transaction, if_neg h]

/-- On an end with count at least 2 nothing but the counter changes
(state exited only on the 1→0 transition). -/
theorem end_transaction_no_exit (fuel : Nat) (s : DocState) (i : Nat)
    (h : 2 ≤ s.transactions i) :
    end_data_item_transaction (fuel + 1) s i =
      Except.ok { s with transactions := fupd s.transactions i (s.transactions i - 1) } := by
  rw [end_data_item_transaction, if_neg (by omega), if_neg (by omega)]

theorem end_transaction_dec :
    ∀ (fuel : Nat) (s : DocState) (i : Nat) (s' : DocState),
      end_data_item_transaction fuel s i = Except.ok s' →
      ∀ j, s'.transactions j ≤ s.transactions j := by
  intro fuel
  induction fuel with
  | zero => intro s i s' h; cases h
  | succ n ih =>
    intro s i s' h
    rw [end_data_item_transaction] at h
    split at h
    · cases h
    · split at h
      · split at h
        · rename_i s2 hfold
          cases h
          intro j
          have hfold2 := foldlM_rel
            (fun a b => ∀ k, b.transactions k ≤ a.transactions k)
            (fun acc d => end_data_item_transaction n acc d)
            (fun s0 k => le_refl _)
            (fun h1 h2 k => le_trans (h2 k) (h1 k))
            (fun a b c hc => ih a b c hc) _ _ _ hfold
          have h2 := hfold2 j
          simp only [exit_transaction_state]
          refine le_trans h2 ?_
          by_cases hk : j = i
          · subst hk; simp [fupd]
          · simp [fupd, hk]
        · cases h
      · cases h
        intro j
        by_cases hk : j = i
        · subst hk; simp [fupd]
        · simp [fupd, hk]

theorem end_transaction_nonneg :
    ∀ (fuel : Nat) (s : DocState) (i : Nat) (s' : DocState),
      end_data_item_transaction fuel s i = Except.ok s' →
      (∀ j, 0 ≤ s.transactions j) → ∀ j, 0 ≤ s'.transactions j := by
  intro fuel
  induction fuel with
  | zero => intro s i s' h; cases h
  | succ n ih =>
    intro s i s' h hpos
    rw [end_data_item_transaction] at h
    split at h
    · cases h
    · rename_i hge
      have hmid : ∀ j, (0 : Int) ≤ fupd s.transactions i (s.transactions i - 1) j := by
        intro j
        by_cases hk : j = i
        · subst hk; simp [fupd]; omega
        · simp [fupd, hk]; exact hpos j
      split at h
      · split at h
        · rename_i s2 hfold
          cases h
          have hfold2 := foldlM_rel
            (fun a b => (∀ k, 0 ≤ a.transactions k) → (∀ k, 0 ≤ b.transactions k))
            (fun acc d => end_data_item_transaction n acc d)
            (fun s0 hp => hp)
            (fun h1 h2 hp => h2 (h1 hp))
            (fun a b c hc => ih a b c hc) _ _ _ hfold
          intro j
          simp only [exit_transaction_state]
          exact hfold2 hmid j
        · cases h
      · cases h
        exact hmid

theorem end_transaction_target (fuel : Nat) (s : DocState) (i : Nat) (s' : DocState)
    (h : end_data_item_transaction fuel s i = Except.ok s') :
    s'.transactions i ≤ s.transactions i - 1 ∧
    (s.transactions i = 1 → s'.in_transaction_state i = false) := by
  cases fuel with
  | zero => cases h
  | succ n =>
    rw [end_data_item_transaction] at h
    split at h
    · cases h
    · split at h
      · split at h
        · rename_i s2 hfold
          cases h
          constructor
          · have hdec := foldlM_rel
              (fun a b => ∀ k, b.transactions k ≤ a.transactions k)
              (fun acc d => end_data_item_transaction n acc d)
              (fun s0 k => le_refl _)
              (fun h1 h2 k => le_trans (h2 k) (h1 k))
              (fun a b c hc => end_transaction_dec n a b c hc) _ _ _ hfold
            have h1 := hdec i
            simp only [fupd_same] at h1
            simpa [exit_transaction_state] using h1
          · intro _
            simp [exit_transaction_state, fupd]
        · cases h
      · rename_i hlt hne
        cases h
        constructor
        · simp [fupd]
        · intro h1
          exact absurd (by omega : s.transactions i - 1 = 0) hne

/-- Begin-live only raises counters and only sets live flags. -/
def LiveMono (a b : DocState) : Prop :=
  (∀ j, a.live_data_items j ≤ b.live_data_items j) ∧
  (∀ j, a.is_live j = true → b.is_live j = true)

theorem liveMono_refl (s : DocState) : LiveMono s s := ⟨fun _ => le_refl _, fun _ h => h⟩

theorem liveMono_trans {a b c : DocState} (h1 : LiveMono a b) (h2 : LiveMono b c) :
    LiveMono a c :=
  ⟨fun j => le_trans (h1.1 j) (h2.1 j), fun j hj => h2.2 j (h1.2 j hj)⟩

theorem begin_live_mono :
    ∀ (fuel : Nat) (s : DocState) (i : Nat),
      LiveMono s (begin_data_item_live fuel s i) := by
  intro fuel
  induction fuel with
  | zero => intro s i; exact liveMono_refl s
  | succ n ih =>
    intro s i
    rw [begin_data_item_live]
    split
    · refine liveMono_trans ?_
        (foldl_rel LiveMono _ liveMono_refl liveMono_trans (fun s0 a => ih s0 a) _ _)
      constructor
      · intro j
        simp only [enter_live_state]
        by_cases hk : j = i
        · subst hk; simp [fupd]
        · simp [fupd, hk]
      · intro j hj
        simp only [enter_live_state]
        by_cases hk : j = i
        · subst hk; simp [fupd]
        · simp [fupd, hk]; exact hj
    · constructor
      · intro j
        by_cases hk : j = i
        · subst hk; simp [fupd]
        · simp [fupd, hk]
      · intro j hj
        exact hj

theorem begin_live_target (fuel : Nat) (s : DocState) (i : Nat) :
    s.live_data_items i + 1 ≤ (begin_data_item_live (fuel + 1) s i).live_data_items i ∧
    (s.live_data_items i = 0 →
      (begin_data_item_live (fuel + 1) s i).is_live i = true) := by
  rw [begin_data_item_live]
  split
  · have hmono := foldl_rel LiveMono _ liveMono_refl liveMono_trans
      (fun s0 a => begin_live_mono fuel s0 a) (s.dependent_data_items i)
      (enter_live_state
        { s with live_data_items := fupd s.live_data_items i (s.live_data_items i + 1) } i)
    constructor
    · have h1 := hmono.1 i
      have h2 : (enter_live_state
          { s with live_data_items := fupd s.live_data_items i (s.live_data_items i + 1) }
          i).live_data_items i = s.live_data_items i + 1 := by
        simp [enter_live_state, fupd]
      rw [h2] at h1
      exact h1
    · intro _
      apply hmono.2 i
      simp [enter_live_state, fupd]
  · rename_i h0
    constructor
    · simp [fupd]
    · intro h; exact absurd h h0

theorem begin_live_no_enter (fuel : Nat) (s : DocState) (i : Nat)
    (h : s.live_data_items i ≠ 0) :
    begin_data_item_live (fuel + 1) s i =
      { s with live_data_items := fupd s.live_data_items i (s.live_data_items i + 1) } := by
  rw [begin_data_item_live, if_neg h]

theorem end_live_no_exit (fuel : Nat) (s : DocState) (i : Nat)
    (h : 2 ≤ s.live_data_items i) :
    end_data_item_live (fuel + 1) s i =
      Except.ok { s with live_data_items := fupd s.live_data_items i (s.live_data_items i - 1) } := by
  rw [end_data_item_live, if_neg (by omega), if_neg (by omega)]

theorem end_live_dec :
    ∀ (fuel : Nat) (s : DocState) (i : Nat) (s' : DocState),
      end_data_item_live fuel s i = Except.ok s' → LiveMono s' s := by
  intro fuel
  induction fuel with
  | zero => intro s i s' h; cases h
  | succ n ih =>
    intro s i s' h
    rw [end_data_item_live] at h
    split at h
    · cases h
    · split at h
      · have hfold := foldlM_rel (fun a b => LiveMono b a)
          (fun acc d => end_data_item_live n acc d)
          (fun s0 => liveMono_refl s0)
          (fun h1 h2 => liveMono_trans h2 h1)
          (fun a b c hc => ih a b c hc) _ _ _ h
        constructor
        · intro j
          refine le_trans (hfold.1 j) ?_
          simp only [exit_live_state]
          by_cases hk : j = i
          · subst hk; simp [fupd]
          · simp [fupd, hk]
        · intro j hj
          have := hfold.2 j hj
          simp only [exit_live_state] at this
          by_cases hk : j = i
          · subst hk; simp [fupd] at this
          · simpa [fupd, hk] using this
      · cases h
        constructor
        · intro j
          by_cases hk : j = i
          · subst hk; simp [fupd]
          · simp [fupd, hk]
        · intro j hj
          exact hj

theorem end_live_nonneg :
    ∀ (fuel : Nat) (s : DocState) (i : Nat) (s' : DocState),
      end_data_item_live fuel s i = Except.ok s' →
      (∀ j, 0 ≤ s.live_data_items j) → ∀ j, 0 ≤ s'.live_data_items j := by
  intro fuel
  induction fuel with
  | zero => intro s i s' h; cases h
  | succ n ih =>
    intro s i s' h hpos
    rw [end_data_item_live] at h
    split at h
    · cases h
    · rename_i hge
      have hmid : ∀ j, (0 : Int) ≤ fupd s.live_data_items i (s.live_data_items i - 1) j := by
        intro j
        by_cases hk : j = i
        · subst hk; simp [fupd]; omega
        · simp [fupd, hk]; exact hpos j
      split at h
      · have hfold := foldlM_rel
          (fun a b => (∀ k, 0 ≤ a.live_data_items k) → (∀ k, 0 ≤ b.live_data_items k))
          (fun acc d => end_data_item_live n acc d)
          (fun s0 hp => hp)
          (fun h1 h2 hp => h2 (h1 hp))
          (fun a b c hc => ih a b c hc) _ _ _ h
        exact hfold hmid
      · cases h
        exact hmid

theorem end_live_target (fuel : Nat) (s : DocState) (i : Nat) (s' : DocState)
    (h : end_data_item_live fuel s i = Except.ok s') :
    s'.live_data_items i ≤ s.live_data_items i - 1 ∧
    (s.live_data_items i = 1 → s'.is_live i = false) := by
  cases fuel with
  | zero => cases h
  | succ n =>
    rw [end_data_item_live] at h
    split at h
    · cases h
    · split at h
      · have hfold := foldlM_rel (fun a b => LiveMono b a)
          (fun acc d => end_data_item_live n acc d)
          (fun s0 => liveMono_refl s0)
          (fun h1 h2 => liveMono_trans h2 h1)
          (fun a b c hc => end_live_dec n a b c hc) _ _ _ h
        constructor
        · refine le_trans (hfold.1 i) ?_
          simp [exit_live_state, fupd]
        · intro _
          by_cases hflag : s'.is_live i = true
          · have := hfold.2 i hflag
            simp [exit_live_state, fupd] at this
          · simp at hflag
            exact hflag
      · rename_i hlt hne
        cases h
        constructor
        · simp [fupd]
        · intro h1
          exact absurd (by omega : s.live_data_items i - 1 = 0) hne


/-- All entries of the computation queue (pending and active) for any
buffered data source in `S` are marked invalid. -/
def QueueInvalidated (S : List Nat) (s : DocState) : Prop :=
  ∀ q ∈ s.pending_queue ++ s.active_items,
    q.buffered_data_source ∈ S → q.valid = false

/-- A predicate on queue entries that ignores the `valid` flag. -/
def ValidInsensitive (p : ComputationQueueItem → Bool) : Prop :=
  ∀ (q : ComputationQueueItem) (b : Bool), p { q with valid := b } = p q

/-- What `remove_data_item` can do to the state: it only shrinks the
member list (keeping it duplicate-free), marks queue entries invalid,
and leaves every other component alone. -/
def RemRel (s t : DocState) : Prop :=
  (∀ x, x ∈ t.data_items → x ∈ s.data_items) ∧
  (s.data_items.Nodup → t.data_items.Nodup) ∧
  t.dependent_data_items = s.dependent_data_items ∧
  t.source_data_items = s.source_data_items ∧
  t.data_sources = s.data_sources ∧
  t.transactions = s.transactions ∧
  t.live_data_items = s.live_data_items ∧
  t.in_transaction_state = s.in_transaction_state ∧
  t.is_live = s.is_live ∧
  t.bds_data = s.bds_data ∧
  t.events = s.events ∧
  t.dispatch_count = s.dispatch_count ∧
  (∀ S, QueueInvalidated S s → QueueInvalidated S t) ∧
  (∀ p, ValidInsensitive p →
    t.pending_queue.countP p = s.pending_queue.countP p)

theorem remRel_refl (s : DocState) : RemRel s s :=
  ⟨fun _ h => h, fun h => h, rfl, rfl, rfl, rfl, rfl, rfl, rfl, rfl, rfl, rfl,
    fun _ h => h, fun _ _ => rfl⟩

theorem remRel_trans {a b c : DocState} (h1 : RemRel a b) (h2 : RemRel b c) :
    RemRel a c := by
  obtain ⟨x1, x2, x3, x4, x5, x6, x7, x8, x9, x10, x11, x12, x13, x14⟩ := h1
  obtain ⟨y1, y2, y3, y4, y5, y6, y7, y8, y9, y10, y11, y12, y13, y14⟩ := h2
  refine ⟨fun x hx => x1 x (y1 x hx), fun h => y2 (x2 h), y3.trans x3, y4.trans x4,
    y5.trans x5, y6.trans x6, y7.trans x7, y8.trans x8, y9.trans x9, y10.trans x10,
    y11.trans x11, y12.trans x12, fun S hS => y13 S (x13 S hS), fun p hp =>
    (y14 p hp).trans (x14 p hp)⟩

theorem invalidate_for_countP (ds : List Nat) (l : List ComputationQueueItem)
    (p : ComputationQueueItem → Bool) (hp : ValidInsensitive p) :
    (l.map (invalidate_for ds)).countP p = l.countP p := by
  induction l with
  | nil => rfl
  | cons q rest ih =>
    have hq : p (invalidate_for ds q) = p q := by
      unfold invalidate_for
      split
      · exact hp q false
      · rfl
    simp only [List.map_cons, List.countP_cons, hq, ih]

theorem remove_invalidate_remRel (s : DocState) (i : Nat) :
    RemRel s (remove_invalidate s i) := by
  refine ⟨fun x hx => hx, fun h => h, rfl, rfl, rfl, rfl, rfl, rfl, rfl, rfl, rfl, rfl,
    ?_, ?_⟩
  · intro S hS q hq hmem
    simp only [remove_invalidate, List.mem_append, List.mem_map] at hq
    rcases hq with ⟨q0, hq0, rfl⟩ | ⟨q0, hq0, rfl⟩
    · unfold invalidate_for
      split
      · rfl
      · exact hS q0 (List.mem_append.mpr (Or.inl hq0))
          (by unfold invalidate_for at hmem; rw [if_neg (by assumption)] at hmem; exact hmem)
    · unfold invalidate_for
      split
      · rfl
      · exact hS q0 (List.mem_append.mpr (Or.inr hq0))
          (by unfold invalidate_for at hmem; rw [if_neg (by assumption)] at hmem; exact hmem)
  · intro p hp
    exact invalidate_for_countP _ _ p hp

theorem remove_invalidate_establishes (s : DocState) (i : Nat) :
    QueueInvalidated (s.data_sources i) (remove_invalidate s i) := by
  intro q hq hmem
  simp only [remove_invalidate, List.mem_append, List.mem_map] at hq
  rcases hq with ⟨q0, _, rfl⟩ | ⟨q0, _, rfl⟩ <;>
  · unfold invalidate_for
    unfold invalidate_for at hmem
    split
    · rfl
    · rename_i hnot
      rw [if_neg hnot] at hmem
      exact absurd hmem hnot

theorem remove_rel :
    ∀ (fuel : Nat) (s : DocState) (i : Nat) (s' : DocState),
      remove_data_item fuel s i = Except.ok s' → RemRel s s' := by
  intro fuel
  induction fuel with
  | zero => intro s i s' h; cases h
  | succ n ih =>
    intro s i s' h
    rw [remove_data_item] at h
    split at h
    · rename_i s2 hfold
      split at h
      · rename_i hmem
        cases h
        have h1 : RemRel s (remove_invalidate s i) := remove_invalidate_remRel s i
        have h2 : RemRel (remove_invalidate s i) s2 := by
          refine foldlM_rel RemRel _ remRel_refl (fun ha hb => remRel_trans ha hb)
            ?_ _ _ _ hfold
          intro acc a acc' hacc
          split at hacc
          · exact ih acc a acc' hacc
          · cases hacc
            exact remRel_refl acc
        have h3 : RemRel s2 { s2 with data_items := s2.data_items.erase i } := by
          refine ⟨?_, ?_, rfl, rfl, rfl, rfl, rfl, rfl, rfl, rfl, rfl, rfl,
            fun _ h => h, fun _ _ => rfl⟩
          · intro x hx
            exact List.mem_of_mem_erase hx
          · intro h
            exact h.erase i
        exact remRel_trans h1 (remRel_trans h2 h3)
      · cases h
    · cases h

/-- After `remove_data_item`, every pending or active queue entry whose
buffered data source belonged to the removed item is invalid. -/
theorem remove_invalidates (fuel : Nat) (s : DocState) (i : Nat) (s' : DocState)
    (h : remove_data_item fuel s i = Except.ok s') :
    QueueInvalidated (s.data_sources i) s' := by
  cases fuel with
  | zero => cases h
  | succ n =>
    rw [remove_data_item] at h
    split at h
    · rename_i s2 hfold
      split at h
      · cases h
        have h1 := remove_invalidate_establishes s i
        have h2 : RemRel (remove_invalidate s i) s2 := by
          refine foldlM_rel RemRel _ remRel_refl (fun ha hb => remRel_trans ha hb)
            ?_ _ _ _ hfold
          intro acc a acc' hacc
          split at hacc
          · exact remove_rel n acc a acc' hacc
          · cases hacc
            exact remRel_refl acc
        have h3 := h2.2.2.2.2.2.2.2.2.2.2.2.2.1 (s.data_sources i) h1
        intro q hq hmem
        exact h3 q hq hmem
      · cases h
    · cases h

/-- `remove_data_item` removes the item itself from the member list. -/
theorem remove_not_mem (fuel : Nat) (s : DocState) (i : Nat) (s' : DocState)
    (h : remove_data_item fuel s i = Except.ok s') (hnodup : s.data_items.Nodup) :
    i ∉ s'.data_items := by
  cases fuel with
  | zero => cases h
  | succ n =>
    rw [remove_data_item] at h
    split at h
    · rename_i s2 hfold
      split at h
      · cases h
        have h2 : RemRel (remove_invalidate s i) s2 := by
          refine foldlM_rel RemRel _ remRel_refl (fun ha hb => remRel_trans ha hb)
            ?_ _ _ _ hfold
          intro acc a acc' hacc
          split at hacc
          · exact remove_rel n acc a acc' hacc
          · cases hacc
            exact remRel_refl acc
        have hnd2 : s2.data_items.Nodup := h2.2.1 hnodup
        exact hnd2.not_mem_erase
      · cases h
    · cases h


/-- The cascade fold of `remove_data_item` satisfies `RemRel` between
its start and end states. -/
theorem cascade_fold_remRel (fuel i : Nat) :
    ∀ (l : List Nat) (acc s2 : DocState),
      l.foldlM (fun acc other_data_item =>
        if get_source_data_items acc other_data_item = [i] then
          remove_data_item fuel acc other_data_item
        else Except.ok acc) acc = Except.ok s2 → RemRel acc s2 := by
  intro l acc s2 h
  refine foldlM_rel RemRel _ remRel_refl (fun ha hb => remRel_trans ha hb) ?_ _ _ _ h
  intro a b c hc
  split at hc
  · exact remove_rel fuel a b c hc
  · cases hc
    exact remRel_refl a

/-- Every data item visited by the cascade whose source list is exactly
`[i]` ends up outside the member list. -/
theorem cascade_removes (fuel i : Nat) :
    ∀ (l : List Nat) (acc s2 : DocState),
      l.foldlM (fun acc other_data_item =>
        if get_source_data_items acc other_data_item = [i] then
          remove_data_item fuel acc other_data_item
        else Except.ok acc) acc = Except.ok s2 →
      acc.data_items.Nodup →
      ∀ other ∈ l, get_source_data_items acc other = [i] → other ∉ s2.data_items := by
  intro l
  induction l with
  | nil =>
    intro acc s2 h hnd other hmem
    cases hmem
  | cons a rest ih =>
    intro acc s2 h hnd other hmem hsrc
    rw [List.foldlM_cons] at h
    by_cases hc : get_source_data_items acc a = [i]
    · rw [if_pos hc] at h
      cases hstep : remove_data_item fuel acc a with
      | error e => rw [hstep] at h; cases h
      | ok t =>
        rw [hstep] at h
        have hrel := remove_rel fuel acc a t hstep
        have hnd_t : t.data_items.Nodup := hrel.2.1 hnd
        rcases List.mem_cons.mp hmem with rfl | hmem2
        · have hnot := remove_not_mem fuel acc other t hstep hnd
          have hsub := (cascade_fold_remRel fuel i rest t s2 h).1
          intro hin
          exact hnot (hsub other hin)
        · have hsrc_t : get_source_data_items t other = get_source_data_items acc other := by
            unfold get_source_data_items
            rw [hrel.2.2.2.1]
          exact ih t s2 h hnd_t other hmem2 (hsrc_t.trans hsrc)
    · rw [if_neg hc] at h
      rcases List.mem_cons.mp hmem with rfl | hmem2
      · exact absurd hsrc hc
      · exact ih acc s2 h hnd other hmem2 hsrc

/-- A data item that is not the removed one and does not have a
single-element source list survives the cascade fold. -/
theorem cascade_preserves_of (fuel i x : Nat)
    (hrec : ∀ (acc : DocState) (a : Nat) (t : DocState),
      remove_data_item fuel acc a = Except.ok t → x ∈ acc.data_items → x ≠ a →
      (¬ ∃ y, acc.source_data_items x = [y]) → x ∈ t.data_items) :
    ∀ (l : List Nat) (acc s2 : DocState),
      l.foldlM (fun acc other_data_item =>
        if get_source_data_items acc other_data_item = [i] then
          remove_data_item fuel acc other_data_item
        else Except.ok acc) acc = Except.ok s2 →
      x ∈ acc.data_items → (¬ ∃ y, acc.source_data_items x = [y]) →
      x ∈ s2.data_items := by
  intro l
  induction l with
  | nil =>
    intro acc s2 h hx hns
    simp only [List.foldlM_nil] at h
    cases h
    exact hx
  | cons a rest ih =>
    intro acc s2 h hx hns
    rw [List.foldlM_cons] at h
    by_cases hc : get_source_data_items acc a = [i]
    · rw [if_pos hc] at h
      cases hstep : remove_data_item fuel acc a with
      | error e => rw [hstep] at h; cases h
      | ok t =>
        rw [hstep] at h
        have hxa : x ≠ a := by
          intro hxa
          subst hxa
          exact hns ⟨i, hc⟩
        have hxt := hrec acc a t hstep hx hxa hns
        have hrel := remove_rel fuel acc a t hstep
        have hns_t : ¬ ∃ y, t.source_data_items x = [y] := by
          rw [hrel.2.2.2.1]
          exact hns
        exact ih t s2 h hxt hns_t
    · rw [if_neg hc] at h
      exact ih acc s2 h hx hns

/-- A member with no single-element source list, other than the removed
item itself, survives `remove_data_item`. -/
theorem remove_preserves_multisource :
    ∀ (fuel : Nat) (s : DocState) (i : Nat) (s' : DocState),
      remove_data_item fuel s i = Except.ok s' →
      ∀ x, x ∈ s.data_items → x ≠ i →
        (¬ ∃ y, s.source_data_items x = [y]) → x ∈ s'.data_items := by
  intro fuel
  induction fuel with
  | zero => intro s i s' h; cases h
  | succ n ih =>
    intro s i s' h x hx hxi hns
    rw [remove_data_item] at h
    split at h
    · rename_i s2 hfold
      split at h
      · cases h
        have hx2 : x ∈ s2.data_items := by
          refine cascade_preserves_of n i x ?_ _ _ _ hfold hx hns
          intro acc a t ht hxacc hxa hnsacc
          exact ih acc a t ht x hxacc hxa hnsacc
        exact (List.mem_erase_of_ne hxi).mpr hx2
      · cases h
    · cases h


/-- C1.  `remove_data_item(A)` also removes every other data item whose
entire source list is exactly `[A]`; a data item that depends on `A` but
has at least one other source stays a member (the cascade covers only
pure-single-source dependents). -/
theorem remove_data_item_cascade_exact (fuel : Nat) (s : DocState) (data_item : Nat)
    (s' : DocState) (hnodup : s.data_items.Nodup)
    (h : remove_data_item fuel s data_item = Except.ok s') :
    (∀ other ∈ get_dependent_data_items s data_item,
      get_source_data_items s other = [data_item] → other ∉ s'.data_items) ∧
    data_item ∉ s'.data_items ∧
    (∀ x ∈ s.data_items, x ≠ data_item →
      data_item ∈ get_source_data_items s x →
      (∃ d ∈ get_source_data_items s x, d ≠ data_item) →
      x ∈ s'.data_items) := by
  refine ⟨?_, remove_not_mem fuel s data_item s' h hnodup, ?_⟩
  · cases fuel with
    | zero => cases h
    | succ n =>
      rw [remove_data_item] at h
      split at h
      · rename_i s2 hfold
        split at h
        · cases h
          intro other hdep hsrc
          have hout := cascade_removes n data_item _ _ s2 hfold hnodup other hdep hsrc
          intro hin
          exact hout (List.mem_of_mem_erase hin)
        · cases h
      · cases h
  · rintro x hx hxd hmem ⟨d, hd, hdne⟩
    refine remove_preserves_multisource fuel s data_item s' h x hx hxd ?_
    rintro ⟨y, hy⟩
    unfold get_source_data_items at hmem hd
    rw [hy] at hmem hd
    simp only [List.mem_singleton] at hmem hd
    exact hdne (hd.trans hmem.symm)

/-- Concrete document fixture: item 0 with dependents 1 (sole source 0)
and 2 (sources 0 and 3). -/
def c1State : DocState :=
  { data_items := [0, 1, 2, 3],
    dependent_data_items := fun i => if i = 0 then [1, 2] else if i = 3 then [2] else [],
    source_data_items := fun i => if i = 1 then [0] else if i = 2 then [0, 3] else [],
    data_sources := fun _ => [],
    transactions := fun _ => 0,
    live_data_items := fun _ => 0,
    in_transaction_state := fun _ => false,
    is_live := fun _ => false,
    pending_queue := [],
    active_items := [],
    bds_data := fun _ => 0,
    events := [],
    dispatch_count := 0 }

def c1Removed : DocState := { c1State with data_items := [2, 3] }

theorem remove_data_item_cascade_exact_witness :
    c1State.data_items.Nodup ∧
    remove_data_item 2 c1State 0 = Except.ok c1Removed ∧
    (1 ∈ get_dependent_data_items c1State 0 ∧
      get_source_data_items c1State 1 = [0] ∧ 1 ∉ c1Removed.data_items) ∧
    0 ∉ c1Removed.data_items ∧
    (2 ∈ c1State.data_items ∧ 0 ∈ get_source_data_items c1State 2 ∧
      3 ∈ get_source_data_items c1State 2 ∧ 2 ∈ c1Removed.data_items) := by
  have hnd : c1State.data_items.Nodup := by decide
  have hok : remove_data_item 2 c1State 0 = Except.ok c1Removed := rfl
  have hthm := remove_data_item_cascade_exact 2 c1State 0 c1Removed hnd hok
  exact ⟨hnd, hok,
    ⟨by decide, by decide, hthm.1 1 (by decide) (by decide)⟩,
    hthm.2.1,
    ⟨by decide, by decide, by decide,
      hthm.2.2 2 (by decide) (by decide) (by decide) ⟨3, by decide, by decide⟩⟩⟩

/-- C3.  A computation queue entry invalidated by `remove_data_item`
never has its evaluation result merged: (1) after removing a data item
every pending/active entry for one of its buffered data sources carries
`valid = false`; (2) when the head pending entry is invalid, the worker
(`__recompute`) evaluates against the clone only and discards the result,
leaving every buffered data source's stored data unchanged — for any
evaluation result whatsoever; (3) their composition: remove then
recompute never writes into the removed item's data sources. -/
theorem invalidated_entry_never_merges :
    (∀ (fuel : Nat) (s : DocState) (data_item : Nat) (s' : DocState),
      remove_data_item fuel s data_item = Except.ok s' →
      QueueInvalidated (s.data_sources data_item) s') ∧
    (∀ (eval : ComputationQueueItem → Int) (clone_newer : Bool) (s : DocState)
      (q : ComputationQueueItem) (rest : List ComputationQueueItem),
      s.pending_queue = q :: rest → q.valid = false →
      ∀ b, (recompute eval clone_newer s).bds_data b = s.bds_data b) ∧
    (∀ (fuel : Nat) (s : DocState) (data_item : Nat) (s' : DocState)
      (eval : ComputationQueueItem → Int) (clone_newer : Bool)
      (q : ComputationQueueItem) (rest : List ComputationQueueItem),
      remove_data_item fuel s data_item = Except.ok s' →
      s'.pending_queue = q :: rest →
      q.buffered_data_source ∈ s.data_sources data_item →
      ∀ b, (recompute eval clone_newer s').bds_data b = s'.bds_data b) := by
  have part2 : ∀ (eval : ComputationQueueItem → Int) (clone_newer : Bool) (s : DocState)
      (q : ComputationQueueItem) (rest : List ComputationQueueItem),
      s.pending_queue = q :: rest → q.valid = false →
      ∀ b, (recompute eval clone_newer s).bds_data b = s.bds_data b := by
    intro eval cn s q rest hp hv b
    cases hqc : q.computation with
    | some c => simp [recompute, hp, recompute_merge, recompute_finish, hqc, hv]
    | none => simp [recompute, hp, recompute_merge, recompute_finish, hqc]
  refine ⟨fun fuel s di s' h => remove_invalidates fuel s di s' h, part2, ?_⟩
  intro fuel s di s' eval cn q rest h hp hqmem b
  have hq : q.valid = false := by
    refine remove_invalidates fuel s di s' h q ?_ hqmem
    rw [List.mem_append, hp]
    exact Or.inl (List.mem_cons_self q rest)
  exact part2 eval cn s' q rest hp hq b

/-- Fixture for C3: item 0 owns buffered data source 5 with a pending
computation entry. -/
def c3State : DocState :=
  { c1State with
    data_sources := fun i => if i = 0 then [5] else [],
    pending_queue :=
      [{ data_item := 0, buffered_data_source := 5, computation := some 7, valid := true }] }

def c3Removed : DocState :=
  { c3State with
    data_items := [2, 3],
    pending_queue :=
      [{ data_item := 0, buffered_data_source := 5, computation := some 7, valid := false }] }

theorem invalidated_entry_never_merges_witness :
    remove_data_item 2 c3State 0 = Except.ok c3Removed ∧
    c3Removed.pending_queue =
      [{ data_item := 0, buffered_data_source := 5, computation := some 7, valid := false }] ∧
    (5 : Nat) ∈ c3State.data_sources 0 ∧
    (recompute (fun _ => 99) true c3Removed).bds_data 5 = c3Removed.bds_data 5 := by
  have hok : remove_data_item 2 c3State 0 = Except.ok c3Removed := rfl
  refine ⟨hok, rfl, by decide, ?_⟩
  exact invalidated_entry_never_merges.2.2 2 c3State 0 c3Removed (fun _ => 99) true
    { data_item := 0, buffered_data_source := 5, computation := some 7, valid := false }
    [] hok rfl (by decide) 5


/-- The state change of one `begin_data_item_transaction` 0→1 step on
the item itself: increment the count and enter the transaction state. -/
def tickTx (s : DocState) (i : Nat) : DocState :=
  enter_transaction_state
    { s with transactions := fupd s.transactions i (s.transactions i + 1) } i

/-- The counter decrement of one `end_data_item_transaction` step. -/
def untickTx (s : DocState) (i : Nat) : DocState :=
  { s with transactions := fupd s.transactions i (s.transactions i - 1) }

@[simp] theorem tickTx_dependent (s : DocState) (i : Nat) :
    (tickTx s i).dependent_data_items = s.dependent_data_items := rfl

@[simp] theorem tickTx_events (s : DocState) (i : Nat) :
    (tickTx s i).events = s.events ++ [StateEvent.enterTransaction i] := rfl

@[simp] theorem tickTx_transactions_same (s : DocState) (i : Nat) :
    (tickTx s i).transactions i = s.transactions i + 1 := by
  simp [tickTx, enter_transaction_state, fupd]

@[simp] theorem tickTx_transactions_other (s : DocState) (i j : Nat) (h : j ≠ i) :
    (tickTx s i).transactions j = s.transactions j := by
  simp [tickTx, enter_transaction_state, fupd, h]

@[simp] theorem tickTx_flag_same (s : DocState) (i : Nat) :
    (tickTx s i).in_transaction_state i = true := by
  simp [tickTx, enter_transaction_state, fupd]

@[simp] theorem tickTx_flag_other (s : DocState) (i j : Nat) (h : j ≠ i) :
    (tickTx s i).in_transaction_state j = s.in_transaction_state j := by
  simp [tickTx, enter_transaction_state, fupd, h]

@[simp] theorem untickTx_dependent (s : DocState) (i : Nat) :
    (untickTx s i).dependent_data_items = s.dependent_data_items := rfl

@[simp] theorem untickTx_events (s : DocState) (i : Nat) :
    (untickTx s i).events = s.events := rfl

@[simp] theorem untickTx_flag (s : DocState) (i : Nat) :
    (untickTx s i).in_transaction_state = s.in_transaction_state := rfl

@[simp] theorem untickTx_transactions_same (s : DocState) (i : Nat) :
    (untickTx s i).transactions i = s.transactions i - 1 := by
  simp [untickTx, fupd]

@[simp] theorem untickTx_transactions_other (s : DocState) (i j : Nat) (h : j ≠ i) :
    (untickTx s i).transactions j = s.transactions j := by
  simp [untickTx, fupd]
  intro hji
  exact absurd hji h

@[simp] theorem exit_transaction_state_dependent (s : DocState) (i : Nat) :
    (exit_transaction_state s i).dependent_data_items = s.dependent_data_items := rfl

@[simp] theorem exit_transaction_state_events (s : DocState) (i : Nat) :
    (exit_transaction_state s i).events = s.events ++ [StateEvent.exitTransaction i] := rfl

@[simp] theorem exit_transaction_state_transactions (s : DocState) (i : Nat) :
    (exit_transaction_state s i).transactions = s.transactions := rfl

@[simp] theorem exit_transaction_state_flag_same (s : DocState) (i : Nat) :
    (exit_transaction_state s i).in_transaction_state i = false := by
  simp [exit_transaction_state, fupd]

@[simp] theorem exit_transaction_state_flag_other (s : DocState) (i j : Nat) (h : j ≠ i) :
    (exit_transaction_state s i).in_transaction_state j = s.in_transaction_state j := by
  simp [exit_transaction_state, fupd, h]

theorem begin_transaction_unfold_zero (fuel : Nat) (s : DocState) (i : Nat)
    (h0 : s.transactions i = 0) :
    begin_data_item_transaction (fuel + 1) s i =
      (s.dependent_data_items i).foldl
        (fun acc d => begin_data_item_transaction fuel acc d) (tickTx s i) := by
  rw [begin_data_item_transaction, if_pos h0]
  rfl

theorem end_transaction_unfold_one (fuel : Nat) (s : DocState) (i : Nat)
    (h1 : s.transactions i = 1) :
    end_data_item_transaction (fuel + 1) s i =
      match (s.dependent_data_items i).foldlM
          (fun acc d => end_data_item_transaction fuel acc d) (untickTx s i) with
      | Except.ok s2 => Except.ok (exit_transaction_state s2 i)
      | Except.error e => Except.error e := by
  rw [end_data_item_transaction, if_neg (by omega), if_pos (by omega)]
  rfl

/-- The state after `begin_data_item_transaction(a)` in the chain
scenario `a → b → c` starting with all three counts at 0. -/
def c4Begun (s : DocState) (a b c : Nat) : DocState := tickTx (tickTx (tickTx s a) b) c

/-- The state after the matching `end_data_item_transaction(a)`. -/
def c4Ended (s : DocState) (a b c : Nat) : DocState :=
  exit_transaction_state
    (exit_transaction_state
      (exit_transaction_state
        (untickTx (untickTx (untickTx (c4Begun s a b c) a) b) c) c) b) a


/-- C4.  In the chain scenario `B depends on A`, `C depends on B` with
all transaction counts at 0, `begin_data_item_transaction(A)` puts A, B
and C into transaction state (counts 1, flags set, enter events in order
A,B,C), and one matching `end_data_item_transaction(A)` exits all three,
with dependents exiting before the item itself (exit events in order
C,B,A).  Moreover in general the transaction state is entered only on a
0→1 transition and exited only on a 1→0 transition: with a positive
count a begin only increments the counter, and with a count of at least
2 an end only decrements it. -/
theorem transaction_cascade_depth :
    (∀ (fuel : Nat) (s : DocState) (a b c : Nat),
      b ≠ a → c ≠ a → c ≠ b →
      s.dependent_data_items a = [b] → s.dependent_data_items b = [c] →
      s.dependent_data_items c = [] →
      s.transactions a = 0 → s.transactions b = 0 → s.transactions c = 0 →
      (begin_data_item_transaction (fuel + 3) s a = c4Begun s a b c ∧
        (c4Begun s a b c).transactions a = 1 ∧
        (c4Begun s a b c).transactions b = 1 ∧
        (c4Begun s a b c).transactions c = 1 ∧
        (c4Begun s a b c).in_transaction_state a = true ∧
        (c4Begun s a b c).in_transaction_state b = true ∧
        (c4Begun s a b c).in_transaction_state c = true ∧
        (c4Begun s a b c).events = s.events ++
          [StateEvent.enterTransaction a, StateEvent.enterTransaction b,
            StateEvent.enterTransaction c]) ∧
      (end_data_item_transaction (fuel + 3) (c4Begun s a b c) a =
          Except.ok (c4Ended s a b c) ∧
        (c4Ended s a b c).transactions a = 0 ∧
        (c4Ended s a b c).transactions b = 0 ∧
        (c4Ended s a b c).transactions c = 0 ∧
        (c4Ended s a b c).in_transaction_state a = false ∧
        (c4Ended s a b c).in_transaction_state b = false ∧
        (c4Ended s a b c).in_transaction_state c = false ∧
        (c4Ended s a b c).events = (c4Begun s a b c).events ++
          [StateEvent.exitTransaction c, StateEvent.exitTransaction b,
            StateEvent.exitTransaction a])) ∧
    (∀ (fuel : Nat) (s : DocState) (i : Nat), s.transactions i ≠ 0 →
      begin_data_item_transaction (fuel + 1) s i =
        { s with transactions := fupd s.transactions i (s.transactions i + 1) }) ∧
    (∀ (fuel : Nat) (s : DocState) (i : Nat), 2 ≤ s.transactions i →
      end_data_item_transaction (fuel + 1) s i =
        Except.ok { s with transactions := fupd s.transactions i (s.transactions i - 1) }) := by
  refine ⟨?_, fun fuel s i h => begin_transaction_no_enter fuel s i h,
    fun fuel s i h => end_transaction_no_exit fuel s i h⟩
  intro fuel s a b c hba hca hcb hdepa hdepb hdepc hta htb htc
  have hab : a ≠ b := hba.symm
  have hac : a ≠ c := hca.symm
  have hbc : b ≠ c := hcb.symm
  have hb1 : begin_data_item_transaction (fuel + 3) s a = c4Begun s a b c := by
    show begin_data_item_transaction ((fuel + 2) + 1) s a = c4Begun s a b c
    rw [begin_transaction_unfold_zero (fuel + 2) s a hta]
    simp only [hdepa, List.foldl_cons, List.foldl_nil]
    show begin_data_item_transaction ((fuel + 1) + 1) (tickTx s a) b = c4Begun s a b c
    rw [begin_transaction_unfold_zero (fuel + 1) (tickTx s a) b
      (by rw [tickTx_transactions_other s a b hba]; exact htb)]
    simp only [tickTx_dependent, hdepb, List.foldl_cons, List.foldl_nil]
    show begin_data_item_transaction (fuel + 1) (tickTx (tickTx s a) b) c = c4Begun s a b c
    rw [begin_transaction_unfold_zero fuel (tickTx (tickTx s a) b) c
      (by rw [tickTx_transactions_other _ _ _ hcb, tickTx_transactions_other _ _ _ hca]
          exact htc)]
    simp only [tickTx_dependent, hdepc, List.foldl_nil]
    rfl
  have hga : (c4Begun s a b c).transactions a = 1 := by
    simp [c4Begun, hba, hca, hcb, hab, hac, hbc, hta]
  have hgb : (c4Begun s a b c).transactions b = 1 := by
    simp [c4Begun, hba, hca, hcb, hab, hac, hbc, htb]
  have hgc : (c4Begun s a b c).transactions c = 1 := by
    simp [c4Begun, hba, hca, hcb, hab, hac, hbc, htc]
  have hdep_g : (c4Begun s a b c).dependent_data_items = s.dependent_data_items := by
    simp [c4Begun]
  have he_c : end_data_item_transaction (fuel + 1)
      (untickTx (untickTx (c4Begun s a b c) a) b) c =
      Except.ok (exit_transaction_state
        (untickTx (untickTx (untickTx (c4Begun s a b c) a) b) c) c) := by
    rw [end_transaction_unfold_one fuel _ c
      (by rw [untickTx_transactions_other _ _ _ hcb, untickTx_transactions_other _ _ _ hca]
          exact hgc)]
    rw [untickTx_dependent, untickTx_dependent, hdep_g, hdepc, List.foldlM_nil]
    rfl
  have he_b : end_data_item_transaction ((fuel + 1) + 1)
      (untickTx (c4Begun s a b c) a) b =
      Except.ok (exit_transaction_state (exit_transaction_state
        (untickTx (untickTx (untickTx (c4Begun s a b c) a) b) c) c) b) := by
    rw [end_transaction_unfold_one (fuel + 1) _ b
      (by rw [untickTx_transactions_other _ _ _ hba]; exact hgb)]
    rw [untickTx_dependent, hdep_g, hdepb, List.foldlM_cons, he_c]
    rfl
  have he_a : end_data_item_transaction (fuel + 3) (c4Begun s a b c) a =
      Except.ok (c4Ended s a b c) := by
    show end_data_item_transaction ((fuel + 2) + 1) (c4Begun s a b c) a =
      Except.ok (c4Ended s a b c)
    rw [end_transaction_unfold_one (fuel + 2) _ a hga]
    rw [hdep_g, hdepa, List.foldlM_cons]
    rw [show end_data_item_transaction (fuel + 2) (untickTx (c4Begun s a b c) a) b =
      Except.ok (exit_transaction_state (exit_transaction_state
        (untickTx (untickTx (untickTx (c4Begun s a b c) a) b) c) c) b) from he_b]
    rfl
  refine ⟨⟨hb1, hga, hgb, hgc, ?_, ?_, ?_, ?_⟩, ⟨he_a, ?_, ?_, ?_, ?_, ?_, ?_, ?_⟩⟩
  · simp [c4Begun, hba, hca, hcb, hab, hac, hbc]
  · simp [c4Begun, hba, hca, hcb, hab, hac, hbc]
  · simp [c4Begun]
  · simp [c4Begun]
  · simp [c4Ended, hba, hca, hcb, hab, hac, hbc, hga]
  · simp [c4Ended, hba, hca, hcb, hab, hac, hbc, hgb]
  · simp [c4Ended, hba, hca, hcb, hab, hac, hbc, hgc]
  · simp [c4Ended, hba, hca, hcb, hab, hac, hbc]
  · simp [c4Ended, hba, hca, hcb, hab, hac, hbc]
  · simp [c4Ended, hba, hca, hcb, hab, hac, hbc]
  · simp [c4Ended]


/-- Chain fixture for the transaction cascade: 1 depends on 0, 2 depends
on 1. -/
def c4State : DocState :=
  { c1State with
    dependent_data_items := fun i => if i = 0 then [1] else if i = 1 then [2] else [] }

theorem transaction_cascade_depth_witness :
    (c4State.dependent_data_items 0 = [1] ∧ c4State.dependent_data_items 1 = [2] ∧
      c4State.dependent_data_items 2 = [] ∧ c4State.transactions 0 = 0 ∧
      c4State.transactions 1 = 0 ∧ c4State.transactions 2 = 0) ∧
    (begin_data_item_transaction 3 c4State 0 = c4Begun c4State 0 1 2 ∧
      (c4Begun c4State 0 1 2).transactions 0 = 1 ∧
      (c4Begun c4State 0 1 2).transactions 1 = 1 ∧
      (c4Begun c4State 0 1 2).transactions 2 = 1 ∧
      (c4Begun c4State 0 1 2).in_transaction_state 0 = true ∧
      (c4Begun c4State 0 1 2).events = c4State.events ++
        [StateEvent.enterTransaction 0, StateEvent.enterTransaction 1,
          StateEvent.enterTransaction 2]) ∧
    (end_data_item_transaction 3 (c4Begun c4State 0 1 2) 0 =
        Except.ok (c4Ended c4State 0 1 2) ∧
      (c4Ended c4State 0 1 2).transactions 0 = 0 ∧
      (c4Ended c4State 0 1 2).in_transaction_state 0 = false ∧
      (c4Ended c4State 0 1 2).events = (c4Begun c4State 0 1 2).events ++
        [StateEvent.exitTransaction 2, StateEvent.exitTransaction 1,
          StateEvent.exitTransaction 0]) ∧
    ((c4Begun c4State 0 1 2).transactions 0 ≠ 0 ∧
      begin_data_item_transaction 1 (c4Begun c4State 0 1 2) 0 =
        { c4Begun c4State 0 1 2 with transactions := fupd (c4Begun c4State 0 1 2).transactions 0 ((c4Begun c4State 0 1 2).transactions 0 + 1) }) := by
  have hmain := transaction_cascade_depth.1 0 c4State 0 1 2
    (by decide) (by decide) (by decide) (by decide) (by decide) (by decide)
    (by decide) (by decide) (by decide)
  have hno := transaction_cascade_depth.2.1 0 (c4Begun c4State 0 1 2) 0 (by decide)
  exact ⟨⟨by decide, by decide, by decide, by decide, by decide, by decide⟩,
    ⟨hmain.1.1, hmain.1.2.1, hmain.1.2.2.1, hmain.1.2.2.2.1, hmain.1.2.2.2.2.1,
      hmain.1.2.2.2.2.2.2.2⟩,
    ⟨hmain.2.1, hmain.2.2.1, hmain.2.2.2.2.2.1, hmain.2.2.2.2.2.2.2.2⟩,
    ⟨by decide, hno⟩⟩


theorem remove_dependency_live_liveOnly (fuel : Nat) (s : DocState) (src tgt : Nat)
    (s' : DocState) (h : remove_dependency_live fuel s src tgt = Except.ok s') :
    LiveOnly s s' := by
  rw [remove_dependency_live] at h
  split at h
  · exact end_live_liveOnly fuel s tgt s' h
  · cases h
    exact liveOnly_refl s

theorem remove_dependency_tx_txOnly (fuel : Nat) (s : DocState) (src tgt : Nat)
    (s' : DocState) (h : remove_dependency_tx fuel s src tgt = Except.ok s') :
    TxOnly s s' := by
  rw [remove_dependency_tx] at h
  split at h
  · exact end_transaction_txOnly fuel s tgt s' h
  · cases h
    exact txOnly_refl s

/-- C5.  Adding a dependency edge while the source is in transaction
(resp. live) state immediately puts the target into that state (its
count is incremented and its flag ends up set); removing an edge while
the source is in that state ends the corresponding state of the target
(its count is decremented, and a 1→0 transition clears its flag).  The
well-formedness hypotheses (`0 ≤ count`, `count > 0 → flag set`) hold in
every reachable document state. -/
theorem dependency_edge_state_propagation :
    (∀ (fuel : Nat) (s : DocState) (src tgt : Nat),
      s.in_transaction_state src = true →
      0 ≤ s.transactions tgt →
      (0 < s.transactions tgt → s.in_transaction_state tgt = true) →
      s.transactions tgt + 1 ≤ (add_dependency (fuel + 1) s src tgt).transactions tgt ∧
      (add_dependency (fuel + 1) s src tgt).in_transaction_state tgt = true) ∧
    (∀ (fuel : Nat) (s : DocState) (src tgt : Nat),
      s.is_live src = true →
      0 ≤ s.live_data_items tgt →
      (0 < s.live_data_items tgt → s.is_live tgt = true) →
      s.live_data_items tgt + 1 ≤ (add_dependency (fuel + 1) s src tgt).live_data_items tgt ∧
      (add_dependency (fuel + 1) s src tgt).is_live tgt = true) ∧
    (∀ (fuel : Nat) (s : DocState) (src tgt : Nat) (s' : DocState),
      s.in_transaction_state src = true →
      remove_dependency fuel s src tgt = Except.ok s' →
      s'.transactions tgt ≤ s.transactions tgt - 1 ∧
      (s.transactions tgt = 1 → s'.in_transaction_state tgt = false)) ∧
    (∀ (fuel : Nat) (s : DocState) (src tgt : Nat) (s' : DocState),
      s.is_live src = true →
      remove_dependency fuel s src tgt = Except.ok s' →
      s'.live_data_items tgt ≤ s.live_data_items tgt - 1 ∧
      (s.live_data_items tgt = 1 → s'.is_live tgt = false)) := by
  refine ⟨?_, ?_, ?_, ?_⟩
  · intro fuel s src tgt hsrc hnn hwf
    unfold add_dependency
    have hc : (add_dependency_edges s src tgt).in_transaction_state src = true := hsrc
    rw [add_dependency_tx, if_pos hc]
    have htarget := begin_transaction_target fuel (add_dependency_edges s src tgt) tgt
    have hLO : LiveOnly (begin_data_item_transaction (fuel + 1)
        (add_dependency_edges s src tgt) tgt)
        (add_dependency_live (fuel + 1) (begin_data_item_transaction (fuel + 1)
          (add_dependency_edges s src tgt) tgt) src tgt) := by
      unfold add_dependency_live
      split
      · exact begin_live_liveOnly (fuel + 1) _ tgt
      · exact liveOnly_refl _
    constructor
    · rw [hLO.2.2.2.2.1]
      exact htarget.1
    · rw [hLO.2.2.2.2.2.1]
      by_cases h0 : s.transactions tgt = 0
      · exact htarget.2 h0
      · have hflag : (add_dependency_edges s src tgt).in_transaction_state tgt = true :=
          hwf (by omega)
        exact (begin_transaction_mono (fuel + 1)
          (add_dependency_edges s src tgt) tgt).2 tgt hflag
  · intro fuel s src tgt hsrc hnn hwf
    unfold add_dependency
    have hTO : TxOnly (add_dependency_edges s src tgt)
        (add_dependency_tx (fuel + 1) (add_dependency_edges s src tgt) src tgt) := by
      unfold add_dependency_tx
      split
      · exact begin_transaction_txOnly (fuel + 1) _ tgt
      · exact txOnly_refl _
    have hc : (add_dependency_tx (fuel + 1) (add_dependency_edges s src tgt)
        src tgt).is_live src = true := by
      rw [hTO.2.2.2.2.2.1]
      exact hsrc
    rw [add_dependency_live, if_pos hc]
    have htarget := begin_live_target fuel
      (add_dependency_tx (fuel + 1) (add_dependency_edges s src tgt) src tgt) tgt
    have hlive_eq : (add_dependency_tx (fuel + 1) (add_dependency_edges s src tgt)
        src tgt).live_data_items tgt = s.live_data_items tgt := by
      rw [hTO.2.2.2.2.1]
      rfl
    constructor
    · rw [← hlive_eq]
      exact htarget.1
    · by_cases h0 : s.live_data_items tgt = 0
      · exact htarget.2 (by rw [hlive_eq]; exact h0)
      · have hflag : (add_dependency_tx (fuel + 1) (add_dependency_edges s src tgt)
            src tgt).is_live tgt = true := by
          rw [hTO.2.2.2.2.2.1]
          exact hwf (by omega)
        exact (begin_live_mono (fuel + 1) _ tgt).2 tgt hflag
  · intro fuel s src tgt s' hsrc h
    rw [remove_dependency] at h
    split at h
    · rename_i deps srcs hdeps hsrcs
      rw [remove_dependency_tx] at h
      rw [if_pos (show ({ s with
        dependent_data_items := fupd s.dependent_data_items src deps,
        source_data_items := fupd s.source_data_items tgt srcs } :
          DocState).in_transaction_state src = true from hsrc)] at h
      cases hend : end_data_item_transaction fuel { s with
          dependent_data_items := fupd s.dependent_data_items src deps,
          source_data_items := fupd s.source_data_items tgt srcs } tgt with
      | error e =>
        rw [hend] at h
        cases h
      | ok s2 =>
        rw [hend] at h
        have h2 : remove_dependency_live fuel s2 src tgt = Except.ok s' := h
        have htarget := end_transaction_target fuel _ tgt s2 hend
        have hLO : LiveOnly s2 s' := remove_dependency_live_liveOnly fuel s2 src tgt s' h2
        constructor
        · rw [hLO.2.2.2.2.1]
          exact htarget.1
        · intro h1
          rw [hLO.2.2.2.2.2.1]
          exact htarget.2 h1
    · cases h
  · intro fuel s src tgt s' hsrc h
    rw [remove_dependency] at h
    split at h
    · rename_i deps srcs hdeps hsrcs
      cases htx : remove_dependency_tx fuel { s with
          dependent_data_items := fupd s.dependent_data_items src deps,
          source_data_items := fupd s.source_data_items tgt srcs } src tgt with
      | error e =>
        rw [htx] at h
        cases h
      | ok s2 =>
        rw [htx] at h
        have h2 : remove_dependency_live fuel s2 src tgt = Except.ok s' := h
        have hTO2 := remove_dependency_tx_txOnly fuel _ src tgt s2 htx
        rw [remove_dependency_live, if_pos (show s2.is_live src = true by
          rw [hTO2.2.2.2.2.2.1]; exact hsrc)] at h2
        have htarget := end_live_target fuel s2 tgt s' h2
        have hlive_eq : s2.live_data_items tgt = s.live_data_items tgt := by
          rw [hTO2.2.2.2.2.1]
        constructor
        · rw [← hlive_eq]
          exact htarget.1
        · intro h1
          exact htarget.2 (by rw [hlive_eq]; exact h1)
    · cases h

/-- C5 fixture: item 0 is in transaction and live state, item 1 (its
dependent through the edge 0 → 1) holds one transaction and one live
count. -/
def c5State : DocState :=
  { c1State with
    dependent_data_items := fun i => if i = 0 then [1] else [],
    source_data_items := fun i => if i = 1 then [0] else [],
    transactions := fun i => if i = 1 then 1 else 0,
    live_data_items := fun i => if i = 1 then 1 else 0,
    in_transaction_state := fun i => i == 0 || i == 1,
    is_live := fun i => i == 0 || i == 1 }

/-- The state produced by removing the edge 0 → 1 from `c5State`. -/
def c5Removed : DocState :=
  { c5State with
    dependent_data_items := fupd c5State.dependent_data_items 0 [],
    source_data_items := fupd c5State.source_data_items 1 [],
    transactions := fupd c5State.transactions 1 0,
    live_data_items := fupd c5State.live_data_items 1 0,
    in_transaction_state := fupd c5State.in_transaction_state 1 false,
    is_live := fupd c5State.is_live 1 false,
    events := [StateEvent.exitTransaction 1, StateEvent.exitLive 1] }

theorem dependency_edge_state_propagation_witness :
    (c5State.in_transaction_state 0 = true ∧ c5State.is_live 0 = true ∧
      remove_dependency 2 c5State 0 1 = Except.ok c5Removed) ∧
    (c5State.transactions 1 + 1 ≤ (add_dependency 2 c5State 0 1).transactions 1 ∧
      (add_dependency 2 c5State 0 1).in_transaction_state 1 = true) ∧
    (c5State.live_data_items 1 + 1 ≤ (add_dependency 2 c5State 0 1).live_data_items 1 ∧
      (add_dependency 2 c5State 0 1).is_live 1 = true) ∧
    (c5Removed.transactions 1 ≤ c5State.transactions 1 - 1 ∧
      c5Removed.in_transaction_state 1 = false) ∧
    (c5Removed.live_data_items 1 ≤ c5State.live_data_items 1 - 1 ∧
      c5Removed.is_live 1 = false) := by
  have hrem : remove_dependency 2 c5State 0 1 = Except.ok c5Removed := rfl
  have h1 := dependency_edge_state_propagation.1 1 c5State 0 1 rfl (by decide) (fun _ => rfl)
  have h2 := dependency_edge_state_propagation.2.1 1 c5State 0 1 rfl (by decide) (fun _ => rfl)
  have h3 := dependency_edge_state_propagation.2.2.1 2 c5State 0 1 c5Removed rfl hrem
  have h4 := dependency_edge_state_propagation.2.2.2 2 c5State 0 1 c5Removed rfl hrem
  exact ⟨⟨rfl, rfl, hrem⟩, h1, h2, ⟨h3.1, h3.2 (by decide)⟩, ⟨h4.1, h4.2 (by decide)⟩⟩

/-! ### The computation-queue coalescing invariant and the count-safety
invariant (reachable document states). -/

/-- The number of pending queue entries for one buffered data source. -/
def pendingCount (s : DocState) (bds : Nat) : Nat :=
  s.pending_queue.countP (fun q => decide (q.buffered_data_source = bds))

/-- At most one pending queue entry per buffered data source. -/
def coalescedPending (s : DocState) : Prop :=
  ∀ bds, pendingCount s bds ≤ 1

/-- Both reference-count families are nonnegative. -/
def NonnegCounts (s : DocState) : Prop :=
  (∀ i, 0 ≤ s.transactions i) ∧ (∀ i, 0 ≤ s.live_data_items i)

/-- One public operation of the document model acting on the embedded
state. -/
inductive DocStep : DocState → DocState → Prop where
  | begin_tx (s : DocState) (fuel i : Nat) :
      DocStep s (begin_data_item_transaction fuel s i)
  | end_tx (s : DocState) (fuel i : Nat) (s' : DocState) :
      end_data_item_transaction fuel s i = Except.ok s' → DocStep s s'
  | begin_live (s : DocState) (fuel i : Nat) :
      DocStep s (begin_data_item_live fuel s i)
  | end_live (s : DocState) (fuel i : Nat) (s' : DocState) :
      end_data_item_live fuel s i = Except.ok s' → DocStep s s'
  | add_dep (s : DocState) (fuel src tgt : Nat) :
      DocStep s (add_dependency fuel s src tgt)
  | remove_dep (s : DocState) (fuel src tgt : Nat) (s' : DocState) :
      remove_dependency fuel s src tgt = Except.ok s' → DocStep s s'
  | needs_update (s : DocState) (item bds comp : Nat) :
      DocStep s (computation_needs_update s item bds comp)
  | changed (s : DocState) (item bds : Nat) (comp : Option Nat) :
      DocStep s (computation_changed s item bds comp)
  | recompute_step (s : DocState) (eval : ComputationQueueItem → Int) (cn : Bool) :
      DocStep s (recompute eval cn s)
  | remove_item (s : DocState) (fuel item : Nat) (s' : DocState) :
      remove_data_item fuel s item = Except.ok s' → DocStep s s'

/-- States reachable from a freshly opened document (all counts zero,
empty computation queue) by any sequence of operations. -/
inductive Reachable : DocState → Prop where
  | init (s : DocState) : (∀ i, s.transactions i = 0) →
      (∀ i, s.live_data_items i = 0) → s.pending_queue = [] → Reachable s
  | step (s s' : DocState) : Reachable s → DocStep s s' → Reachable s'

theorem set_computation_first_countP (l : List ComputationQueueItem) (bds : Nat)
    (c : Option Nat) (p : ComputationQueueItem → Bool)
    (hp : ∀ (q : ComputationQueueItem) (c' : Option Nat),
      p { q with computation := c' } = p q) :
    (set_computation_first l bds c).countP p = l.countP p := by
  induction l with
  | nil => rfl
  | cons q rest ih =>
    rw [set_computation_first]
    split
    · simp only [List.countP_cons, hp]
    · simp only [List.countP_cons, ih]

theorem invalidate_first_countP (l : List ComputationQueueItem) (bds : Nat)
    (p : ComputationQueueItem → Bool) (hp : ValidInsensitive p) :
    (invalidate_first l bds).countP p = l.countP p := by
  induction l with
  | nil => rfl
  | cons q rest ih =>
    rw [invalidate_first]
    split
    · simp only [List.countP_cons, hp q false]
    · simp only [List.countP_cons, ih]

/-- The queue produced by `computation_needs_update`, as an explicit
case split on whether a pending entry already exists. -/
theorem computation_needs_update_pending (s : DocState) (item bds c : Nat) :
    (computation_needs_update s item bds c).pending_queue =
      if s.pending_queue.any (fun q => q.buffered_data_source = bds) then
        set_computation_first s.pending_queue bds (some c)
      else s.pending_queue ++
        [{ data_item := item, buffered_data_source := bds,
           computation := some c, valid := true }] := by
  rw [computation_needs_update]
  split
  · rfl
  · rfl

theorem computation_needs_update_coalesced (s : DocState) (item bds c : Nat)
    (h : coalescedPending s) :
    coalescedPending (computation_needs_update s item bds c) := by
  intro b
  unfold pendingCount
  rw [computation_needs_update_pending]
  split
  · rename_i hany
    rw [set_computation_first_countP s.pending_queue bds (some c)
      (fun q => decide (q.buffered_data_source = b)) (fun q c' => rfl)]
    exact h b
  · rename_i hany
    rw [List.countP_append]
    by_cases hb : bds = b
    · subst hb
      have h0 : s.pending_queue.countP
          (fun q => decide (q.buffered_data_source = bds)) = 0 := by
        rw [List.countP_eq_zero]
        intro a ha
        simp only [decide_eq_true_eq]
        intro hab
        exact hany (List.any_eq_true.mpr ⟨a, ha, by simp [hab]⟩)
      rw [h0]
      simp [List.countP_cons]
    · have h1 : List.countP (fun q => decide (q.buffered_data_source = b))
          [({ data_item := item, buffered_data_source := bds,
              computation := some c, valid := true } : ComputationQueueItem)] = 0 := by
        simp [List.countP_cons, hb]
      rw [h1]
      have := h b
      unfold pendingCount at this
      omega

/-- The `computation is None` branch of `computation_changed` either
invalidates a pending entry in place, or leaves the pending queue
alone. -/
theorem computation_changed_pending_none (s : DocState) (item bds : Nat) :
    (computation_changed s item bds none).pending_queue =
        invalidate_first s.pending_queue bds ∨
      (computation_changed s item bds none).pending_queue = s.pending_queue := by
  have hcc : computation_changed s item bds none =
      (if (s.pending_queue ++ s.active_items).any
          (fun q => q.buffered_data_source = bds) then
        (if s.pending_queue.any (fun q => q.buffered_data_source = bds) then
          { s with pending_queue := invalidate_first s.pending_queue bds }
        else { s with active_items := invalidate_first s.active_items bds })
      else s) := rfl
  rw [hcc]
  split
  · split
    · exact Or.inl rfl
    · exact Or.inr rfl
  · exact Or.inr rfl

theorem computation_changed_coalesced (s : DocState) (item bds : Nat)
    (comp : Option Nat) (h : coalescedPending s) :
    coalescedPending (computation_changed s item bds comp) := by
  cases comp with
  | some c => exact computation_needs_update_coalesced s item bds c h
  | none =>
    intro b
    unfold pendingCount
    rcases computation_changed_pending_none s item bds with hp | hp
    · rw [hp, invalidate_first_countP s.pending_queue bds
        (fun q => decide (q.buffered_data_source = b)) (fun q b' => rfl)]
      exact h b
    · rw [hp]
      exact h b

theorem recompute_merge_pending (eval : ComputationQueueItem → Int) (cn : Bool)
    (q : ComputationQueueItem) (s1 : DocState) :
    (recompute_merge eval cn q s1).pending_queue = s1.pending_queue := by
  unfold recompute_merge
  split
  · split
    · rfl
    · rfl
  · rfl

theorem recompute_pending (eval : ComputationQueueItem → Int) (cn : Bool)
    (s : DocState) :
    (recompute eval cn s).pending_queue = s.pending_queue.tail := by
  cases hq : s.pending_queue with
  | nil =>
    unfold recompute
    rw [hq]
    exact hq
  | cons q rest =>
    unfold recompute
    rw [hq]
    show (recompute_merge eval cn q
      { s with pending_queue := rest,
               active_items := s.active_items ++ [q] }).pending_queue = (q :: rest).tail
    rw [recompute_merge_pending]
    rfl

theorem recompute_coalesced (eval : ComputationQueueItem → Int) (cn : Bool)
    (s : DocState) (h : coalescedPending s) :
    coalescedPending (recompute eval cn s) := by
  intro b
  unfold pendingCount
  rw [recompute_pending]
  cases hq : s.pending_queue with
  | nil => simp
  | cons q rest =>
    have hb := h b
    unfold pendingCount at hb
    rw [hq] at hb
    rw [List.countP_cons] at hb
    simp only [List.tail_cons]
    omega

theorem coalesced_of_pending_eq {s t : DocState}
    (hpq : t.pending_queue = s.pending_queue) (h : coalescedPending s) :
    coalescedPending t := by
  intro b
  unfold pendingCount
  rw [hpq]
  exact h b

theorem add_dependency_pending (fuel : Nat) (s : DocState) (src tgt : Nat) :
    (add_dependency fuel s src tgt).pending_queue = s.pending_queue := by
  unfold add_dependency add_dependency_live add_dependency_tx
  split
  · split
    · rw [(begin_live_liveOnly fuel _ tgt).2.2.2.2.2.2.1,
        (begin_transaction_txOnly fuel _ tgt).2.2.2.2.2.2.1]
      rfl
    · rw [(begin_transaction_txOnly fuel _ tgt).2.2.2.2.2.2.1]
      rfl
  · split
    · rw [(begin_live_liveOnly fuel _ tgt).2.2.2.2.2.2.1]
      rfl
    · rfl

theorem remove_dependency_pending (fuel : Nat) (s : DocState) (src tgt : Nat)
    (s' : DocState) (h : remove_dependency fuel s src tgt = Except.ok s') :
    s'.pending_queue = s.pending_queue := by
  rw [remove_dependency] at h
  split at h
  · rename_i deps srcs hdeps hsrcs
    cases htx : remove_dependency_tx fuel { s with
        dependent_data_items := fupd s.dependent_data_items src deps,
        source_data_items := fupd s.source_data_items tgt srcs } src tgt with
    | error e =>
      rw [htx] at h
      cases h
    | ok s2 =>
      rw [htx] at h
      have h2 : remove_dependency_live fuel s2 src tgt = Except.ok s' := h
      have hTO := remove_dependency_tx_txOnly fuel _ src tgt s2 htx
      have hLO := remove_dependency_live_liveOnly fuel s2 src tgt s' h2
      rw [hLO.2.2.2.2.2.2.1, hTO.2.2.2.2.2.2.1]
  · cases h

theorem docStep_coalesced {s s' : DocState} (hstep : DocStep s s')
    (h : coalescedPending s) : coalescedPending s' :=
  match s, s', hstep, h with
  | _, _, .begin_tx ss fuel i, h =>
    coalesced_of_pending_eq (begin_transaction_txOnly fuel ss i).2.2.2.2.2.2.1 h
  | _, _, .end_tx ss fuel i s2 he, h =>
    coalesced_of_pending_eq (end_transaction_txOnly fuel ss i s2 he).2.2.2.2.2.2.1 h
  | _, _, .begin_live ss fuel i, h =>
    coalesced_of_pending_eq (begin_live_liveOnly fuel ss i).2.2.2.2.2.2.1 h
  | _, _, .end_live ss fuel i s2 he, h =>
    coalesced_of_pending_eq (end_live_liveOnly fuel ss i s2 he).2.2.2.2.2.2.1 h
  | _, _, .add_dep ss fuel src tgt, h =>
    coalesced_of_pending_eq (add_dependency_pending fuel ss src tgt) h
  | _, _, .remove_dep ss fuel src tgt s2 he, h =>
    coalesced_of_pending_eq (remove_dependency_pending fuel ss src tgt s2 he) h
  | _, _, .needs_update ss item bds comp, h =>
    computation_needs_update_coalesced ss item bds comp h
  | _, _, .changed ss item bds comp, h =>
    computation_changed_coalesced ss item bds comp h
  | _, _, .recompute_step ss eval cn, h =>
    recompute_coalesced eval cn ss h
  | _, _, .remove_item ss fuel item s2 he, h => by
    intro b
    unfold pendingCount
    rw [(remove_rel fuel ss item s2 he).2.2.2.2.2.2.2.2.2.2.2.2.2
      (fun q => decide (q.buffered_data_source = b)) (fun q bb => rfl)]
    exact h b

theorem computation_needs_update_counts (s : DocState) (item bds c : Nat) :
    (computation_needs_update s item bds c).transactions = s.transactions ∧
    (computation_needs_update s item bds c).live_data_items = s.live_data_items := by
  rw [computation_needs_update]
  split
  · exact ⟨rfl, rfl⟩
  · exact ⟨rfl, rfl⟩

theorem computation_changed_counts (s : DocState) (item bds : Nat)
    (comp : Option Nat) :
    (computation_changed s item bds comp).transactions = s.transactions ∧
    (computation_changed s item bds comp).live_data_items = s.live_data_items := by
  cases comp with
  | some c => exact computation_needs_update_counts s item bds c
  | none =>
    have hcc : computation_changed s item bds none =
        (if (s.pending_queue ++ s.active_items).any
            (fun q => q.buffered_data_source = bds) then
          (if s.pending_queue.any (fun q => q.buffered_data_source = bds) then
            { s with pending_queue := invalidate_first s.pending_queue bds }
          else { s with active_items := invalidate_first s.active_items bds })
        else s) := rfl
    rw [hcc]
    split
    · split
      · exact ⟨rfl, rfl⟩
      · exact ⟨rfl, rfl⟩
    · exact ⟨rfl, rfl⟩

theorem recompute_merge_counts (eval : ComputationQueueItem → Int) (cn : Bool)
    (q : ComputationQueueItem) (s1 : DocState) :
    (recompute_merge eval cn q s1).transactions = s1.transactions ∧
    (recompute_merge eval cn q s1).live_data_items = s1.live_data_items := by
  unfold recompute_merge
  split
  · split
    · exact ⟨rfl, rfl⟩
    · exact ⟨rfl, rfl⟩
  · exact ⟨rfl, rfl⟩

theorem recompute_counts (eval : ComputationQueueItem → Int) (cn : Bool)
    (s : DocState) :
    (recompute eval cn s).transactions = s.transactions ∧
    (recompute eval cn s).live_data_items = s.live_data_items := by
  cases hq : s.pending_queue with
  | nil =>
    unfold recompute
    rw [hq]
    exact ⟨rfl, rfl⟩
  | cons q rest =>
    unfold recompute
    rw [hq]
    constructor
    · show (recompute_merge eval cn q
        { s with pending_queue := rest,
                 active_items := s.active_items ++ [q] }).transactions = s.transactions
      rw [(recompute_merge_counts eval cn q _).1]
    · show (recompute_merge eval cn q
        { s with pending_queue := rest,
                 active_items := s.active_items ++ [q] }).live_data_items = s.live_data_items
      rw [(recompute_merge_counts eval cn q _).2]

theorem add_dependency_counts_le (fuel : Nat) (s : DocState) (src tgt : Nat) :
    (∀ j, s.transactions j ≤ (add_dependency fuel s src tgt).transactions j) ∧
    (∀ j, s.live_data_items j ≤ (add_dependency fuel s src tgt).live_data_items j) := by
  unfold add_dependency add_dependency_live add_dependency_tx
  split
  · split
    · constructor
      · intro j
        rw [(begin_live_liveOnly fuel _ tgt).2.2.2.2.1]
        exact (begin_transaction_mono fuel _ tgt).1 j
      · intro j
        have h1 : s.live_data_items j ≤ (begin_data_item_transaction fuel
            (add_dependency_edges s src tgt) tgt).live_data_items j := by
          rw [(begin_transaction_txOnly fuel _ tgt).2.2.2.2.1]
          exact le_refl _
        exact le_trans h1 ((begin_live_mono fuel _ tgt).1 j)
    · constructor
      · intro j
        exact (begin_transaction_mono fuel _ tgt).1 j
      · intro j
        rw [(begin_transaction_txOnly fuel _ tgt).2.2.2.2.1]
        exact le_refl _
  · split
    · constructor
      · intro j
        rw [(begin_live_liveOnly fuel _ tgt).2.2.2.2.1]
        exact le_refl _
      · intro j
        exact (begin_live_mono fuel _ tgt).1 j
    · exact ⟨fun j => le_refl _, fun j => le_refl _⟩

theorem remove_dependency_tx_nonneg (fuel : Nat) (s : DocState) (src tgt : Nat)
    (s2 : DocState) (h : remove_dependency_tx fuel s src tgt = Except.ok s2)
    (hpos : ∀ j, 0 ≤ s.transactions j) : ∀ j, 0 ≤ s2.transactions j := by
  rw [remove_dependency_tx] at h
  split at h
  · exact end_transaction_nonneg fuel s tgt s2 h hpos
  · cases h
    exact hpos

theorem remove_dependency_live_nonneg (fuel : Nat) (s : DocState) (src tgt : Nat)
    (s2 : DocState) (h : remove_dependency_live fuel s src tgt = Except.ok s2)
    (hpos : ∀ j, 0 ≤ s.live_data_items j) : ∀ j, 0 ≤ s2.live_data_items j := by
  rw [remove_dependency_live] at h
  split at h
  · exact end_live_nonneg fuel s tgt s2 h hpos
  · cases h
    exact hpos

theorem remove_dependency_nonneg (fuel : Nat) (s : DocState) (src tgt : Nat)
    (s' : DocState) (h : remove_dependency fuel s src tgt = Except.ok s')
    (hn : NonnegCounts s) : NonnegCounts s' := by
  rw [remove_dependency] at h
  split at h
  · rename_i deps srcs hdeps hsrcs
    cases htx : remove_dependency_tx fuel { s with
        dependent_data_items := fupd s.dependent_data_items src deps,
        source_data_items := fupd s.source_data_items tgt srcs } src tgt with
    | error e =>
      rw [htx] at h
      cases h
    | ok s2 =>
      rw [htx] at h
      have h2 : remove_dependency_live fuel s2 src tgt = Except.ok s' := h
      have hTO := remove_dependency_tx_txOnly fuel _ src tgt s2 htx
      have hLO := remove_dependency_live_liveOnly fuel s2 src tgt s' h2
      constructor
      · intro j
        rw [hLO.2.2.2.2.1]
        exact remove_dependency_tx_nonneg fuel _ src tgt s2 htx (fun k => hn.1 k) j
      · intro j
        refine remove_dependency_live_nonneg fuel s2 src tgt s' h2 ?_ j
        intro k
        rw [hTO.2.2.2.2.1]
        exact hn.2 k
  · cases h

theorem docStep_nonneg {s s' : DocState} (hstep : DocStep s s')
    (h : NonnegCounts s) : NonnegCounts s' :=
  match s, s', hstep, h with
  | _, _, .begin_tx ss fuel i, h =>
    ⟨fun j => le_trans (h.1 j) ((begin_transaction_mono fuel ss i).1 j),
     fun j => by rw [(begin_transaction_txOnly fuel ss i).2.2.2.2.1]; exact h.2 j⟩
  | _, _, .end_tx ss fuel i s2 he, h =>
    ⟨end_transaction_nonneg fuel ss i s2 he h.1,
     fun j => by rw [(end_transaction_txOnly fuel ss i s2 he).2.2.2.2.1]; exact h.2 j⟩
  | _, _, .begin_live ss fuel i, h =>
    ⟨fun j => by rw [(begin_live_liveOnly fuel ss i).2.2.2.2.1]; exact h.1 j,
     fun j => le_trans (h.2 j) ((begin_live_mono fuel ss i).1 j)⟩
  | _, _, .end_live ss fuel i s2 he, h =>
    ⟨fun j => by rw [(end_live_liveOnly fuel ss i s2 he).2.2.2.2.1]; exact h.1 j,
     end_live_nonneg fuel ss i s2 he h.2⟩
  | _, _, .add_dep ss fuel src tgt, h =>
    ⟨fun j => le_trans (h.1 j) ((add_dependency_counts_le fuel ss src tgt).1 j),
     fun j => le_trans (h.2 j) ((add_dependency_counts_le fuel ss src tgt).2 j)⟩
  | _, _, .remove_dep ss fuel src tgt s2 he, h =>
    remove_dependency_nonneg fuel ss src tgt s2 he h
  | _, _, .needs_update ss item bds comp, h =>
    ⟨fun j => by rw [(computation_needs_update_counts ss item bds comp).1]; exact h.1 j,
     fun j => by rw [(computation_needs_update_counts ss item bds comp).2]; exact h.2 j⟩
  | _, _, .changed ss item bds comp, h =>
    ⟨fun j => by rw [(computation_changed_counts ss item bds comp).1]; exact h.1 j,
     fun j => by rw [(computation_changed_counts ss item bds comp).2]; exact h.2 j⟩
  | _, _, .recompute_step ss eval cn, h =>
    ⟨fun j => by rw [(recompute_counts eval cn ss).1]; exact h.1 j,
     fun j => by rw [(recompute_counts eval cn ss).2]; exact h.2 j⟩
  | _, _, .remove_item ss fuel item s2 he, h =>
    ⟨fun j => by rw [(remove_rel fuel ss item s2 he).2.2.2.2.2.1]; exact h.1 j,
     fun j => by rw [(remove_rel fuel ss item s2 he).2.2.2.2.2.2.1]; exact h.2 j⟩

/-- Unfolding `__recompute` when the pending queue has a head. -/
theorem recompute_exec (eval : ComputationQueueItem → Int) (cn : Bool)
    (s : DocState) (q : ComputationQueueItem) (rest : List ComputationQueueItem)
    (hq : s.pending_queue = q :: rest) :
    recompute eval cn s = recompute_finish q (recompute_merge eval cn q
      { s with pending_queue := rest, active_items := s.active_items ++ [q] }) := by
  unfold recompute
  rw [hq]

/-- A valid entry with a computation is merged into its buffered data
source when the clone carries newer data. -/
theorem recompute_merge_bds (eval : ComputationQueueItem → Int)
    (q : ComputationQueueItem) (s1 : DocState) (c : Nat)
    (hq : q.computation = some c) (hv : q.valid = true) :
    (recompute_merge eval true q s1).bds_data q.buffered_data_source = eval q := by
  unfold recompute_merge
  rw [hq]
  show (if q.valid ∧ true then
    { s1 with bds_data := fupd s1.bds_data q.buffered_data_source (eval q) }
  else s1).bds_data q.buffered_data_source = eval q
  rw [if_pos ⟨hv, rfl⟩]
  exact fupd_same _ _ _

/-- The assertion in `end_data_item_transaction` fires when the count is
already zero: the call fails and never writes a negative count. -/
theorem end_transaction_at_zero (fuel : Nat) (s : DocState) (i : Nat)
    (h : s.transactions i = 0) :
    end_data_item_transaction fuel s i = Except.error () := by
  cases fuel with
  | zero => rfl
  | succ n =>
    rw [end_data_item_transaction]
    rw [if_pos (show s.transactions i - 1 < 0 by omega)]

theorem end_live_at_zero (fuel : Nat) (s : DocState) (i : Nat)
    (h : s.live_data_items i = 0) :
    end_data_item_live fuel s i = Except.error () := by
  cases fuel with
  | zero => rfl
  | succ n =>
    rw [end_data_item_live]
    rw [if_pos (show s.live_data_items i - 1 < 0 by omega)]

/-- C2.  In every reachable document state there is at most one pending
computation queue entry per buffered data source; firing
`computation_changed` a second time for the same data source before the
worker drains the queue updates the existing pending entry's computation
pointer in place (no second entry, no second dispatch), and the single
recompute that runs executes the latest computation. -/
theorem computation_queue_coalesces :
    (∀ s : DocState, Reachable s → ∀ bds, pendingCount s bds ≤ 1) ∧
    (∀ (s : DocState) (item bds c1 c2 : Nat), s.pending_queue = [] →
      (computation_changed s item bds (some c1)).pending_queue =
        [{ data_item := item, buffered_data_source := bds,
           computation := some c1, valid := true }] ∧
      (computation_changed (computation_changed s item bds (some c1)) item bds
          (some c2)).pending_queue =
        [{ data_item := item, buffered_data_source := bds,
           computation := some c2, valid := true }] ∧
      (computation_changed (computation_changed s item bds (some c1)) item bds
          (some c2)).dispatch_count = s.dispatch_count + 1 ∧
      ∀ eval : ComputationQueueItem → Int,
        (recompute eval true (computation_changed (computation_changed s item bds
            (some c1)) item bds (some c2))).pending_queue = [] ∧
        (recompute eval true (computation_changed (computation_changed s item bds
            (some c1)) item bds (some c2))).bds_data bds =
          eval { data_item := item, buffered_data_source := bds,
                 computation := some c2, valid := true }) := by
  constructor
  · intro s hr
    induction hr with
    | init t h1 h2 h3 =>
      intro bds
      unfold pendingCount
      rw [h3]
      simp [List.countP_nil]
    | step t t2 hr2 hstep ih => exact docStep_coalesced hstep ih
  · intro s item bds c1 c2 hpq
    have e1def : computation_changed s item bds (some c1) =
        computation_needs_update s item bds c1 := rfl
    have h1 : (computation_changed s item bds (some c1)).pending_queue =
        [{ data_item := item, buffered_data_source := bds,
           computation := some c1, valid := true }] := by
      rw [e1def, computation_needs_update_pending, hpq]
      simp
    have hd1 : (computation_changed s item bds (some c1)).dispatch_count =
        s.dispatch_count + 1 := by
      rw [e1def, computation_needs_update, hpq]
      simp
    have e2def : computation_changed (computation_changed s item bds (some c1))
        item bds (some c2) =
        computation_needs_update (computation_changed s item bds (some c1))
          item bds c2 := rfl
    have h2 : (computation_changed (computation_changed s item bds (some c1)) item bds
        (some c2)).pending_queue =
        [{ data_item := item, buffered_data_source := bds,
           computation := some c2, valid := true }] := by
      rw [e2def, computation_needs_update_pending, h1]
      simp [set_computation_first]
    have hd2 : (computation_changed (computation_changed s item bds (some c1)) item bds
        (some c2)).dispatch_count =
        (computation_changed s item bds (some c1)).dispatch_count := by
      rw [e2def, computation_needs_update, h1]
      simp
    refine ⟨h1, h2, by rw [hd2, hd1], ?_⟩
    intro eval
    constructor
    · rw [recompute_pending, h2]
      rfl
    · rw [recompute_exec eval true _ _ [] h2]
      show (recompute_merge eval true
        { data_item := item, buffered_data_source := bds,
          computation := some c2, valid := true } _).bds_data bds =
        eval { data_item := item, buffered_data_source := bds,
               computation := some c2, valid := true }
      exact recompute_merge_bds eval _ _ c2 rfl rfl

theorem computation_queue_coalesces_witness :
    c1State.pending_queue = [] ∧ pendingCount c1State 5 ≤ 1 ∧
    (computation_changed (computation_changed c1State 0 5 (some 1)) 0 5
      (some 2)).pending_queue =
      [{ data_item := 0, buffered_data_source := 5,
         computation := some 2, valid := true }] ∧
    (computation_changed (computation_changed c1State 0 5 (some 1)) 0 5
      (some 2)).dispatch_count = c1State.dispatch_count + 1 ∧
    (recompute (fun q => 42) true (computation_changed (computation_changed c1State 0 5
      (some 1)) 0 5 (some 2))).bds_data 5 = 42 := by
  have hr : Reachable c1State :=
    Reachable.init c1State (fun i => rfl) (fun i => rfl) rfl
  have h1 := computation_queue_coalesces.1 c1State hr
  have h2 := computation_queue_coalesces.2 c1State 0 5 1 2 rfl
  exact ⟨rfl, h1 5, h2.2.1, h2.2.2.1, (h2.2.2.2 (fun q => 42)).2⟩

/-- C10.  In every reachable document state the per-item transaction and
live counts are nonnegative, and ending a transaction (or live) state
whose count is zero fails with the assertion error instead of writing a
negative count. -/
theorem counts_never_negative :
    (∀ s : DocState, Reachable s →
      (∀ i, 0 ≤ s.transactions i) ∧ (∀ i, 0 ≤ s.live_data_items i)) ∧
    (∀ (fuel : Nat) (s : DocState) (i : Nat), s.transactions i = 0 →
      end_data_item_transaction fuel s i = Except.error ()) ∧
    (∀ (fuel : Nat) (s : DocState) (i : Nat), s.live_data_items i = 0 →
      end_data_item_live fuel s i = Except.error ()) := by
  refine ⟨?_, ?_, ?_⟩
  · intro s hr
    induction hr with
    | init t h1 h2 h3 =>
      exact ⟨fun i => by have := h1 i; omega, fun i => by have := h2 i; omega⟩
    | step t t2 hr2 hstep ih => exact docStep_nonneg hstep ih
  · exact fun fuel s i h => end_transaction_at_zero fuel s i h
  · exact fun fuel s i h => end_live_at_zero fuel s i h

theorem counts_never_negative_witness :
    c1State.transactions 0 = 0 ∧ c1State.live_data_items 0 = 0 ∧
    (0 ≤ c1State.transactions 0 ∧ 0 ≤ c1State.live_data_items 0) ∧
    end_data_item_transaction 5 c1State 0 = Except.error () ∧
    end_data_item_live 5 c1State 0 = Except.error () := by
  have hr : Reachable c1State :=
    Reachable.init c1State (fun i => rfl) (fun i => rfl) rfl
  have h1 := counts_never_negative.1 c1State hr
  exact ⟨rfl, rfl, ⟨h1.1 0, h1.2 0⟩,
    counts_never_negative.2.1 5 c1State 0 rfl,
    counts_never_negative.2.2 5 c1State 0 rfl⟩

/-! ### Symbolic.py: expression reconstruction and re-parsing (the
operator fragment).

`parse_expression` executes the expression text as Python code in an
environment whose variables are bound to `DataNode` leaves, so parsing
follows Python expression grammar and the `DataNode` arithmetic dunder
methods (`__add__` builds `("add")`, unary `__neg__` builds `("neg")`,
`/` builds `("truediv")`, and so on); `**` is right-associative and the
`+ - * / // %` operators are left-associative.  `reconstruct` renders a
node back to text using `_operator_map` and the precedence-based
parenthesis rules of `UnaryOperationDataNode.reconstruct` /
`BinaryOperationDataNode.reconstruct`.  A leaf models a
`DataItemDataNode` whose variable is already present in `variable_map`
(the `return variable, 10` branch). -/

inductive DataNode where
  | leaf (name : String)
  | unaryOp (fid : String) (a : DataNode)
  | binaryOp (fid : String) (a b : DataNode)
deriving DecidableEq

/-- `_operator_map` (Symbolic.py): function id → operator text and
numeric precedence. -/
def operator_map : List (String × String × Int) :=
  [("pow", ("**", 9)), ("neg", ("-", 8)), ("pos", ("+", 8)), ("add", ("+", 6)),
   ("sub", ("-", 6)), ("mul", ("*", 7)), ("div", ("/", 7)), ("truediv", ("/", 7)),
   ("floordiv", ("//", 7)), ("mod", ("%", 7))]

def lookup_operator (fid : String) : Option (String × Int) :=
  (operator_map.find? (fun p => p.1 = fid)).map (fun p => p.2)

def opPrec (fid : String) : Int :=
  ((lookup_operator fid).map (fun p => p.2)).getD 10

/-- `reconstruct(variable_map)` restricted to the operator fragment:
unary wraps its argument when `precedence >= inputs[0][1]`, binary wraps
a side when `precedence > inputs[i][1]`; non-operator function ids fall
through to the function-call rendering with precedence 10. -/
def reconstruct : DataNode → String × Int
  | .leaf name => (name, 10)
  | .unaryOp fid a =>
    match lookup_operator fid with
    | some (text, prec) =>
      (text ++ (if prec ≥ (reconstruct a).2 then
        "(" ++ (reconstruct a).1 ++ ")" else (reconstruct a).1), prec)
    | none => (fid ++ "(" ++ (reconstruct a).1 ++ ")", 10)
  | .binaryOp fid a b =>
    match lookup_operator fid with
    | some (text, prec) =>
      ((if prec > (reconstruct a).2 then
          "(" ++ (reconstruct a).1 ++ ")" else (reconstruct a).1) ++
        " " ++ text ++ " " ++
        (if prec > (reconstruct b).2 then
          "(" ++ (reconstruct b).1 ++ ")" else (reconstruct b).1), prec)
    | none => (fid ++ "(" ++ (reconstruct a).1 ++ ", " ++ (reconstruct b).1 ++ ")", 10)

/-- Tokens of the Python expression fragment the renderer emits. -/
inductive Tok where
  | lpar
  | rpar
  | plus
  | minus
  | star
  | slash
  | dslash
  | percent
  | dstar
  | ident (name : String)
deriving DecidableEq

def opTok (fid : String) : Tok :=
  if fid = "pow" then .dstar
  else if fid = "neg" then .minus
  else if fid = "pos" then .plus
  else if fid = "add" then .plus
  else if fid = "sub" then .minus
  else if fid = "mul" then .star
  else if fid = "floordiv" then .dslash
  else if fid = "mod" then .percent
  else .slash

/-- The token sequence of `(reconstruct t).1` (proved as the bridge
lemma below). -/
def emit : DataNode → List Tok
  | .leaf name => [.ident name]
  | .unaryOp fid a =>
    opTok fid :: (if opPrec fid ≥ (reconstruct a).2 then
      .lpar :: emit a ++ [.rpar] else emit a)
  | .binaryOp fid a b =>
    (if opPrec fid > (reconstruct a).2 then
      .lpar :: emit a ++ [.rpar] else emit a) ++
    (opTok fid :: (if opPrec fid > (reconstruct b).2 then
      .lpar :: emit b ++ [.rpar] else emit b))

def isIdentChar (c : Char) : Bool := c.isAlpha || c.isDigit || c = '_'

/-- Python identifier shape for leaf variable names (`d0`, `d1`, …). -/
def identOkb (s : String) : Bool :=
  match s.data with
  | [] => false
  | c :: cs => (c.isAlpha || c = '_') && cs.all isIdentChar

/-- The operator fragment actually reachable from `parse_expression`:
unary `neg`/`pos` and the binary operators whose text re-parses to the
same function id (every id in `_operator_map` except `div`, whose text
`/` re-parses as `truediv` in Python 3). -/
def WFb : DataNode → Bool
  | .leaf name => identOkb name
  | .unaryOp fid a => (fid = "neg" || fid = "pos") && WFb a
  | .binaryOp fid a b =>
    (fid = "add" || fid = "sub" || fid = "mul" || fid = "truediv" ||
      fid = "floordiv" || fid = "mod" || fid = "pow") && WFb a && WFb b

/-- Parenthesization safety: the precedence-based wrap rules drop the
parentheses that encode associativity exactly when a right child of a
left-associative operator has the parent precedence, or the left child
of `pow` has precedence 9.  `PSb` rules those trees out. -/
def PSb : DataNode → Bool
  | .leaf _ => true
  | .unaryOp _ a => PSb a
  | .binaryOp fid a b =>
    PSb a && PSb b &&
      (if fid = "pow" then decide ((reconstruct a).2 ≠ 9)
       else decide ((reconstruct b).2 ≠ opPrec fid))

/-- Longest identifier prefix and the remaining characters. -/
def munchIdent : List Char → List Char × List Char
  | [] => ([], [])
  | c :: cs =>
    if isIdentChar c then ((c :: (munchIdent cs).1), (munchIdent cs).2)
    else ([], c :: cs)

theorem munchIdent_length (cs : List Char) :
    (munchIdent cs).2.length ≤ cs.length := by
  induction cs with
  | nil => simp [munchIdent]
  | cons c cs ih =>
    rw [munchIdent]
    split
    · simpa using Nat.le_succ_of_le ih
    · simp

/-- The CPython lexer restricted to this fragment: spaces separate
tokens, `**` and `//` use maximal munch, identifiers munch identifier
characters. -/
def tokenize : List Char → Option (List Tok)
  | [] => some []
  | c :: cs =>
    if c = ' ' then tokenize cs
    else if c = '(' then (tokenize cs).map (fun ts => Tok.lpar :: ts)
    else if c = ')' then (tokenize cs).map (fun ts => Tok.rpar :: ts)
    else if c = '+' then (tokenize cs).map (fun ts => Tok.plus :: ts)
    else if c = '-' then (tokenize cs).map (fun ts => Tok.minus :: ts)
    else if c = '%' then (tokenize cs).map (fun ts => Tok.percent :: ts)
    else if c = '*' then
      if cs.head? = some '*' then (tokenize cs.tail).map (fun ts => Tok.dstar :: ts)
      else (tokenize cs).map (fun ts => Tok.star :: ts)
    else if c = '/' then
      if cs.head? = some '/' then (tokenize cs.tail).map (fun ts => Tok.dslash :: ts)
      else (tokenize cs).map (fun ts => Tok.slash :: ts)
    else if c.isAlpha || c = '_' then
      (tokenize (munchIdent cs).2).map
        (fun ts => Tok.ident (String.mk (c :: (munchIdent cs).1)) :: ts)
    else none
termination_by cs => cs.length
decreasing_by
  all_goals simp_wf
  all_goals try omega
  all_goals try (exact Nat.lt_succ_of_le (munchIdent_length _))
  all_goals simp [List.length_tail]
  all_goals omega

/-- A parse result whose remainder is strictly shorter than the input
(every successful parse consumes at least one token). -/
def PRes (ts : List Tok) := {p : DataNode × List Tok // p.2.length < ts.length}

/-- A loop result whose remainder is no longer than the input. -/
def LRes (ts : List Tok) := {p : DataNode × List Tok // p.2.length ≤ ts.length}

mutual

/-- Python expression grammar over the fragment, mapped through the
`DataNode` dunder methods: `a_expr` (left-associative `+ -`), `m_expr`
(left-associative `* / // %`), `u_expr` (prefix `- +`), `power`
(right-associative `**` whose right operand is a `u_expr`), and atoms
(identifiers and parenthesised expressions). -/
def parseAdd (ts : List Tok) : Option (PRes ts) :=
  match parseMul ts with
  | none => none
  | some ⟨(a, r), hr⟩ =>
    match parseAddLoop a r with
    | none => none
    | some ⟨(b, r2), hr2⟩ => some ⟨(b, r2), Nat.lt_of_le_of_lt hr2 hr⟩
termination_by ts.length * 8 + 4
decreasing_by
  all_goals simp_wf
  all_goals try simp_all
  all_goals omega

def parseAddLoop (a : DataNode) (ts : List Tok) : Option (LRes ts) :=
  match ts with
  | .plus :: r =>
    match parseMul r with
    | none => none
    | some ⟨(b, r2), hr2⟩ =>
      match parseAddLoop (.binaryOp "add" a b) r2 with
      | none => none
      | some ⟨(c, r3), hr3⟩ => some ⟨(c, r3), Nat.le_trans hr3 (Nat.le_trans (Nat.le_of_lt hr2) (Nat.le_succ _))⟩
  | .minus :: r =>
    match parseMul r with
    | none => none
    | some ⟨(b, r2), hr2⟩ =>
      match parseAddLoop (.binaryOp "sub" a b) r2 with
      | none => none
      | some ⟨(c, r3), hr3⟩ => some ⟨(c, r3), Nat.le_trans hr3 (Nat.le_trans (Nat.le_of_lt hr2) (Nat.le_succ _))⟩
  | ts2 => some ⟨(a, ts2), le_refl _⟩
termination_by ts.length * 8 + 5
decreasing_by
  all_goals simp_wf
  all_goals try simp_all
  all_goals omega

def parseMul (ts : List Tok) : Option (PRes ts) :=
  match parseUnary ts with
  | none => none
  | some ⟨(a, r), hr⟩ =>
    match parseMulLoop a r with
    | none => none
    | some ⟨(b, r2), hr2⟩ => some ⟨(b, r2), Nat.lt_of_le_of_lt hr2 hr⟩
termination_by ts.length * 8 + 3
decreasing_by
  all_goals simp_wf
  all_goals try simp_all
  all_goals omega

def parseMulLoop (a : DataNode) (ts : List Tok) : Option (LRes ts) :=
  match ts with
  | .star :: r =>
    match parseUnary r with
    | none => none
    | some ⟨(b, r2), hr2⟩ =>
      match parseMulLoop (.binaryOp "mul" a b) r2 with
      | none => none
      | some ⟨(c, r3), hr3⟩ => some ⟨(c, r3), Nat.le_trans hr3 (Nat.le_trans (Nat.le_of_lt hr2) (Nat.le_succ _))⟩
  | .slash :: r =>
    match parseUnary r with
    | none => none
    | some ⟨(b, r2), hr2⟩ =>
      match parseMulLoop (.binaryOp "truediv" a b) r2 with
      | none => none
      | some ⟨(c, r3), hr3⟩ => some ⟨(c, r3), Nat.le_trans hr3 (Nat.le_trans (Nat.le_of_lt hr2) (Nat.le_succ _))⟩
  | .dslash :: r =>
    match parseUnary r with
    | none => none
    | some ⟨(b, r2), hr2⟩ =>
      match parseMulLoop (.binaryOp "floordiv" a b) r2 with
      | none => none
      | some ⟨(c, r3), hr3⟩ => some ⟨(c, r3), Nat.le_trans hr3 (Nat.le_trans (Nat.le_of_lt hr2) (Nat.le_succ _))⟩
  | .percent :: r =>
    match parseUnary r with
    | none => none
    | some ⟨(b, r2), hr2⟩ =>
      match parseMulLoop (.binaryOp "mod" a b) r2 with
      | none => none
      | some ⟨(c, r3), hr3⟩ => some ⟨(c, r3), Nat.le_trans hr3 (Nat.le_trans (Nat.le_of_lt hr2) (Nat.le_succ _))⟩
  | ts2 => some ⟨(a, ts2), le_refl _⟩
termination_by ts.length * 8 + 4
decreasing_by
  all_goals simp_wf
  all_goals try simp_all
  all_goals omega

def parseUnary (ts : List Tok) : Option (PRes ts) :=
  match ts with
  | .minus :: r =>
    match parseUnary r with
    | none => none
    | some ⟨(a, r2), h2⟩ => some ⟨(.unaryOp "neg" a, r2), Nat.lt_trans h2 (Nat.lt_succ_self _)⟩
  | .plus :: r =>
    match parseUnary r with
    | none => none
    | some ⟨(a, r2), h2⟩ => some ⟨(.unaryOp "pos" a, r2), Nat.lt_trans h2 (Nat.lt_succ_self _)⟩
  | ts2 => parsePow ts2
termination_by ts.length * 8 + 2
decreasing_by
  all_goals simp_wf
  all_goals try simp_all
  all_goals omega

def parsePow (ts : List Tok) : Option (PRes ts) :=
  match parseAtom ts with
  | none => none
  | some ⟨(a, r), hr⟩ =>
    match r, hr with
    | .dstar :: r2, hr =>
      match parseUnary r2 with
      | none => none
      | some ⟨(b, r3), h3⟩ =>
        some ⟨(.binaryOp "pow" a b, r3), Nat.lt_trans h3 (Nat.lt_of_succ_lt hr)⟩
    | r, hr => some ⟨(a, r), hr⟩
termination_by ts.length * 8 + 1
decreasing_by
  all_goals simp_wf
  all_goals try simp_all
  all_goals omega

def parseAtom (ts : List Tok) : Option (PRes ts) :=
  match ts with
  | .ident n :: r => some ⟨(.leaf n, r), Nat.lt_succ_self _⟩
  | .lpar :: r =>
    match parseAdd r with
    | none => none
    | some ⟨(a, r2), h2⟩ =>
      match r2, h2 with
      | .rpar :: r3, h2 => some ⟨(a, r3), Nat.lt_succ_of_lt (Nat.lt_of_succ_lt h2)⟩
      | _, _ => none
  | _ => none
termination_by ts.length * 8
decreasing_by
  all_goals simp_wf
  all_goals try simp_all
  all_goals omega

end

def parseAddV (ts : List Tok) : Option (DataNode × List Tok) :=
  (parseAdd ts).map (fun p => p.val)

def parseAddLoopV (a : DataNode) (ts : List Tok) : Option (DataNode × List Tok) :=
  (parseAddLoop a ts).map (fun p => p.val)

def parseMulV (ts : List Tok) : Option (DataNode × List Tok) :=
  (parseMul ts).map (fun p => p.val)

def parseMulLoopV (a : DataNode) (ts : List Tok) : Option (DataNode × List Tok) :=
  (parseMulLoop a ts).map (fun p => p.val)

def parseUnaryV (ts : List Tok) : Option (DataNode × List Tok) :=
  (parseUnary ts).map (fun p => p.val)

def parsePowV (ts : List Tok) : Option (DataNode × List Tok) :=
  (parsePow ts).map (fun p => p.val)

def parseAtomV (ts : List Tok) : Option (DataNode × List Tok) :=
  (parseAtom ts).map (fun p => p.val)

/-- `parse_expression` over a single expression line: Python tokenizes
and evaluates the text with the variables bound to `DataNode` leaves; a
syntax error or trailing garbage yields the error result (`None`). -/
def parse_expression (s : String) : Option DataNode :=
  (tokenize s.data).bind (fun ts =>
    match parseAddV ts with
    | some (a, []) => some a
    | _ => none)

def notAddHead : List Tok → Bool
  | .plus :: _ => false
  | .minus :: _ => false
  | _ => true

def notMulHead : List Tok → Bool
  | .star :: _ => false
  | .slash :: _ => false
  | .dslash :: _ => false
  | .percent :: _ => false
  | _ => true

def notDstarHead : List Tok → Bool
  | .dstar :: _ => false
  | _ => true

theorem parseAddV_eq (ts : List Tok) :
    parseAddV ts = match parseMulV ts with
      | none => none
      | some (a, r) => parseAddLoopV a r := by
  unfold parseAddV parseMulV parseAddLoopV
  rw [parseAdd]
  cases hm : parseMul ts with
  | none => simp
  | some p =>
    obtain ⟨⟨a, r⟩, hr⟩ := p
    cases hl : parseAddLoop a r with
    | none => simp [hl]
    | some q =>
      obtain ⟨⟨b, r2⟩, h2⟩ := q
      simp [hl]

theorem parseMulV_eq (ts : List Tok) :
    parseMulV ts = match parseUnaryV ts with
      | none => none
      | some (a, r) => parseMulLoopV a r := by
  unfold parseMulV parseUnaryV parseMulLoopV
  rw [parseMul]
  cases hm : parseUnary ts with
  | none => simp
  | some p =>
    obtain ⟨⟨a, r⟩, hr⟩ := p
    cases hl : parseMulLoop a r with
    | none => simp [hl]
    | some q =>
      obtain ⟨⟨b, r2⟩, h2⟩ := q
      simp [hl]

theorem parseAddLoopV_plus (a : DataNode) (r : List Tok) :
    parseAddLoopV a (.plus :: r) = match parseMulV r with
      | none => none
      | some (b, r2) => parseAddLoopV (.binaryOp "add" a b) r2 := by
  unfold parseAddLoopV parseMulV
  rw [parseAddLoop]
  cases hm : parseMul r with
  | none => simp
  | some p =>
    obtain ⟨⟨b, r2⟩, hr⟩ := p
    cases hl : parseAddLoop (.binaryOp "add" a b) r2 with
    | none => simp [hl]
    | some q =>
      obtain ⟨⟨c, r3⟩, h3⟩ := q
      simp [hl]

theorem parseAddLoopV_minus (a : DataNode) (r : List Tok) :
    parseAddLoopV a (.minus :: r) = match parseMulV r with
      | none => none
      | some (b, r2) => parseAddLoopV (.binaryOp "sub" a b) r2 := by
  unfold parseAddLoopV parseMulV
  rw [parseAddLoop]
  cases hm : parseMul r with
  | none => simp
  | some p =>
    obtain ⟨⟨b, r2⟩, hr⟩ := p
    cases hl : parseAddLoop (.binaryOp "sub" a b) r2 with
    | none => simp [hl]
    | some q =>
      obtain ⟨⟨c, r3⟩, h3⟩ := q
      simp [hl]

theorem parseAddLoopV_stop (a : DataNode) (ts : List Tok)
    (h : notAddHead ts = true) : parseAddLoopV a ts = some (a, ts) := by
  cases ts with
  | nil => simp [parseAddLoopV, parseAddLoop]
  | cons t r => cases t <;> simp_all [parseAddLoopV, parseAddLoop, notAddHead]

theorem parseMulLoopV_star (a : DataNode) (r : List Tok) :
    parseMulLoopV a (.star :: r) = match parseUnaryV r with
      | none => none
      | some (b, r2) => parseMulLoopV (.binaryOp "mul" a b) r2 := by
  unfold parseMulLoopV parseUnaryV
  rw [parseMulLoop]
  cases hm : parseUnary r with
  | none => simp
  | some p =>
    obtain ⟨⟨b, r2⟩, hr⟩ := p
    cases hl : parseMulLoop (.binaryOp "mul" a b) r2 with
    | none => simp [hl]
    | some q =>
      obtain ⟨⟨c, r3⟩, h3⟩ := q
      simp [hl]

theorem parseMulLoopV_slash (a : DataNode) (r : List Tok) :
    parseMulLoopV a (.slash :: r) = match parseUnaryV r with
      | none => none
      | some (b, r2) => parseMulLoopV (.binaryOp "truediv" a b) r2 := by
  unfold parseMulLoopV parseUnaryV
  rw [parseMulLoop]
  cases hm : parseUnary r with
  | none => simp
  | some p =>
    obtain ⟨⟨b, r2⟩, hr⟩ := p
    cases hl : parseMulLoop (.binaryOp "truediv" a b) r2 with
    | none => simp [hl]
    | some q =>
      obtain ⟨⟨c, r3⟩, h3⟩ := q
      simp [hl]

theorem parseMulLoopV_dslash (a : DataNode) (r : List Tok) :
    parseMulLoopV a (.dslash :: r) = match parseUnaryV r with
      | none => none
      | some (b, r2) => parseMulLoopV (.binaryOp "floordiv" a b) r2 := by
  unfold parseMulLoopV parseUnaryV
  rw [parseMulLoop]
  cases hm : parseUnary r with
  | none => simp
  | some p =>
    obtain ⟨⟨b, r2⟩, hr⟩ := p
    cases hl : parseMulLoop (.binaryOp "floordiv" a b) r2 with
    | none => simp [hl]
    | some q =>
      obtain ⟨⟨c, r3⟩, h3⟩ := q
      simp [hl]

theorem parseMulLoopV_percent (a : DataNode) (r : List Tok) :
    parseMulLoopV a (.percent :: r) = match parseUnaryV r with
      | none => none
      | some (b, r2) => parseMulLoopV (.binaryOp "mod" a b) r2 := by
  unfold parseMulLoopV parseUnaryV
  rw [parseMulLoop]
  cases hm : parseUnary r with
  | none => simp
  | some p =>
    obtain ⟨⟨b, r2⟩, hr⟩ := p
    cases hl : parseMulLoop (.binaryOp "mod" a b) r2 with
    | none => simp [hl]
    | some q =>
      obtain ⟨⟨c, r3⟩, h3⟩ := q
      simp [hl]

theorem parseMulLoopV_stop (a : DataNode) (ts : List Tok)
    (h : notMulHead ts = true) : parseMulLoopV a ts = some (a, ts) := by
  cases ts with
  | nil => simp [parseMulLoopV, parseMulLoop]
  | cons t r => cases t <;> simp_all [parseMulLoopV, parseMulLoop, notMulHead]

theorem parseUnaryV_minus (r : List Tok) :
    parseUnaryV (.minus :: r) = match parseUnaryV r with
      | none => none
      | some (a, r2) => some (.unaryOp "neg" a, r2) := by
  unfold parseUnaryV
  rw [parseUnary]
  cases hm : parseUnary r with
  | none => simp
  | some p =>
    obtain ⟨⟨a, r2⟩, hr⟩ := p
    simp

theorem parseUnaryV_plus (r : List Tok) :
    parseUnaryV (.plus :: r) = match parseUnaryV r with
      | none => none
      | some (a, r2) => some (.unaryOp "pos" a, r2) := by
  unfold parseUnaryV
  rw [parseUnary]
  cases hm : parseUnary r with
  | none => simp
  | some p =>
    obtain ⟨⟨a, r2⟩, hr⟩ := p
    simp

theorem parseUnaryV_other (ts : List Tok) (h : notAddHead ts = true) :
    parseUnaryV ts = parsePowV ts := by
  cases ts with
  | nil => simp [parseUnaryV, parsePowV, parseUnary]
  | cons t r =>
    cases t <;> simp_all [parseUnaryV, parsePowV, parseUnary, notAddHead]

theorem parseAtomV_ident (n : String) (r : List Tok) :
    parseAtomV (.ident n :: r) = some (.leaf n, r) := by
  simp [parseAtomV, parseAtom]

theorem parseAtomV_lpar (r : List Tok) :
    parseAtomV (.lpar :: r) = match parseAddV r with
      | none => none
      | some (a, r2) => match r2 with
        | .rpar :: r3 => some (a, r3)
        | _ => none := by
  unfold parseAtomV parseAddV
  rw [parseAtom]
  cases hm : parseAdd r with
  | none => simp
  | some p =>
    obtain ⟨⟨a, r2⟩, hr⟩ := p
    cases r2 with
    | nil => simp
    | cons t r3 => cases t <;> simp

theorem parsePowV_eq (ts : List Tok) :
    parsePowV ts = match parseAtomV ts with
      | none => none
      | some (a, r) => match r with
        | .dstar :: r2 =>
          (match parseUnaryV r2 with
           | none => none
           | some (b, r3) => some (.binaryOp "pow" a b, r3))
        | _ => some (a, r) := by
  unfold parsePowV parseAtomV parseUnaryV
  rw [parsePow]
  cases hm : parseAtom ts with
  | none => simp
  | some p =>
    obtain ⟨⟨a, r⟩, hr⟩ := p
    cases r with
    | nil => simp
    | cons t r2 =>
      cases t <;> (try simp) <;>
        (cases hu : parseUnary r2 with
         | none => simp
         | some q =>
           obtain ⟨⟨b, r3⟩, h3⟩ := q
           simp)

theorem parsePowV_of_atom (ts : List Tok) (a : DataNode) (r : List Tok)
    (ha : parseAtomV ts = some (a, r)) (h : notDstarHead r = true) :
    parsePowV ts = some (a, r) := by
  rw [parsePowV_eq, ha]
  cases r with
  | nil => rfl
  | cons t r2 => cases t <;> simp_all [notDstarHead]

theorem parsePowV_dstar_of_atom (ts : List Tok) (a : DataNode) (r2 : List Tok)
    (ha : parseAtomV ts = some (a, .dstar :: r2)) :
    parsePowV ts = match parseUnaryV r2 with
      | none => none
      | some (b, r3) => some (.binaryOp "pow" a b, r3) := by
  rw [parsePowV_eq, ha]

theorem mpart_of_upart (t : DataNode) (rest : List Tok)
    (hU : parseUnaryV (emit t ++ rest) = some (t, rest)) :
    parseMulV (emit t ++ rest) = parseMulLoopV t rest := by
  rw [parseMulV_eq, hU]

theorem apart_of_mpart (t : DataNode) (rest : List Tok)
    (hM : parseMulV (emit t ++ rest) = parseMulLoopV t rest)
    (hmul : notMulHead rest = true) :
    parseAddV (emit t ++ rest) = parseAddLoopV t rest := by
  rw [parseAddV_eq, hM, parseMulLoopV_stop t rest hmul]

theorem lookup_pow : lookup_operator "pow" = some ("**", 9) := rfl
theorem lookup_neg : lookup_operator "neg" = some ("-", 8) := rfl
theorem lookup_pos : lookup_operator "pos" = some ("+", 8) := rfl
theorem lookup_add : lookup_operator "add" = some ("+", 6) := rfl
theorem lookup_sub : lookup_operator "sub" = some ("-", 6) := rfl
theorem lookup_mul : lookup_operator "mul" = some ("*", 7) := rfl
theorem lookup_truediv : lookup_operator "truediv" = some ("/", 7) := rfl
theorem lookup_floordiv : lookup_operator "floordiv" = some ("//", 7) := rfl
theorem lookup_mod : lookup_operator "mod" = some ("%", 7) := rfl

theorem reconstruct_unary (fid text : String) (prec : Int) (a : DataNode)
    (hl : lookup_operator fid = some (text, prec)) :
    reconstruct (.unaryOp fid a) =
      (text ++ (if prec ≥ (reconstruct a).2 then
        "(" ++ (reconstruct a).1 ++ ")" else (reconstruct a).1), prec) := by
  simp only [reconstruct, hl]

theorem reconstruct_binary (fid text : String) (prec : Int) (a b : DataNode)
    (hl : lookup_operator fid = some (text, prec)) :
    reconstruct (.binaryOp fid a b) =
      ((if prec > (reconstruct a).2 then
          "(" ++ (reconstruct a).1 ++ ")" else (reconstruct a).1) ++
        " " ++ text ++ " " ++
        (if prec > (reconstruct b).2 then
          "(" ++ (reconstruct b).1 ++ ")" else (reconstruct b).1), prec) := by
  simp only [reconstruct, hl]

theorem opPrec_of_lookup (fid text : String) (prec : Int)
    (hl : lookup_operator fid = some (text, prec)) : opPrec fid = prec := by
  simp [opPrec, hl]

def nsize : DataNode → Nat
  | .leaf _ => 1
  | .unaryOp _ a => nsize a + 1
  | .binaryOp _ a b => nsize a + nsize b + 1

/-- Every well-formed tree renders with a precedence between 6 and 10. -/
theorem WF_prec_ge6 (t : DataNode) (h : WFb t = true) :
    6 ≤ (reconstruct t).2 ∧ (reconstruct t).2 ≤ 10 := by
  cases t with
  | leaf name => simp [reconstruct]
  | unaryOp fid a =>
    simp only [WFb, Bool.and_eq_true, Bool.or_eq_true, decide_eq_true_eq] at h
    rcases h.1 with h1 | h1 <;> subst h1
    · rw [reconstruct_unary _ _ _ _ lookup_neg]
      exact ⟨by norm_num, by norm_num⟩
    · rw [reconstruct_unary _ _ _ _ lookup_pos]
      exact ⟨by norm_num, by norm_num⟩
  | binaryOp fid a b =>
    simp only [WFb, Bool.and_eq_true, Bool.or_eq_true, decide_eq_true_eq] at h
    rcases h.1.1 with ((((((h1 | h1) | h1) | h1) | h1) | h1) | h1) <;> subst h1
    · rw [reconstruct_binary _ _ _ _ _ lookup_add]
      exact ⟨by norm_num, by norm_num⟩
    · rw [reconstruct_binary _ _ _ _ _ lookup_sub]
      exact ⟨by norm_num, by norm_num⟩
    · rw [reconstruct_binary _ _ _ _ _ lookup_mul]
      exact ⟨by norm_num, by norm_num⟩
    · rw [reconstruct_binary _ _ _ _ _ lookup_truediv]
      exact ⟨by norm_num, by norm_num⟩
    · rw [reconstruct_binary _ _ _ _ _ lookup_floordiv]
      exact ⟨by norm_num, by norm_num⟩
    · rw [reconstruct_binary _ _ _ _ _ lookup_mod]
      exact ⟨by norm_num, by norm_num⟩
    · rw [reconstruct_binary _ _ _ _ _ lookup_pow]
      exact ⟨by norm_num, by norm_num⟩

/-- A well-formed tree rendering at precedence 10 is a leaf. -/
theorem WF_prec10_leaf (t : DataNode) (hw : WFb t = true)
    (h : 10 ≤ (reconstruct t).2) : ∃ name, t = .leaf name := by
  cases t with
  | leaf name => exact ⟨name, rfl⟩
  | unaryOp fid a =>
    exfalso
    simp only [WFb, Bool.and_eq_true, Bool.or_eq_true, decide_eq_true_eq] at hw
    rcases hw.1 with h1 | h1 <;> subst h1
    · rw [reconstruct_unary _ _ _ _ lookup_neg] at h
      norm_num at h
    · rw [reconstruct_unary _ _ _ _ lookup_pos] at h
      norm_num at h
  | binaryOp fid a b =>
    exfalso
    simp only [WFb, Bool.and_eq_true, Bool.or_eq_true, decide_eq_true_eq] at hw
    rcases hw.1.1 with ((((((h1 | h1) | h1) | h1) | h1) | h1) | h1) <;> subst h1 <;>
      first
      | (rw [reconstruct_binary _ _ _ _ _ lookup_add] at h; norm_num at h)
      | (rw [reconstruct_binary _ _ _ _ _ lookup_sub] at h; norm_num at h)
      | (rw [reconstruct_binary _ _ _ _ _ lookup_mul] at h; norm_num at h)
      | (rw [reconstruct_binary _ _ _ _ _ lookup_truediv] at h; norm_num at h)
      | (rw [reconstruct_binary _ _ _ _ _ lookup_floordiv] at h; norm_num at h)
      | (rw [reconstruct_binary _ _ _ _ _ lookup_mod] at h; norm_num at h)
      | (rw [reconstruct_binary _ _ _ _ _ lookup_pow] at h; norm_num at h)

theorem parseMulV_of_unary (ts : List Tok) (a : DataNode) (r : List Tok)
    (h : parseUnaryV ts = some (a, r)) : parseMulV ts = parseMulLoopV a r := by
  rw [parseMulV_eq, h]

theorem parseAddV_of_mul (ts : List Tok) (a : DataNode) (r : List Tok)
    (h : parseMulV ts = some (a, r)) : parseAddV ts = parseAddLoopV a r := by
  rw [parseAddV_eq, h]

theorem parseAddLoopV_plus_of (u : DataNode) (r : List Tok) (b : DataNode)
    (r2 : List Tok) (h : parseMulV r = some (b, r2)) :
    parseAddLoopV u (.plus :: r) = parseAddLoopV (.binaryOp "add" u b) r2 := by
  rw [parseAddLoopV_plus, h]

theorem parseAddLoopV_minus_of (u : DataNode) (r : List Tok) (b : DataNode)
    (r2 : List Tok) (h : parseMulV r = some (b, r2)) :
    parseAddLoopV u (.minus :: r) = parseAddLoopV (.binaryOp "sub" u b) r2 := by
  rw [parseAddLoopV_minus, h]

theorem parseMulLoopV_star_of (u : DataNode) (r : List Tok) (b : DataNode)
    (r2 : List Tok) (h : parseUnaryV r = some (b, r2)) :
    parseMulLoopV u (.star :: r) = parseMulLoopV (.binaryOp "mul" u b) r2 := by
  rw [parseMulLoopV_star, h]

theorem parseMulLoopV_slash_of (u : DataNode) (r : List Tok) (b : DataNode)
    (r2 : List Tok) (h : parseUnaryV r = some (b, r2)) :
    parseMulLoopV u (.slash :: r) = parseMulLoopV (.binaryOp "truediv" u b) r2 := by
  rw [parseMulLoopV_slash, h]

theorem parseMulLoopV_dslash_of (u : DataNode) (r : List Tok) (b : DataNode)
    (r2 : List Tok) (h : parseUnaryV r = some (b, r2)) :
    parseMulLoopV u (.dslash :: r) = parseMulLoopV (.binaryOp "floordiv" u b) r2 := by
  rw [parseMulLoopV_dslash, h]

theorem parseMulLoopV_percent_of (u : DataNode) (r : List Tok) (b : DataNode)
    (r2 : List Tok) (h : parseUnaryV r = some (b, r2)) :
    parseMulLoopV u (.percent :: r) = parseMulLoopV (.binaryOp "mod" u b) r2 := by
  rw [parseMulLoopV_percent, h]

theorem parseUnaryV_minus_of (r : List Tok) (a : DataNode) (r2 : List Tok)
    (h : parseUnaryV r = some (a, r2)) :
    parseUnaryV (.minus :: r) = some (.unaryOp "neg" a, r2) := by
  rw [parseUnaryV_minus, h]

theorem parseUnaryV_plus_of (r : List Tok) (a : DataNode) (r2 : List Tok)
    (h : parseUnaryV r = some (a, r2)) :
    parseUnaryV (.plus :: r) = some (.unaryOp "pos" a, r2) := by
  rw [parseUnaryV_plus, h]

theorem parseAtomV_lpar_of (r : List Tok) (a : DataNode) (r2 : List Tok)
    (h : parseAddV r = some (a, .rpar :: r2)) :
    parseAtomV (.lpar :: r) = some (a, r2) := by
  rw [parseAtomV_lpar, h]

theorem parsePowV_dstar_of (ts : List Tok) (a : DataNode) (r2 : List Tok)
    (b : DataNode) (r3 : List Tok)
    (ha : parseAtomV ts = some (a, .dstar :: r2))
    (hu : parseUnaryV r2 = some (b, r3)) :
    parsePowV ts = some (.binaryOp "pow" a b, r3) := by
  rw [parsePowV_dstar_of_atom _ _ _ ha, hu]

/-- Core round-trip lemma: the token rendering of a well-formed,
parenthesization-safe tree parses back to exactly that tree, at each
grammar level, with any stopping continuation. -/
theorem parse_emit_all :
    ∀ (n : Nat) (t : DataNode), nsize t ≤ n → WFb t = true → PSb t = true →
      (8 ≤ (reconstruct t).2 → ∀ rest, notDstarHead rest = true →
        parseUnaryV (emit t ++ rest) = some (t, rest)) ∧
      (7 ≤ (reconstruct t).2 → ∀ rest, notDstarHead rest = true →
        parseMulV (emit t ++ rest) = parseMulLoopV t rest) ∧
      (∀ rest, notMulHead rest = true → notDstarHead rest = true →
        parseAddV (emit t ++ rest) = parseAddLoopV t rest) := by
  intro n
  induction n with
  | zero =>
    intro t h
    exfalso
    cases t <;> simp only [nsize] at h <;> omega
  | succ n ih =>
    intro t hsize hwf hps
    have ihU : ∀ c, nsize c ≤ n → WFb c = true → PSb c = true →
        8 ≤ (reconstruct c).2 → ∀ rest, notDstarHead rest = true →
        parseUnaryV (emit c ++ rest) = some (c, rest) :=
      fun c h1 h2 h3 => (ih c h1 h2 h3).1
    have ihM : ∀ c, nsize c ≤ n → WFb c = true → PSb c = true →
        7 ≤ (reconstruct c).2 → ∀ rest, notDstarHead rest = true →
        parseMulV (emit c ++ rest) = parseMulLoopV c rest :=
      fun c h1 h2 h3 => (ih c h1 h2 h3).2.1
    have ihA : ∀ c, nsize c ≤ n → WFb c = true → PSb c = true →
        ∀ rest, notMulHead rest = true → notDstarHead rest = true →
        parseAddV (emit c ++ rest) = parseAddLoopV c rest :=
      fun c h1 h2 h3 => (ih c h1 h2 h3).2.2
    have hatomW : ∀ c, nsize c ≤ n → WFb c = true → PSb c = true →
        ∀ rest, parseAtomV (.lpar :: (emit c ++ (.rpar :: rest))) = some (c, rest) := by
      intro c h1 h2 h3 rest
      exact parseAtomV_lpar_of _ _ _
        ((ihA c h1 h2 h3 (.rpar :: rest) rfl rfl).trans
          (parseAddLoopV_stop c (.rpar :: rest) rfl))
    have hfragWrapped : ∀ c, nsize c ≤ n → WFb c = true → PSb c = true →
        ∀ rest, notDstarHead rest = true →
        parseUnaryV ((.lpar :: emit c ++ [.rpar]) ++ rest) = some (c, rest) := by
      intro c h1 h2 h3 rest hnd
      have hsh : ((.lpar :: emit c ++ [.rpar]) ++ rest : List Tok) =
          .lpar :: (emit c ++ (.rpar :: rest)) := by simp
      rw [hsh, parseUnaryV_other (.lpar :: (emit c ++ (.rpar :: rest))) rfl,
        parsePowV_of_atom _ c rest (hatomW c h1 h2 h3 rest) hnd]
    cases t with
    | leaf name =>
      have hU : ∀ rest, notDstarHead rest = true →
          parseUnaryV (emit (.leaf name) ++ rest) = some (.leaf name, rest) := by
        intro rest hnd
        rw [show emit (.leaf name) ++ rest = .ident name :: rest from by simp [emit]]
        rw [parseUnaryV_other (.ident name :: rest) rfl,
          parsePowV_of_atom _ (.leaf name) rest (parseAtomV_ident name rest) hnd]
      exact ⟨fun _ => hU,
        fun _ rest hnd => mpart_of_upart _ rest (hU rest hnd),
        fun rest hm hnd =>
          apart_of_mpart _ rest (mpart_of_upart _ rest (hU rest hnd)) hm⟩
    | unaryOp fid a =>
      simp only [WFb, Bool.and_eq_true, Bool.or_eq_true, decide_eq_true_eq] at hwf
      obtain ⟨hfid, hwa⟩ := hwf
      simp only [PSb] at hps
      simp only [nsize] at hsize
      have hna : nsize a ≤ n := by omega
      have hchild : ∀ rest, notDstarHead rest = true →
          parseUnaryV ((if (8 : Int) ≥ (reconstruct a).2 then
            .lpar :: emit a ++ [.rpar] else emit a) ++ rest) = some (a, rest) := by
        intro rest hnd
        by_cases hcond : (8 : Int) ≥ (reconstruct a).2
        · rw [if_pos hcond]
          exact hfragWrapped a hna hwa hps rest hnd
        · rw [if_neg hcond]
          exact ihU a hna hwa hps (by omega) rest hnd
      rcases hfid with h1 | h1 <;> subst h1
      · have hU : ∀ rest, notDstarHead rest = true →
            parseUnaryV (emit (.unaryOp "neg" a) ++ rest) =
              some (.unaryOp "neg" a, rest) := by
          intro rest hnd
          have e1 : emit (.unaryOp "neg" a) ++ rest =
              .minus :: ((if (8 : Int) ≥ (reconstruct a).2 then
                .lpar :: emit a ++ [.rpar] else emit a) ++ rest) := by
            simp only [emit]
            rw [opPrec_of_lookup _ _ _ lookup_neg,
              show opTok "neg" = Tok.minus from rfl]
            simp
          rw [e1, parseUnaryV_minus_of _ a rest (hchild rest hnd)]
        exact ⟨fun _ => hU,
          fun _ rest hnd => mpart_of_upart _ rest (hU rest hnd),
          fun rest hm hnd =>
            apart_of_mpart _ rest (mpart_of_upart _ rest (hU rest hnd)) hm⟩
      · have hU : ∀ rest, notDstarHead rest = true →
            parseUnaryV (emit (.unaryOp "pos" a) ++ rest) =
              some (.unaryOp "pos" a, rest) := by
          intro rest hnd
          have e1 : emit (.unaryOp "pos" a) ++ rest =
              .plus :: ((if (8 : Int) ≥ (reconstruct a).2 then
                .lpar :: emit a ++ [.rpar] else emit a) ++ rest) := by
            simp only [emit]
            rw [opPrec_of_lookup _ _ _ lookup_pos,
              show opTok "pos" = Tok.plus from rfl]
            simp
          rw [e1, parseUnaryV_plus_of _ a rest (hchild rest hnd)]
        exact ⟨fun _ => hU,
          fun _ rest hnd => mpart_of_upart _ rest (hU rest hnd),
          fun rest hm hnd =>
            apart_of_mpart _ rest (mpart_of_upart _ rest (hU rest hnd)) hm⟩
    | binaryOp fid a b =>
      simp only [WFb, Bool.and_eq_true, Bool.or_eq_true, decide_eq_true_eq] at hwf
      obtain ⟨⟨hfid, hwa⟩, hwb⟩ := hwf
      simp only [PSb, Bool.and_eq_true] at hps
      obtain ⟨⟨hpa, hpb⟩, hcond⟩ := hps
      simp only [nsize] at hsize
      have hna : nsize a ≤ n := by omega
      have hnb : nsize b ≤ n := by omega
      have hga := WF_prec_ge6 a hwa
      have hgb := WF_prec_ge6 b hwb
      rcases hfid with ((((((h1 | h1) | h1) | h1) | h1) | h1) | h1) <;> subst h1
      · -- add
        rw [if_neg (by decide), opPrec_of_lookup _ _ _ lookup_add] at hcond
        have hne := of_decide_eq_true hcond
        have hprb : 7 ≤ (reconstruct b).2 := by omega
        have hA : ∀ rest, notMulHead rest = true → notDstarHead rest = true →
            parseAddV (emit (.binaryOp "add" a b) ++ rest) =
              parseAddLoopV (.binaryOp "add" a b) rest := by
          intro rest hm hnd
          have e1 : emit (.binaryOp "add" a b) ++ rest =
              emit a ++ (.plus :: (emit b ++ rest)) := by
            simp only [emit]
            rw [opPrec_of_lookup _ _ _ lookup_add,
              show opTok "add" = Tok.plus from rfl,
              if_neg (by omega), if_neg (by omega)]
            simp
          rw [e1, ihA a hna hwa hpa (.plus :: (emit b ++ rest)) rfl rfl,
            parseAddLoopV_plus_of a _ b rest
              ((ihM b hnb hwb hpb hprb rest hnd).trans
                (parseMulLoopV_stop b rest hm))]
        exact ⟨fun h8 => absurd h8
            (by simp [reconstruct_binary _ _ _ _ _ lookup_add]),
          fun h7 => absurd h7
            (by simp [reconstruct_binary _ _ _ _ _ lookup_add]),
          hA⟩
      · -- sub
        rw [if_neg (by decide), opPrec_of_lookup _ _ _ lookup_sub] at hcond
        have hne := of_decide_eq_true hcond
        have hprb : 7 ≤ (reconstruct b).2 := by omega
        have hA : ∀ rest, notMulHead rest = true → notDstarHead rest = true →
            parseAddV (emit (.binaryOp "sub" a b) ++ rest) =
              parseAddLoopV (.binaryOp "sub" a b) rest := by
          intro rest hm hnd
          have e1 : emit (.binaryOp "sub" a b) ++ rest =
              emit a ++ (.minus :: (emit b ++ rest)) := by
            simp only [emit]
            rw [opPrec_of_lookup _ _ _ lookup_sub,
              show opTok "sub" = Tok.minus from rfl,
              if_neg (by omega), if_neg (by omega)]
            simp
          rw [e1, ihA a hna hwa hpa (.minus :: (emit b ++ rest)) rfl rfl,
            parseAddLoopV_minus_of a _ b rest
              ((ihM b hnb hwb hpb hprb rest hnd).trans
                (parseMulLoopV_stop b rest hm))]
        exact ⟨fun h8 => absurd h8
            (by simp [reconstruct_binary _ _ _ _ _ lookup_sub]),
          fun h7 => absurd h7
            (by simp [reconstruct_binary _ _ _ _ _ lookup_sub]),
          hA⟩
      · -- mul
        rw [if_neg (by decide), opPrec_of_lookup _ _ _ lookup_mul] at hcond
        have hne := of_decide_eq_true hcond
        have hM : ∀ rest, notDstarHead rest = true →
            parseMulV (emit (.binaryOp "mul" a b) ++ rest) =
              parseMulLoopV (.binaryOp "mul" a b) rest := by
          intro rest hnd
          have e1 : emit (.binaryOp "mul" a b) ++ rest =
              (if (7 : Int) > (reconstruct a).2 then
                .lpar :: emit a ++ [.rpar] else emit a) ++
              (.star :: ((if (7 : Int) > (reconstruct b).2 then
                .lpar :: emit b ++ [.rpar] else emit b) ++ rest)) := by
            simp only [emit]
            rw [opPrec_of_lookup _ _ _ lookup_mul,
              show opTok "mul" = Tok.star from rfl]
            simp
          have hright : parseUnaryV ((if (7 : Int) > (reconstruct b).2 then
              .lpar :: emit b ++ [.rpar] else emit b) ++ rest) = some (b, rest) := by
            by_cases hc : (7 : Int) > (reconstruct b).2
            · rw [if_pos hc]
              exact hfragWrapped b hnb hwb hpb rest hnd
            · rw [if_neg hc]
              exact ihU b hnb hwb hpb (by omega) rest hnd
          rw [e1]
          by_cases hcl : (7 : Int) > (reconstruct a).2
          · rw [if_pos hcl,
              parseMulV_of_unary _ a _
                (hfragWrapped a hna hwa hpa (.star :: _) rfl),
              parseMulLoopV_star_of a _ b rest hright]
          · rw [if_neg hcl,
              ihM a hna hwa hpa (by omega) (.star :: _) rfl,
              parseMulLoopV_star_of a _ b rest hright]
        exact ⟨fun h8 => absurd h8
            (by simp [reconstruct_binary _ _ _ _ _ lookup_mul]),
          fun _ => hM,
          fun rest hm hnd => apart_of_mpart _ rest (hM rest hnd) hm⟩
      · -- truediv
        rw [if_neg (by decide), opPrec_of_lookup _ _ _ lookup_truediv] at hcond
        have hne := of_decide_eq_true hcond
        have hM : ∀ rest, notDstarHead rest = true →
            parseMulV (emit (.binaryOp "truediv" a b) ++ rest) =
              parseMulLoopV (.binaryOp "truediv" a b) rest := by
          intro rest hnd
          have e1 : emit (.binaryOp "truediv" a b) ++ rest =
              (if (7 : Int) > (reconstruct a).2 then
                .lpar :: emit a ++ [.rpar] else emit a) ++
              (.slash :: ((if (7 : Int) > (reconstruct b).2 then
                .lpar :: emit b ++ [.rpar] else emit b) ++ rest)) := by
            simp only [emit]
            rw [opPrec_of_lookup _ _ _ lookup_truediv,
              show opTok "truediv" = Tok.slash from rfl]
            simp
          have hright : parseUnaryV ((if (7 : Int) > (reconstruct b).2 then
              .lpar :: emit b ++ [.rpar] else emit b) ++ rest) = some (b, rest) := by
            by_cases hc : (7 : Int) > (reconstruct b).2
            · rw [if_pos hc]
              exact hfragWrapped b hnb hwb hpb rest hnd
            · rw [if_neg hc]
              exact ihU b hnb hwb hpb (by omega) rest hnd
          rw [e1]
          by_cases hcl : (7 : Int) > (reconstruct a).2
          · rw [if_pos hcl,
              parseMulV_of_unary _ a _
                (hfragWrapped a hna hwa hpa (.slash :: _) rfl),
              parseMulLoopV_slash_of a _ b rest hright]
          · rw [if_neg hcl,
              ihM a hna hwa hpa (by omega) (.slash :: _) rfl,
              parseMulLoopV_slash_of a _ b rest hright]
        exact ⟨fun h8 => absurd h8
            (by simp [reconstruct_binary _ _ _ _ _ lookup_truediv]),
          fun _ => hM,
          fun rest hm hnd => apart_of_mpart _ rest (hM rest hnd) hm⟩
      · -- floordiv
        rw [if_neg (by decide), opPrec_of_lookup _ _ _ lookup_floordiv] at hcond
        have hne := of_decide_eq_true hcond
        have hM : ∀ rest, notDstarHead rest = true →
            parseMulV (emit (.binaryOp "floordiv" a b) ++ rest) =
              parseMulLoopV (.binaryOp "floordiv" a b) rest := by
          intro rest hnd
          have e1 : emit (.binaryOp "floordiv" a b) ++ rest =
              (if (7 : Int) > (reconstruct a).2 then
                .lpar :: emit a ++ [.rpar] else emit a) ++
              (.dslash :: ((if (7 : Int) > (reconstruct b).2 then
                .lpar :: emit b ++ [.rpar] else emit b) ++ rest)) := by
            simp only [emit]
            rw [opPrec_of_lookup _ _ _ lookup_floordiv,
              show opTok "floordiv" = Tok.dslash from rfl]
            simp
          have hright : parseUnaryV ((if (7 : Int) > (reconstruct b).2 then
              .lpar :: emit b ++ [.rpar] else emit b) ++ rest) = some (b, rest) := by
            by_cases hc : (7 : Int) > (reconstruct b).2
            · rw [if_pos hc]
              exact hfragWrapped b hnb hwb hpb rest hnd
            · rw [if_neg hc]
              exact ihU b hnb hwb hpb (by omega) rest hnd
          rw [e1]
          by_cases hcl : (7 : Int) > (reconstruct a).2
          · rw [if_pos hcl,
              parseMulV_of_unary _ a _
                (hfragWrapped a hna hwa hpa (.dslash :: _) rfl),
              parseMulLoopV_dslash_of a _ b rest hright]
          · rw [if_neg hcl,
              ihM a hna hwa hpa (by omega) (.dslash :: _) rfl,
              parseMulLoopV_dslash_of a _ b rest hright]
        exact ⟨fun h8 => absurd h8
            (by simp [reconstruct_binary _ _ _ _ _ lookup_floordiv]),
          fun _ => hM,
          fun rest hm hnd => apart_of_mpart _ rest (hM rest hnd) hm⟩
      · -- mod
        rw [if_neg (by decide), opPrec_of_lookup _ _ _ lookup_mod] at hcond
        have hne := of_decide_eq_true hcond
        have hM : ∀ rest, notDstarHead rest = true →
            parseMulV (emit (.binaryOp "mod" a b) ++ rest) =
              parseMulLoopV (.binaryOp "mod" a b) rest := by
          intro rest hnd
          have e1 : emit (.binaryOp "mod" a b) ++ rest =
              (if (7 : Int) > (reconstruct a).2 then
                .lpar :: emit a ++ [.rpar] else emit a) ++
              (.percent :: ((if (7 : Int) > (reconstruct b).2 then
                .lpar :: emit b ++ [.rpar] else emit b) ++ rest)) := by
            simp only [emit]
            rw [opPrec_of_lookup _ _ _ lookup_mod,
              show opTok "mod" = Tok.percent from rfl]
            simp
          have hright : parseUnaryV ((if (7 : Int) > (reconstruct b).2 then
              .lpar :: emit b ++ [.rpar] else emit b) ++ rest) = some (b, rest) := by
            by_cases hc : (7 : Int) > (reconstruct b).2
            · rw [if_pos hc]
              exact hfragWrapped b hnb hwb hpb rest hnd
            · rw [if_neg hc]
              exact ihU b hnb hwb hpb (by omega) rest hnd
          rw [e1]
          by_cases hcl : (7 : Int) > (reconstruct a).2
          · rw [if_pos hcl,
              parseMulV_of_unary _ a _
                (hfragWrapped a hna hwa hpa (.percent :: _) rfl),
              parseMulLoopV_percent_of a _ b rest hright]
          · rw [if_neg hcl,
              ihM a hna hwa hpa (by omega) (.percent :: _) rfl,
              parseMulLoopV_percent_of a _ b rest hright]
        exact ⟨fun h8 => absurd h8
            (by simp [reconstruct_binary _ _ _ _ _ lookup_mod]),
          fun _ => hM,
          fun rest hm hnd => apart_of_mpart _ rest (hM rest hnd) hm⟩
      · -- pow
        rw [if_pos rfl] at hcond
        have hne := of_decide_eq_true hcond
        have hU : ∀ rest, notDstarHead rest = true →
            parseUnaryV (emit (.binaryOp "pow" a b) ++ rest) =
              some (.binaryOp "pow" a b, rest) := by
          intro rest hnd
          have e1 : emit (.binaryOp "pow" a b) ++ rest =
              (if (9 : Int) > (reconstruct a).2 then
                .lpar :: emit a ++ [.rpar] else emit a) ++
              (.dstar :: ((if (9 : Int) > (reconstruct b).2 then
                .lpar :: emit b ++ [.rpar] else emit b) ++ rest)) := by
            simp only [emit]
            rw [opPrec_of_lookup _ _ _ lookup_pow,
              show opTok "pow" = Tok.dstar from rfl]
            simp
          have hright : parseUnaryV ((if (9 : Int) > (reconstruct b).2 then
              .lpar :: emit b ++ [.rpar] else emit b) ++ rest) = some (b, rest) := by
            by_cases hc : (9 : Int) > (reconstruct b).2
            · rw [if_pos hc]
              exact hfragWrapped b hnb hwb hpb rest hnd
            · rw [if_neg hc]
              exact ihU b hnb hwb hpb (by omega) rest hnd
          rw [e1]
          by_cases hcl : (9 : Int) > (reconstruct a).2
          · rw [if_pos hcl]
            have hsh : ((.lpar :: emit a ++ [.rpar]) ++
                (.dstar :: ((if (9 : Int) > (reconstruct b).2 then
                  .lpar :: emit b ++ [.rpar] else emit b) ++ rest)) : List Tok) =
                .lpar :: (emit a ++ (.rpar :: (.dstar :: ((if (9 : Int) >
                  (reconstruct b).2 then .lpar :: emit b ++ [.rpar] else emit b) ++
                    rest)))) := by simp
            rw [hsh, parseUnaryV_other (Tok.lpar :: (emit a ++ (Tok.rpar ::
                (Tok.dstar :: ((if (9 : Int) > (reconstruct b).2 then
                  Tok.lpar :: emit b ++ [Tok.rpar] else emit b) ++ rest))))) rfl,
              parsePowV_dstar_of _ a _ b rest (hatomW a hna hwa hpa _) hright]
          · rw [if_neg hcl]
            obtain ⟨m, hm⟩ := WF_prec10_leaf a hwa (by omega)
            subst hm
            rw [show emit (.leaf m) ++ (.dstar :: ((if (9 : Int) >
                (reconstruct b).2 then .lpar :: emit b ++ [.rpar] else emit b) ++
                  rest)) = .ident m :: (.dstar :: ((if (9 : Int) >
                (reconstruct b).2 then .lpar :: emit b ++ [.rpar] else emit b) ++
                  rest)) from by simp [emit]]
            rw [parseUnaryV_other (Tok.ident m :: (Tok.dstar :: ((if (9 : Int) >
                (reconstruct b).2 then Tok.lpar :: emit b ++ [Tok.rpar] else emit b) ++
                  rest))) rfl,
              parsePowV_dstar_of _ (.leaf m) _ b rest
                (parseAtomV_ident m _) hright]
        exact ⟨fun _ => hU,
          fun _ rest hnd => mpart_of_upart _ rest (hU rest hnd),
          fun rest hm hnd =>
            apart_of_mpart _ rest (mpart_of_upart _ rest (hU rest hnd)) hm⟩

/-- The characters that may legally follow a rendered sub-expression
inside a bigger rendering: nothing, a space, or a closing parenthesis. -/
def charBoundary (cs : List Char) : Bool :=
  match cs with
  | [] => true
  | c :: _ => c = ' ' || c = ')'

theorem tok_space (cs : List Char) : tokenize (' ' :: cs) = tokenize cs := by
  rw [tokenize, if_pos rfl]

theorem tok_lpar (cs : List Char) :
    tokenize ('(' :: cs) = (tokenize cs).map (fun ts => Tok.lpar :: ts) := by
  rw [tokenize, if_neg (by decide), if_pos rfl]

theorem tok_rpar (cs : List Char) :
    tokenize (')' :: cs) = (tokenize cs).map (fun ts => Tok.rpar :: ts) := by
  rw [tokenize, if_neg (by decide), if_neg (by decide), if_pos rfl]

theorem tok_plus (cs : List Char) :
    tokenize ('+' :: cs) = (tokenize cs).map (fun ts => Tok.plus :: ts) := by
  rw [tokenize, if_neg (by decide), if_neg (by decide), if_neg (by decide),
    if_pos rfl]

theorem tok_minus (cs : List Char) :
    tokenize ('-' :: cs) = (tokenize cs).map (fun ts => Tok.minus :: ts) := by
  rw [tokenize, if_neg (by decide), if_neg (by decide), if_neg (by decide),
    if_neg (by decide), if_pos rfl]

theorem tok_percent (cs : List Char) :
    tokenize ('%' :: cs) = (tokenize cs).map (fun ts => Tok.percent :: ts) := by
  rw [tokenize, if_neg (by decide), if_neg (by decide), if_neg (by decide),
    if_neg (by decide), if_neg (by decide), if_pos rfl]

theorem tok_dstar (cs : List Char) :
    tokenize ('*' :: '*' :: cs) = (tokenize cs).map (fun ts => Tok.dstar :: ts) := by
  rw [tokenize, if_neg (by decide), if_neg (by decide), if_neg (by decide),
    if_neg (by decide), if_neg (by decide), if_neg (by decide), if_pos rfl,
    if_pos (show ('*' :: cs).head? = some '*' from rfl)]
  rfl

theorem tok_star_space (cs : List Char) :
    tokenize ('*' :: ' ' :: cs) = (tokenize cs).map (fun ts => Tok.star :: ts) := by
  rw [tokenize, if_neg (by decide), if_neg (by decide), if_neg (by decide),
    if_neg (by decide), if_neg (by decide), if_neg (by decide), if_pos rfl,
    if_neg (show ¬(' ' :: cs).head? = some '*' from by simp), tok_space]

theorem tok_dslash (cs : List Char) :
    tokenize ('/' :: '/' :: cs) = (tokenize cs).map (fun ts => Tok.dslash :: ts) := by
  rw [tokenize, if_neg (by decide), if_neg (by decide), if_neg (by decide),
    if_neg (by decide), if_neg (by decide), if_neg (by decide),
    if_neg (by decide), if_pos rfl,
    if_pos (show ('/' :: cs).head? = some '/' from rfl)]
  rfl

theorem tok_slash_space (cs : List Char) :
    tokenize ('/' :: ' ' :: cs) = (tokenize cs).map (fun ts => Tok.slash :: ts) := by
  rw [tokenize, if_neg (by decide), if_neg (by decide), if_neg (by decide),
    if_neg (by decide), if_neg (by decide), if_neg (by decide),
    if_neg (by decide), if_pos rfl,
    if_neg (show ¬(' ' :: cs).head? = some '/' from by simp), tok_space]

theorem identStart_facts (c : Char) (h : (c.isAlpha || c = '_') = true) :
    c ≠ ' ' ∧ c ≠ '(' ∧ c ≠ ')' ∧ c ≠ '+' ∧ c ≠ '-' ∧ c ≠ '%' ∧
      c ≠ '*' ∧ c ≠ '/' := by
  refine ⟨?_, ?_, ?_, ?_, ?_, ?_, ?_, ?_⟩ <;>
    (intro he; subst he; exact absurd h (by decide))

theorem munchIdent_append (cs rest : List Char) (h1 : cs.all isIdentChar = true)
    (h2 : charBoundary rest = true) : munchIdent (cs ++ rest) = (cs, rest) := by
  induction cs with
  | nil =>
    simp only [List.nil_append]
    cases rest with
    | nil => rfl
    | cons r rs =>
      simp only [charBoundary, Bool.or_eq_true, decide_eq_true_eq] at h2
      rcases h2 with h2 | h2 <;> subst h2 <;>
        rw [munchIdent, if_neg (by simp [isIdentChar])]
  | cons c cs ih =>
    simp only [List.all_cons, Bool.and_eq_true] at h1
    rw [List.cons_append, munchIdent, if_pos h1.1, ih h1.2]

theorem tok_ident (c : Char) (cs rest : List Char)
    (hc : (c.isAlpha || c = '_') = true) (h1 : cs.all isIdentChar = true)
    (h2 : charBoundary rest = true) :
    tokenize (c :: (cs ++ rest)) =
      (tokenize rest).map (fun ts => Tok.ident (String.mk (c :: cs)) :: ts) := by
  obtain ⟨n1, n2, n3, n4, n5, n6, n7, n8⟩ := identStart_facts c hc
  rw [tokenize, if_neg n1, if_neg n2, if_neg n3, if_neg n4, if_neg n5,
    if_neg n6, if_neg n7, if_neg n8, if_pos hc,
    munchIdent_append cs rest h1 h2]

/-- Bridge lemma: the rendered text of a well-formed tree tokenizes to
exactly its token rendering, in front of any boundary-safe
continuation. -/
theorem tok_render :
    ∀ (n : Nat) (t : DataNode), nsize t ≤ n → WFb t = true →
      ∀ rest, charBoundary rest = true →
      tokenize ((reconstruct t).1.data ++ rest) =
        (tokenize rest).map (fun ts => emit t ++ ts) := by
  intro n
  induction n with
  | zero =>
    intro t h
    exfalso
    cases t <;> simp only [nsize] at h <;> omega
  | succ n ih =>
    intro t hsize hwf
    have hfragW : ∀ c, nsize c ≤ n → WFb c = true →
        ∀ rest, charBoundary rest = true →
        tokenize (("(" ++ (reconstruct c).1 ++ ")").data ++ rest) =
          (tokenize rest).map (fun ts => (Tok.lpar :: emit c ++ [Tok.rpar]) ++ ts) := by
      intro c h1 h2 rest hb
      have hdata : ("(" ++ (reconstruct c).1 ++ ")").data ++ rest =
          '(' :: ((reconstruct c).1.data ++ (')' :: rest)) := by
        simp [String.data_append]
      rw [hdata, tok_lpar, ih c h1 h2 (')' :: rest) rfl, tok_rpar]
      cases tokenize rest <;> simp
    cases t with
    | leaf name =>
      intro rest hb
      simp only [WFb] at hwf
      cases hd : name.data with
      | nil =>
        rw [identOkb, hd] at hwf
        cases hwf
      | cons c cs =>
        rw [identOkb, hd] at hwf
        simp only [Bool.and_eq_true] at hwf
        have hmk : String.mk (c :: cs) = name := by
          rw [← hd]
        have e1 : (reconstruct (.leaf name)).1.data ++ rest = c :: (cs ++ rest) := by
          simp only [reconstruct]
          rw [hd]
          rfl
        rw [e1, tok_ident c cs rest hwf.1 hwf.2 hb, hmk]
        cases tokenize rest <;> simp [emit]
    | unaryOp fid a =>
      intro rest hb
      simp only [WFb, Bool.and_eq_true, Bool.or_eq_true, decide_eq_true_eq] at hwf
      obtain ⟨hfid, hwa⟩ := hwf
      simp only [nsize] at hsize
      have hna : nsize a ≤ n := by omega
      have harg : tokenize ((if (8 : Int) ≥ (reconstruct a).2 then
          "(" ++ (reconstruct a).1 ++ ")" else (reconstruct a).1).data ++ rest) =
          (tokenize rest).map (fun ts => (if (8 : Int) ≥ (reconstruct a).2 then
            Tok.lpar :: emit a ++ [Tok.rpar] else emit a) ++ ts) := by
        by_cases hc : (8 : Int) ≥ (reconstruct a).2
        · rw [if_pos hc, if_pos hc]
          exact hfragW a hna hwa rest hb
        · rw [if_neg hc, if_neg hc]
          exact ih a hna hwa rest hb
      rcases hfid with h1 | h1 <;> subst h1
      · have e1 : (reconstruct (.unaryOp "neg" a)).1.data ++ rest =
            '-' :: ((if (8 : Int) ≥ (reconstruct a).2 then
              "(" ++ (reconstruct a).1 ++ ")" else (reconstruct a).1).data ++ rest) := by
          rw [reconstruct_unary _ _ _ _ lookup_neg]
          simp [String.data_append]
        have e2 : emit (.unaryOp "neg" a) =
            Tok.minus :: (if (8 : Int) ≥ (reconstruct a).2 then
              Tok.lpar :: emit a ++ [Tok.rpar] else emit a) := by
          simp only [emit]
          rw [opPrec_of_lookup _ _ _ lookup_neg,
            show opTok "neg" = Tok.minus from rfl]
        rw [e1, tok_minus, harg, e2]
        cases tokenize rest <;> simp
      · have e1 : (reconstruct (.unaryOp "pos" a)).1.data ++ rest =
            '+' :: ((if (8 : Int) ≥ (reconstruct a).2 then
              "(" ++ (reconstruct a).1 ++ ")" else (reconstruct a).1).data ++ rest) := by
          rw [reconstruct_unary _ _ _ _ lookup_pos]
          simp [String.data_append]
        have e2 : emit (.unaryOp "pos" a) =
            Tok.plus :: (if (8 : Int) ≥ (reconstruct a).2 then
              Tok.lpar :: emit a ++ [Tok.rpar] else emit a) := by
          simp only [emit]
          rw [opPrec_of_lookup _ _ _ lookup_pos,
            show opTok "pos" = Tok.plus from rfl]
        rw [e1, tok_plus, harg, e2]
        cases tokenize rest <;> simp
    | binaryOp fid a b =>
      intro rest hb
      simp only [WFb, Bool.and_eq_true, Bool.or_eq_true, decide_eq_true_eq] at hwf
      obtain ⟨⟨hfid, hwa⟩, hwb⟩ := hwf
      simp only [nsize] at hsize
      have hna : nsize a ≤ n := by omega
      have hnb : nsize b ≤ n := by omega
      have hbin : ∀ (text : String) (tk : Tok),
          (∀ T : List Char, tokenize (text.data ++ (' ' :: T)) =
            (tokenize T).map (fun ts => tk :: ts)) →
          ∀ (prec : Int),
          tokenize (((if prec > (reconstruct a).2 then
              "(" ++ (reconstruct a).1 ++ ")" else (reconstruct a).1) ++
            " " ++ text ++ " " ++
            (if prec > (reconstruct b).2 then
              "(" ++ (reconstruct b).1 ++ ")" else (reconstruct b).1)).data ++ rest) =
          (tokenize rest).map (fun ts =>
            ((if prec > (reconstruct a).2 then
              Tok.lpar :: emit a ++ [Tok.rpar] else emit a) ++
              (tk :: (if prec > (reconstruct b).2 then
                Tok.lpar :: emit b ++ [Tok.rpar] else emit b))) ++ ts) := by
        intro text tk htok prec
        have hR : tokenize ((if prec > (reconstruct b).2 then
            "(" ++ (reconstruct b).1 ++ ")" else (reconstruct b).1).data ++ rest) =
            (tokenize rest).map (fun ts => (if prec > (reconstruct b).2 then
              Tok.lpar :: emit b ++ [Tok.rpar] else emit b) ++ ts) := by
          by_cases hc : prec > (reconstruct b).2
          · rw [if_pos hc, if_pos hc]
            exact hfragW b hnb hwb rest hb
          · rw [if_neg hc, if_neg hc]
            exact ih b hnb hwb rest hb
        have hL : tokenize ((if prec > (reconstruct a).2 then
            "(" ++ (reconstruct a).1 ++ ")" else (reconstruct a).1).data ++
              (' ' :: (text.data ++ (' ' :: ((if prec > (reconstruct b).2 then
                "(" ++ (reconstruct b).1 ++ ")" else (reconstruct b).1).data ++
                  rest))))) =
            (tokenize (' ' :: (text.data ++ (' ' :: ((if prec > (reconstruct b).2 then
                "(" ++ (reconstruct b).1 ++ ")" else (reconstruct b).1).data ++
                  rest))))).map (fun ts => (if prec > (reconstruct a).2 then
              Tok.lpar :: emit a ++ [Tok.rpar] else emit a) ++ ts) := by
          by_cases hc : prec > (reconstruct a).2
          · rw [if_pos hc, if_pos hc]
            exact hfragW a hna hwa _ rfl
          · rw [if_neg hc, if_neg hc]
            exact ih a hna hwa _ rfl
        have hdata : ((if prec > (reconstruct a).2 then
              "(" ++ (reconstruct a).1 ++ ")" else (reconstruct a).1) ++
            " " ++ text ++ " " ++
            (if prec > (reconstruct b).2 then
              "(" ++ (reconstruct b).1 ++ ")" else (reconstruct b).1)).data ++ rest =
            (if prec > (reconstruct a).2 then
              "(" ++ (reconstruct a).1 ++ ")" else (reconstruct a).1).data ++
              (' ' :: (text.data ++ (' ' :: ((if prec > (reconstruct b).2 then
                "(" ++ (reconstruct b).1 ++ ")" else (reconstruct b).1).data ++
                  rest)))) := by
          simp [String.data_append]
        rw [hdata, hL, tok_space, htok, hR]
        cases tokenize rest <;> simp
      rcases hfid with ((((((h1 | h1) | h1) | h1) | h1) | h1) | h1) <;> subst h1
      · have e1 := reconstruct_binary _ _ _ a b lookup_add
        have e2 : emit (.binaryOp "add" a b) =
            (if (6 : Int) > (reconstruct a).2 then
              Tok.lpar :: emit a ++ [Tok.rpar] else emit a) ++
              (Tok.plus :: (if (6 : Int) > (reconstruct b).2 then
                Tok.lpar :: emit b ++ [Tok.rpar] else emit b)) := by
          simp only [emit]
          rw [opPrec_of_lookup _ _ _ lookup_add,
            show opTok "add" = Tok.plus from rfl]
        rw [show (reconstruct (.binaryOp "add" a b)).1 =
            ((if (6 : Int) > (reconstruct a).2 then
              "(" ++ (reconstruct a).1 ++ ")" else (reconstruct a).1) ++
            " " ++ "+" ++ " " ++
            (if (6 : Int) > (reconstruct b).2 then
              "(" ++ (reconstruct b).1 ++ ")" else (reconstruct b).1)) from by rw [e1],
          e2]
        exact hbin "+" Tok.plus (fun T => by
          rw [show ("+" : String).data ++ (' ' :: T) = '+' :: ' ' :: T from rfl,
            tok_plus, tok_space]) 6
      · have e1 := reconstruct_binary _ _ _ a b lookup_sub
        have e2 : emit (.binaryOp "sub" a b) =
            (if (6 : Int) > (reconstruct a).2 then
              Tok.lpar :: emit a ++ [Tok.rpar] else emit a) ++
              (Tok.minus :: (if (6 : Int) > (reconstruct b).2 then
                Tok.lpar :: emit b ++ [Tok.rpar] else emit b)) := by
          simp only [emit]
          rw [opPrec_of_lookup _ _ _ lookup_sub,
            show opTok "sub" = Tok.minus from rfl]
        rw [show (reconstruct (.binaryOp "sub" a b)).1 =
            ((if (6 : Int) > (reconstruct a).2 then
              "(" ++ (reconstruct a).1 ++ ")" else (reconstruct a).1) ++
            " " ++ "-" ++ " " ++
            (if (6 : Int) > (reconstruct b).2 then
              "(" ++ (reconstruct b).1 ++ ")" else (reconstruct b).1)) from by rw [e1],
          e2]
        exact hbin "-" Tok.minus (fun T => by
          rw [show ("-" : String).data ++ (' ' :: T) = '-' :: ' ' :: T from rfl,
            tok_minus, tok_space]) 6
      · have e1 := reconstruct_binary _ _ _ a b lookup_mul
        have e2 : emit (.binaryOp "mul" a b) =
            (if (7 : Int) > (reconstruct a).2 then
              Tok.lpar :: emit a ++ [Tok.rpar] else emit a) ++
              (Tok.star :: (if (7 : Int) > (reconstruct b).2 then
                Tok.lpar :: emit b ++ [Tok.rpar] else emit b)) := by
          simp only [emit]
          rw [opPrec_of_lookup _ _ _ lookup_mul,
            show opTok "mul" = Tok.star from rfl]
        rw [show (reconstruct (.binaryOp "mul" a b)).1 =
            ((if (7 : Int) > (reconstruct a).2 then
              "(" ++ (reconstruct a).1 ++ ")" else (reconstruct a).1) ++
            " " ++ "*" ++ " " ++
            (if (7 : Int) > (reconstruct b).2 then
              "(" ++ (reconstruct b).1 ++ ")" else (reconstruct b).1)) from by rw [e1],
          e2]
        exact hbin "*" Tok.star (fun T => by
          rw [show ("*" : String).data ++ (' ' :: T) = '*' :: ' ' :: T from rfl,
            tok_star_space]) 7
      · have e1 := reconstruct_binary _ _ _ a b lookup_truediv
        have e2 : emit (.binaryOp "truediv" a b) =
            (if (7 : Int) > (reconstruct a).2 then
              Tok.lpar :: emit a ++ [Tok.rpar] else emit a) ++
              (Tok.slash :: (if (7 : Int) > (reconstruct b).2 then
                Tok.lpar :: emit b ++ [Tok.rpar] else emit b)) := by
          simp only [emit]
          rw [opPrec_of_lookup _ _ _ lookup_truediv,
            show opTok "truediv" = Tok.slash from rfl]
        rw [show (reconstruct (.binaryOp "truediv" a b)).1 =
            ((if (7 : Int) > (reconstruct a).2 then
              "(" ++ (reconstruct a).1 ++ ")" else (reconstruct a).1) ++
            " " ++ "/" ++ " " ++
            (if (7 : Int) > (reconstruct b).2 then
              "(" ++ (reconstruct b).1 ++ ")" else (reconstruct b).1)) from by rw [e1],
          e2]
        exact hbin "/" Tok.slash (fun T => by
          rw [show ("/" : String).data ++ (' ' :: T) = '/' :: ' ' :: T from rfl,
            tok_slash_space]) 7
      · have e1 := reconstruct_binary _ _ _ a b lookup_floordiv
        have e2 : emit (.binaryOp "floordiv" a b) =
            (if (7 : Int) > (reconstruct a).2 then
              Tok.lpar :: emit a ++ [Tok.rpar] else emit a) ++
              (Tok.dslash :: (if (7 : Int) > (reconstruct b).2 then
                Tok.lpar :: emit b ++ [Tok.rpar] else emit b)) := by
          simp only [emit]
          rw [opPrec_of_lookup _ _ _ lookup_floordiv,
            show opTok "floordiv" = Tok.dslash from rfl]
        rw [show (reconstruct (.binaryOp "floordiv" a b)).1 =
            ((if (7 : Int) > (reconstruct a).2 then
              "(" ++ (reconstruct a).1 ++ ")" else (reconstruct a).1) ++
            " " ++ "//" ++ " " ++
            (if (7 : Int) > (reconstruct b).2 then
              "(" ++ (reconstruct b).1 ++ ")" else (reconstruct b).1)) from by rw [e1],
          e2]
        exact hbin "//" Tok.dslash (fun T => by
          rw [show ("//" : String).data ++ (' ' :: T) = '/' :: '/' :: ' ' :: T from rfl,
            tok_dslash, tok_space]) 7
      · have e1 := reconstruct_binary _ _ _ a b lookup_mod
        have e2 : emit (.binaryOp "mod" a b) =
            (if (7 : Int) > (reconstruct a).2 then
              Tok.lpar :: emit a ++ [Tok.rpar] else emit a) ++
              (Tok.percent :: (if (7 : Int) > (reconstruct b).2 then
                Tok.lpar :: emit b ++ [Tok.rpar] else emit b)) := by
          simp only [emit]
          rw [opPrec_of_lookup _ _ _ lookup_mod,
            show opTok "mod" = Tok.percent from rfl]
        rw [show (reconstruct (.binaryOp "mod" a b)).1 =
            ((if (7 : Int) > (reconstruct a).2 then
              "(" ++ (reconstruct a).1 ++ ")" else (reconstruct a).1) ++
            " " ++ "%" ++ " " ++
            (if (7 : Int) > (reconstruct b).2 then
              "(" ++ (reconstruct b).1 ++ ")" else (reconstruct b).1)) from by rw [e1],
          e2]
        exact hbin "%" Tok.percent (fun T => by
          rw [show ("%" : String).data ++ (' ' :: T) = '%' :: ' ' :: T from rfl,
            tok_percent, tok_space]) 7
      · have e1 := reconstruct_binary _ _ _ a b lookup_pow
        have e2 : emit (.binaryOp "pow" a b) =
            (if (9 : Int) > (reconstruct a).2 then
              Tok.lpar :: emit a ++ [Tok.rpar] else emit a) ++
              (Tok.dstar :: (if (9 : Int) > (reconstruct b).2 then
                Tok.lpar :: emit b ++ [Tok.rpar] else emit b)) := by
          simp only [emit]
          rw [opPrec_of_lookup _ _ _ lookup_pow,
            show opTok "pow" = Tok.dstar from rfl]
        rw [show (reconstruct (.binaryOp "pow" a b)).1 =
            ((if (9 : Int) > (reconstruct a).2 then
              "(" ++ (reconstruct a).1 ++ ")" else (reconstruct a).1) ++
            " " ++ "**" ++ " " ++
            (if (9 : Int) > (reconstruct b).2 then
              "(" ++ (reconstruct b).1 ++ ")" else (reconstruct b).1)) from by rw [e1],
          e2]
        exact hbin "**" Tok.dstar (fun T => by
          rw [show ("**" : String).data ++ (' ' :: T) = '*' :: '*' :: ' ' :: T from rfl,
            tok_dstar, tok_space]) 9

/-- Full round trip: the rendered text of a well-formed,
parenthesization-safe tree parses back to the same tree. -/
theorem parse_reconstruct (t : DataNode) (hw : WFb t = true)
    (hp : PSb t = true) : parse_expression (reconstruct t).1 = some t := by
  unfold parse_expression
  have htok : tokenize (reconstruct t).1.data = some (emit t) := by
    have h := tok_render (nsize t) t (le_refl _) hw [] rfl
    rw [List.append_nil] at h
    rw [h]
    simp [tokenize]
  rw [htok]
  have hA : parseAddV (emit t) = some (t, []) := by
    have h := (parse_emit_all (nsize t) t (le_refl _) hw hp).2.2 [] rfl rfl
    rw [List.append_nil] at h
    rw [h, parseAddLoopV_stop t [] rfl]
  show (match parseAddV (emit t) with
    | some (a, []) => some a
    | _ => none) = some t
  rw [hA]

/-- The right-nested subtraction `a - (b - c)`. -/
def c9Right : DataNode :=
  .binaryOp "sub" (.leaf "a") (.binaryOp "sub" (.leaf "b") (.leaf "c"))

/-- The left-nested subtraction `(a - b) - c`. -/
def c9Left : DataNode :=
  .binaryOp "sub" (.binaryOp "sub" (.leaf "a") (.leaf "b")) (.leaf "c")

/-- C9 counterexample: `reconstruct` wraps a binary operand only when
the operator precedence strictly exceeds the operand precedence, so the
right-nested `a - (b - c)` renders as `a - b - c` (no parentheses: the
right operand has the same precedence 6), and re-parsing that text
rebuilds the left-associated `(a - b) - c`, a different tree. -/
theorem reconstruct_reparse_counterexample :
    WFb c9Right = true ∧
    (reconstruct c9Right).1 = (reconstruct c9Left).1 ∧
    parse_expression (reconstruct c9Right).1 = some c9Left ∧
    c9Left ≠ c9Right := by
  have hrender : (reconstruct c9Right).1 = (reconstruct c9Left).1 := by decide
  refine ⟨by decide, hrender, ?_, by decide⟩
  rw [hrender]
  exact parse_reconstruct c9Left (by decide) (by decide)

/-- C9 (amended).  For every well-formed operator-expression tree that
is parenthesization-safe (no right operand of a left-associative
operator at the operator's own precedence, and no precedence-9 left
operand of `**`), parsing the reconstructed text yields the original
tree; without that restriction the rendered text can re-parse to a
differently associated tree, as `a - (b - c)` shows. -/
theorem reconstruct_reparse_roundtrip (t : DataNode) (hw : WFb t = true)
    (hp : PSb t = true) : parse_expression (reconstruct t).1 = some t :=
  parse_reconstruct t hw hp

/-- A parenthesization-safe fixture: `a - b * c`. -/
def c9Wit : DataNode :=
  .binaryOp "sub" (.leaf "a") (.binaryOp "mul" (.leaf "b") (.leaf "c"))

theorem reconstruct_reparse_roundtrip_witness :
    WFb c9Wit = true ∧ PSb c9Wit = true ∧
    parse_expression (reconstruct c9Wit).1 = some c9Wit :=
  ⟨by decide, by decide, reconstruct_reparse_roundtrip c9Wit (by decide) (by decide)⟩

end NionSwift
